import Mathlib

/-!
VTOLSim: aircraft state machine, state queues and charger allocation.

A shallow embedding of `src/Models.h`, `src/Models.cpp`, `src/Utils.cpp` and the
sequential content of `src/Simulation.cpp`.

Modelling conventions
* `double` values are exact rationals (`ℚ`): every statement below is about the
  program in exact arithmetic, rounding is not modelled.
* `VTOL *` is a handle (`Nat`) into a heap of `VTOL` objects.
* `int numFaults` is a natural number (it only ever grows by one).
* Undefined behaviour of the source (popping an empty deque, a dangling handle)
  is the `none` result of an `Option`.
* The flags that the source drops (`push` in `updateVTOLs` and `moveVTOLs`) are kept
  by the `Log` variants of the loops, which return the queue operations made
  beside the result of the loop they follow.
-/

namespace VTOLSim

/-! ## Models.h -/

/-- The macro `UNLIMITED` of `Models.h`. -/
def UNLIMITED : Int := -1

/-- The enum `VTOLStatus`. -/
inductive VTOLStatus where
  | FLYING
  | WAITING
  | CHARGING
  deriving DecidableEq, Repr

/-- The enum `VTOLMake`. -/
inductive VTOLMake where
  | ALPHA
  | BETA
  | CHARLIE
  | DELTA
  | ECHO
  deriving DecidableEq, Repr

/-- The data members of `class VTOL`. -/
structure VTOL where
  state : VTOLStatus
  make : VTOLMake
  speed : Int
  chargeTime : ℚ
  drainTime : ℚ
  passengerCapacity : Int
  faultProbability : ℚ
  timeToStateChange : ℚ
  timeFlying : ℚ
  timeWaiting : ℚ
  timeCharging : ℚ
  numFaults : Nat
  timeInStateThisTick : ℚ
  deriving DecidableEq

/-! ## Utils.cpp -/

/-- The macro `TOLERANCE` of `Utils.cpp` (0.00001). -/
def TOLERANCE : ℚ := 1 / 100000

/-- The function `almostEqual`: `std::abs( a - b ) < TOLERANCE`. -/
def almostEqual (a b : ℚ) : Bool := decide (|a - b| < TOLERANCE)

/-! ## Models.cpp: VTOL -/

/-- The member `VTOL::Init`, applied to the members as the constructor's initialiser list and the
in-class initialisers leave them (`state`, `make` set, accumulators zero). -/
def VTOL.Init (make : VTOLMake) (speed batteryCapacity : Int) (chargeTime kwhPerMile : ℚ)
    (passengerCapacity : Int) (faultProbability : ℚ) : VTOL :=
  let drainTime : ℚ := ((batteryCapacity : ℚ) / kwhPerMile) / (speed : ℚ)
  { state := VTOLStatus.FLYING
    make := make
    speed := speed
    chargeTime := chargeTime
    drainTime := drainTime
    passengerCapacity := passengerCapacity
    faultProbability := faultProbability
    timeToStateChange := drainTime
    timeFlying := 0
    timeWaiting := 0
    timeCharging := 0
    numFaults := 0
    timeInStateThisTick := 0 }

/-- The constructor `VTOL::VTOL( VTOLMake make )`. -/
def VTOL.new (make : VTOLMake) : VTOL :=
  match make with
  | VTOLMake.ALPHA => VTOL.Init make 120 320 (6 / 10) (16 / 10) 4 (25 / 100)
  | VTOLMake.BETA => VTOL.Init make 100 100 (2 / 10) (15 / 10) 5 (10 / 100)
  | VTOLMake.CHARLIE => VTOL.Init make 160 220 (8 / 10) (22 / 10) 3 (5 / 100)
  | VTOLMake.DELTA => VTOL.Init make 90 120 (62 / 100) (8 / 10) 2 (22 / 100)
  | VTOLMake.ECHO => VTOL.Init make 30 150 (3 / 10) (58 / 10) 2 (61 / 100)

/-- The member `VTOL::hadFault`: `faultRoll < dTime * faultProbability`. -/
def VTOL.hadFault (v : VTOL) (dTime faultRoll : ℚ) : Bool :=
  decide (faultRoll < dTime * v.faultProbability)

/-- The member `VTOL::setState`. -/
def VTOL.setState (v : VTOL) (state : VTOLStatus) : VTOL :=
  let v := { v with state := state }
  match state with
  | VTOLStatus.FLYING => { v with timeToStateChange := v.drainTime }
  | VTOLStatus.CHARGING => { v with timeToStateChange := v.chargeTime }
  | VTOLStatus.WAITING => { v with timeToStateChange := (UNLIMITED : ℚ) }

/-- The member `VTOL::updateVTOL`: the unit after the call and the returned value. -/
def VTOL.updateVTOL (v : VTOL) (dTime faultRoll : ℚ) : VTOL × ℚ :=
  -- check if state needs to change this tick
  let timeInStartState : ℚ :=
    if v.timeToStateChange > 0 then min dTime v.timeToStateChange else dTime
  -- advance the time of the VTOL by the time spent in the initial state
  let v := { v with timeToStateChange := v.timeToStateChange - timeInStartState }
  let v :=
    match v.state with
    | VTOLStatus.FLYING =>
      let v := { v with timeFlying := v.timeFlying + timeInStartState }
      if v.hadFault timeInStartState faultRoll then { v with numFaults := v.numFaults + 1 } else v
    | VTOLStatus.CHARGING => { v with timeCharging := v.timeCharging + timeInStartState }
    | VTOLStatus.WAITING => { v with timeWaiting := v.timeWaiting + timeInStartState }
  -- if state changes this tick handle the state change
  let v :=
    if dTime > timeInStartState ∨ almostEqual v.timeToStateChange 0 = true then
      let v := { v with timeInStateThisTick := dTime - timeInStartState }
      match v.state with
      | VTOLStatus.FLYING =>
        let v := v.setState VTOLStatus.WAITING
        let v := { v with timeToStateChange := (UNLIMITED : ℚ) }
        { v with timeWaiting := v.timeWaiting + v.timeInStateThisTick }
      | VTOLStatus.CHARGING =>
        let v := v.setState VTOLStatus.FLYING
        let v := { v with timeToStateChange := v.drainTime - v.timeInStateThisTick }
        let v := { v with timeFlying := v.timeFlying + v.timeInStateThisTick }
        if v.hadFault v.timeInStateThisTick faultRoll then
          { v with numFaults := v.numFaults + 1 }
        else v
      | VTOLStatus.WAITING => v
    else
      { v with timeInStateThisTick := timeInStartState }
  (v, v.timeInStateThisTick)

/-- The member `VTOL::moveToCharger`. -/
def VTOL.moveToCharger (v : VTOL) (dTime : ℚ) : VTOL :=
  let dAdjustTime : ℚ := min dTime v.timeInStateThisTick
  let v := { v with timeWaiting := v.timeWaiting - dAdjustTime }
  let v := v.setState VTOLStatus.CHARGING
  (v.updateVTOL dAdjustTime 1).1

/-- The accessor `getTimeInFlight`. -/
def VTOL.getTimeInFlight (v : VTOL) : ℚ := v.timeFlying

/-- The accessor `getTimeWaiting`. -/
def VTOL.getTimeWaiting (v : VTOL) : ℚ := v.timeWaiting

/-- The accessor `getTimeCharging`. -/
def VTOL.getTimeCharging (v : VTOL) : ℚ := v.timeCharging

/-- The accessor `getNumFaults` (the ceiling of an integer is that integer). -/
def VTOL.getNumFaults (v : VTOL) : Nat := v.numFaults

/-- The accessor `getStatus`. -/
def VTOL.getStatus (v : VTOL) : VTOLStatus := v.state

/-- The member `VTOL::operator<`: `timeInStateThisTick > a.timeToStateChange`. -/
def VTOL.operator_lt (v a : VTOL) : Bool :=
  decide (v.timeInStateThisTick > a.timeToStateChange)

/-- The member `VTOL::operator>`: `timeInStateThisTick < a.timeToStateChange`. -/
def VTOL.operator_gt (v a : VTOL) : Bool :=
  decide (v.timeInStateThisTick < a.timeToStateChange)

/-- The sum `flightHours + waitHours + chargeHours` of the three accumulators. -/
def VTOL.totalHours (v : VTOL) : ℚ :=
  v.getTimeInFlight + v.getTimeWaiting + v.getTimeCharging

/-! ## Operation sequences on one unit -/

/-- One call made on a unit: `updateVTOL( dTime, faultRoll )` or `moveToCharger( dTime )`. -/
inductive VTOLOp where
  | update (dTime faultRoll : ℚ)
  | toCharger (dTime : ℚ)

/-- The unit after one call. -/
def VTOLOp.apply (v : VTOL) : VTOLOp → VTOL
  | VTOLOp.update dTime faultRoll => (v.updateVTOL dTime faultRoll).1
  | VTOLOp.toCharger dTime => v.moveToCharger dTime

/-- The call is made as the engine makes it: `updateVTOL` with a positive tick, `moveToCharger`
with a non-negative availability on a unit that is Waiting. -/
def VTOLOp.admissible (v : VTOL) : VTOLOp → Bool
  | VTOLOp.update dTime _ => decide (0 < dTime)
  | VTOLOp.toCharger dTime => decide (0 ≤ dTime) && decide (v.state = VTOLStatus.WAITING)

/-- The unit after a sequence of calls, first call first. -/
def runOps (v : VTOL) : List VTOLOp → VTOL
  | [] => v
  | op :: ops => runOps (op.apply v) ops

/-- Every call of the sequence is admissible in the state it is made in. -/
def admissibleOps (v : VTOL) : List VTOLOp → Bool
  | [] => true
  | op :: ops => op.admissible v && admissibleOps (op.apply v) ops

/-- The hours elapsed over a sequence of calls: the sum of the `dTime` of its `updateVTOL` calls. -/
def elapsedHours : List VTOLOp → ℚ
  | [] => 0
  | VTOLOp.update dTime _ :: ops => dTime + elapsedHours ops
  | VTOLOp.toCharger _ :: ops => elapsedHours ops

/-- A Waiting unit's countdown is at or below the `UNLIMITED` sentinel. -/
def WaitingSentinel (v : VTOL) : Prop :=
  v.state = VTOLStatus.WAITING → v.timeToStateChange ≤ (UNLIMITED : ℚ)

/-- Every `updateVTOL` call of the sequence advances by at most `bound` hours. -/
def dtBounded (bound : ℚ) : List VTOLOp → Bool
  | [] => true
  | VTOLOp.update dTime _ :: ops => decide (dTime ≤ bound) && dtBounded bound ops
  | VTOLOp.toCharger _ :: ops => dtBounded bound ops

/-- The countdown of a unit whose drain time is `D`: at or below the `UNLIMITED` sentinel when
it is Waiting, strictly positive when it is Flying or Charging; with it, the facts that keep it
so: positive charge time, and a time in state this tick between 0 and `D`. -/
def CountdownOK (D : ℚ) (v : VTOL) : Prop :=
  v.drainTime = D ∧ 0 < D ∧ 0 < v.chargeTime ∧
  0 ≤ v.timeInStateThisTick ∧ v.timeInStateThisTick ≤ D ∧
  (v.state = VTOLStatus.WAITING → v.timeToStateChange ≤ (UNLIMITED : ℚ)) ∧
  (v.state ≠ VTOLStatus.WAITING → 0 < v.timeToStateChange)

/-- The calls `updateVTOL( dTime, faultRoll )` for a list of pairs `(dTime, faultRoll)`. -/
def advances (calls : List (ℚ × ℚ)) : List VTOLOp :=
  calls.map (fun c => VTOLOp.update c.1 c.2)

/-- The first flight leg of a unit whose drain time is `D`: it has never charged, its flight
hours and its countdown add up to `D` while it is Flying, with a positive countdown, and its
countdown is at or below the sentinel once it is Waiting. -/
def FirstLeg (D : ℚ) (v : VTOL) : Prop :=
  v.drainTime = D ∧ v.state ≠ VTOLStatus.CHARGING ∧
  (v.state = VTOLStatus.FLYING → v.timeFlying + v.timeToStateChange = D ∧ 0 < v.timeToStateChange) ∧
  (v.state = VTOLStatus.WAITING → v.timeToStateChange ≤ (UNLIMITED : ℚ))

/-- The unit suits ticks of `h` hours: its charge time exceeds the tick by more than the
tolerance and its drain time exceeds the tick (a tick that is not positive counting as 0), its
time in state this tick is at most the tick, and its countdown is positive unless it is
Waiting. -/
def VTOL.Fits (h : ℚ) (v : VTOL) : Prop :=
  max h 0 + TOLERANCE < v.chargeTime ∧ max h 0 < v.drainTime ∧
  v.timeInStateThisTick ≤ max h 0 ∧
  (v.state ≠ VTOLStatus.WAITING → 0 < v.timeToStateChange)

/-! ## Models.h / Models.cpp: VTOLQueue -/

/-- A `VTOL *`: the handle of a unit in the heap of allocated units. -/
abbrev VTOLPtr := Nat

/-- The `std::default_random_engine` of a queue together with the `uniform_real_distribution`
drawn from it: the sequence of values it will produce and the number of draws made so far. -/
structure RandomEngine where
  draws : Nat → ℚ
  next : Nat

/-- The data members of `class VTOLQueue` that the modelled operations use (`generator` is `none`
for `nullptr`; the iterator `it` and `overchargeDurations` are not used by them). -/
structure VTOLQueue where
  generator : Option RandomEngine
  q : List VTOLPtr
  queueType : VTOLStatus
  capacity : Int

/-- The constructor `VTOLQueue( type, randSeed, capacity )`; `draws` stands for the engine that
`initGenerator` seeds from `clock()`. -/
def VTOLQueue.new (type : VTOLStatus) (draws : Nat → ℚ) (capacity : Int) : VTOLQueue :=
  { generator :=
      if type = VTOLStatus.FLYING then some { draws := draws, next := 0 } else none
    q := []
    queueType := type
    capacity := capacity }

/-- The member `VTOLQueue::size`. -/
def VTOLQueue.size (Q : VTOLQueue) : Nat := Q.q.length

/-- The member `VTOLQueue::empty`. -/
def VTOLQueue.empty (Q : VTOLQueue) : Bool := Q.q.isEmpty

/-- The member `VTOLQueue::full`: `capacity != UNLIMITED && q.size() == capacity`. A negative
capacity other than `UNLIMITED` is never equal to a size, in the source (where it is converted to a
huge unsigned value) as here. -/
def VTOLQueue.full (Q : VTOLQueue) : Bool :=
  decide (Q.capacity ≠ UNLIMITED) && decide ((Q.q.length : Int) = Q.capacity)

/-- The member `VTOLQueue::push`: the queue after the call and the returned flag. -/
def VTOLQueue.push (Q : VTOLQueue) (p : VTOLPtr) : VTOLQueue × Bool :=
  if Q.full then (Q, false)
  else ({ Q with q := Q.q ++ [p] }, true)

/-- The member `VTOLQueue::pop`: the returned handle and the queue after the call; `none` on an
empty queue, where `front()` is undefined. -/
def VTOLQueue.pop (Q : VTOLQueue) : Option (VTOLPtr × VTOLQueue) :=
  match Q.q with
  | [] => none
  | p :: rest => some (p, { Q with q := rest })

/-- The member `VTOLQueue::getFaultRoll`: the roll and the queue after the draw. -/
def VTOLQueue.getFaultRoll (Q : VTOLQueue) : ℚ × VTOLQueue :=
  match Q.generator with
  | none => (1, Q)
  | some g => (g.draws g.next, { Q with generator := some { g with next := g.next + 1 } })

/-! ## Operation sequences on one queue -/

/-- One call made on a queue. -/
inductive QueueOp where
  | push (p : VTOLPtr)
  | pop

/-- The queue after a sequence of calls, first call first; `none` when a `pop` meets an empty
queue. -/
def runQueueOps (Q : VTOLQueue) : List QueueOp → Option VTOLQueue
  | [] => some Q
  | QueueOp.push p :: ops => runQueueOps (Q.push p).1 ops
  | QueueOp.pop :: ops =>
    match Q.pop with
    | none => none
    | some (_, Q1) => runQueueOps Q1 ops

/-- Pushes the handles in order: the queue afterwards and the flag each `push` returned. -/
def pushAll (Q : VTOLQueue) : List VTOLPtr → VTOLQueue × List Bool
  | [] => (Q, [])
  | p :: ps =>
    let r := Q.push p
    let rs := pushAll r.1 ps
    (rs.1, r.2 :: rs.2)

/-- Pops `n` times: the handles returned, in order, and the queue afterwards. -/
def popN : Nat → VTOLQueue → Option (List VTOLPtr × VTOLQueue)
  | 0, Q => some ([], Q)
  | n + 1, Q =>
    match Q.pop with
    | none => none
    | some (p, Q1) =>
      match popN n Q1 with
      | none => none
      | some (ps, Q2) => some (p :: ps, Q2)

/-! ## Simulation.h / Simulation.cpp: SimulationEngine -/

/-- The data members of `class SimulationEngine`, with the heap of the units allocated by
`new VTOL` (a handle is an index into `heap`). -/
structure SimulationEngine where
  flyingQueue : VTOLQueue
  waitingQueue : VTOLQueue
  chargingQueue : VTOLQueue
  VTOLs : List VTOLPtr
  chargerAvailabilityTimes : List ℚ
  tickLength : ℚ
  hoursPerTick : ℚ
  heap : List VTOL

/-- The constructor `SimulationEngine::SimulationEngine`, for given values of the macros
`NUM_CHARGERS` and `TICK_PER_SEC` (3 and 30 unless overridden). -/
def SimulationEngine.new (NUM_CHARGERS TICK_PER_SEC : Int) (draws : Nat → ℚ) : SimulationEngine :=
  let tickLength : ℚ := 1 / (TICK_PER_SEC : ℚ)
  { flyingQueue := VTOLQueue.new VTOLStatus.FLYING draws UNLIMITED
    waitingQueue := VTOLQueue.new VTOLStatus.WAITING draws UNLIMITED
    chargingQueue := VTOLQueue.new VTOLStatus.CHARGING draws NUM_CHARGERS
    VTOLs := []
    chargerAvailabilityTimes := []
    tickLength := tickLength
    hoursPerTick := tickLength / 60
    heap := [] }

/-- The member `SimulationEngine::addNewVTOL`. -/
def SimulationEngine.addNewVTOL (e : SimulationEngine) (make : VTOLMake) : SimulationEngine :=
  let p : VTOLPtr := e.heap.length
  let e := { e with heap := e.heap ++ [VTOL.new make], VTOLs := e.VTOLs ++ [p] }
  { e with flyingQueue := (e.flyingQueue.push p).1 }

/-- The member `SimulationEngine::getQueuePointerFromType`, read side. -/
def SimulationEngine.getQueue (e : SimulationEngine) (queueType : VTOLStatus) : VTOLQueue :=
  match queueType with
  | VTOLStatus.FLYING => e.flyingQueue
  | VTOLStatus.WAITING => e.waitingQueue
  | VTOLStatus.CHARGING => e.chargingQueue

/-- The member `SimulationEngine::getQueuePointerFromType`, write side. -/
def SimulationEngine.setQueue (e : SimulationEngine) (queueType : VTOLStatus) (Q : VTOLQueue) :
    SimulationEngine :=
  match queueType with
  | VTOLStatus.FLYING => { e with flyingQueue := Q }
  | VTOLStatus.WAITING => { e with waitingQueue := Q }
  | VTOLStatus.CHARGING => { e with chargingQueue := Q }

/-- The cast `static_cast<VTOLStatus>( ( queueType + 1 ) % 3 )` on the enum values
`FLYING = 0`, `WAITING = 1`, `CHARGING = 2`. -/
def nextQueueType : VTOLStatus → VTOLStatus
  | VTOLStatus.FLYING => VTOLStatus.WAITING
  | VTOLStatus.WAITING => VTOLStatus.CHARGING
  | VTOLStatus.CHARGING => VTOLStatus.FLYING

/-- The first branch of `moveVTOLs`: the `for` loop pushing the changed units into the next
queue, the flag of `push` being dropped as in the source. -/
def SimulationEngine.pushChanged (e : SimulationEngine) (next : VTOLStatus) :
    List VTOLPtr → SimulationEngine
  | [] => e
  | p :: ps => SimulationEngine.pushChanged (e.setQueue next ((e.getQueue next).push p).1) next ps

/-- The second branch of `moveVTOLs`: the `while` loop, run for at most `fuel` iterations, with
the local `chargerAvailIdx` as the source leaves it in each iteration. -/
def SimulationEngine.allocateLoop (chargerAvailIdx : Nat) :
    Nat → SimulationEngine → Option SimulationEngine
  | 0, e => some e
  | fuel + 1, e =>
    if (!e.chargingQueue.full && !e.waitingQueue.empty) = true then
      match e.waitingQueue.pop with
      | none => none
      | some (curVTOL, wq) =>
        let e := { e with waitingQueue := wq }
        let dTime : Option ℚ :=
          if chargerAvailIdx ≥ e.chargerAvailabilityTimes.length then some e.hoursPerTick
          else e.chargerAvailabilityTimes[chargerAvailIdx]?
        match dTime, e.heap[curVTOL]? with
        | some d, some v =>
          let e := { e with heap := e.heap.set curVTOL (v.moveToCharger d) }
          let e := { e with chargingQueue := (e.chargingQueue.push curVTOL).1 }
          SimulationEngine.allocateLoop chargerAvailIdx fuel e
        | _, _ => none
    else some e

/-- The member `SimulationEngine::moveVTOLs`; `stateChangedVTOLs` is `none` for `nullptr`. The
`while` loop pops one unit per iteration, so the size of the Waiting queue bounds its iterations. -/
def SimulationEngine.moveVTOLs (e : SimulationEngine) (queueType : VTOLStatus)
    (stateChangedVTOLs : Option (List VTOLPtr)) : Option SimulationEngine :=
  let next := nextQueueType queueType
  if queueType ≠ VTOLStatus.WAITING then
    match stateChangedVTOLs with
    | none => none
    | some changed => some (e.pushChanged next changed)
  else
    match SimulationEngine.allocateLoop 0 e.waitingQueue.size e with
    | none => none
    | some e => some { e with chargerAvailabilityTimes := [] }

/-- The call `std::sort( begin, end, std::greater<double>() )` on the availability list: the
values in non-increasing order. -/
def sortDescending (l : List ℚ) : List ℚ := l.insertionSort (fun a b => a ≥ b)

/-- The call `std::sort( begin, end )` on a `vector<VTOL *>`: the elements are pointers, so the
comparison is the one of pointers, and the order of the handles stands for it. -/
def sortPointers (l : List VTOLPtr) : List VTOLPtr := l.insertionSort (fun a b => a ≤ b)

/-- The `for` loop of `updateVTOLs`, for the `n` iterations that remain; `stateChangedVTOLs` is
`none` for `nullptr`. -/
def SimulationEngine.updateLoop (queueType : VTOLStatus) :
    Nat → SimulationEngine → Option (List VTOLPtr) →
      Option (SimulationEngine × Option (List VTOLPtr))
  | 0, e, stateChangedVTOLs => some (e, stateChangedVTOLs)
  | n + 1, e, stateChangedVTOLs =>
    match (e.getQueue queueType).pop with
    | none => none
    | some (curVTOL, Q) =>
      let roll := Q.getFaultRoll
      let e := e.setQueue queueType roll.2
      match e.heap[curVTOL]? with
      | none => none
      | some v =>
        let r := v.updateVTOL e.hoursPerTick roll.1
        let e := { e with heap := e.heap.set curVTOL r.1 }
        match stateChangedVTOLs with
        | some changed =>
          if queueType ≠ r.1.getStatus then
            let e :=
              if queueType = VTOLStatus.CHARGING then
                { e with chargerAvailabilityTimes := e.chargerAvailabilityTimes ++ [r.2] }
              else e
            SimulationEngine.updateLoop queueType n e (some (changed ++ [curVTOL]))
          else
            SimulationEngine.updateLoop queueType n
              (e.setQueue queueType ((e.getQueue queueType).push curVTOL).1) (some changed)
        | none =>
          SimulationEngine.updateLoop queueType n
            (e.setQueue queueType ((e.getQueue queueType).push curVTOL).1) none

/-- The member `SimulationEngine::updateVTOLs`: the engine and the changed list after the
call. -/
def SimulationEngine.updateVTOLs (e : SimulationEngine) (queueType : VTOLStatus)
    (stateChangedVTOLs : Option (List VTOLPtr)) :
    Option (SimulationEngine × Option (List VTOLPtr)) :=
  let VTOLsInQueue := (e.getQueue queueType).size
  match SimulationEngine.updateLoop queueType VTOLsInQueue e stateChangedVTOLs with
  | none => none
  | some (e, changed) =>
    if queueType = VTOLStatus.CHARGING then
      some ({ e with chargerAvailabilityTimes := sortDescending e.chargerAvailabilityTimes },
        changed)
    else
      match changed with
      | some ch =>
        if queueType = VTOLStatus.FLYING then some (e, some (sortPointers ch))
        else some (e, some ch)
      | none => some (e, none)

/-- The changed list that `processQueue` hands to `updateVTOLs`: a fresh vector unless the
worker is the Waiting one, for which it is `nullptr`. -/
def workerChangedList (queueType : VTOLStatus) : Option (List VTOLPtr) :=
  if queueType ≠ VTOLStatus.WAITING then some [] else none

/-- One tick of the three `processQueue` workers, run one after the other: Phase A
(`updateVTOLs` of each worker, with a fresh changed list for the Flying and the Charging worker
and `nullptr` for the Waiting worker), Phase B (`moveVTOLs` of the Flying and of the Charging
worker), Phase C (`moveVTOLs` of the Waiting worker). -/
def SimulationEngine.tick (e : SimulationEngine) : Option SimulationEngine :=
  match e.updateVTOLs VTOLStatus.FLYING (some []) with
  | none => none
  | some (e, changedFlying) =>
    match e.updateVTOLs VTOLStatus.CHARGING (some []) with
    | none => none
    | some (e, changedCharging) =>
      match e.updateVTOLs VTOLStatus.WAITING none with
      | none => none
      | some (e, _) =>
        match e.moveVTOLs VTOLStatus.FLYING changedFlying with
        | none => none
        | some e =>
          match e.moveVTOLs VTOLStatus.CHARGING changedCharging with
          | none => none
          | some e => e.moveVTOLs VTOLStatus.WAITING none

/-- The tick loop of `processQueue`, for `n` ticks. -/
def SimulationEngine.runTicks : Nat → SimulationEngine → Option SimulationEngine
  | 0, e => some e
  | n + 1, e =>
    match e.tick with
    | none => none
    | some e => SimulationEngine.runTicks n e

/-- The engine of `run` loaded with a fleet of the given makes by `addNewVTOL`, in place of the
random makes of `init`. -/
def SimulationEngine.load (e : SimulationEngine) : List VTOLMake → SimulationEngine
  | [] => e
  | make :: makes => SimulationEngine.load (e.addNewVTOL make) makes

/-- The accessor `getPassengerMiles`. -/
def VTOL.getPassengerMiles (v : VTOL) : ℚ :=
  v.timeFlying * (v.speed : ℚ) * (v.passengerCapacity : ℚ)

/-- The figures that `displayMakeSummary` prints for a make. -/
structure MakeSummary where
  flightTime : ℚ
  waitTime : ℚ
  chargeTime : ℚ
  maxFaults : Nat
  totalPassengerMiles : ℚ
  deriving DecidableEq

/-- The accumulation loop of `displayMakeSummary` over the units of the fleet. -/
def summaryLoop (make : VTOLMake) : List VTOL → Nat × MakeSummary → Nat × MakeSummary
  | [], acc => acc
  | curVTOL :: rest, (count, s) =>
    if curVTOL.make = make then
      summaryLoop make rest
        (count + 1,
          { flightTime := s.flightTime + curVTOL.getTimeInFlight
            chargeTime := s.chargeTime + curVTOL.getTimeCharging
            waitTime := s.waitTime + curVTOL.getTimeWaiting
            maxFaults := if curVTOL.getNumFaults > s.maxFaults then curVTOL.getNumFaults
              else s.maxFaults
            totalPassengerMiles := s.totalPassengerMiles + curVTOL.getPassengerMiles })
    else summaryLoop make rest (count, s)

/-- The member `SimulationEngine::displayMakeSummary`, up to the printing: the averages are
divided by the count when the count exceeds one. -/
def SimulationEngine.displayMakeSummary (e : SimulationEngine) (make : VTOLMake) :
    Option MakeSummary :=
  match e.VTOLs.mapM (fun p => e.heap[p]?) with
  | none => none
  | some units =>
    let r := summaryLoop make units
      (0, { flightTime := 0, waitTime := 0, chargeTime := 0, maxFaults := 0,
            totalPassengerMiles := 0 })
    if r.1 > 1 then
      some { r.2 with
        flightTime := r.2.flightTime / (r.1 : ℚ)
        chargeTime := r.2.chargeTime / (r.1 : ℚ)
        waitTime := r.2.waitTime / (r.1 : ℚ) }
    else some r.2

/-! ## The queue operations of a tick -/

/-- A queue operation made during a tick, with what decides whether it takes its error branch:
a `pop` on the queue of a type and the size of that queue before it, a `push` into the queue of
a type and the flag it returned, an access `chargerAvailabilityTimes.at( idx )` and the size of
the list. -/
inductive QueueEvent where
  | pop (queueType : VTOLStatus) (size : Nat)
  | push (queueType : VTOLStatus) (accepted : Bool)
  | index (idx size : Nat)
  deriving DecidableEq

/-- The operation does not take its error branch: the queue popped is not empty, the push is
accepted, the index is within the bounds of the list. -/
def QueueEvent.ok : QueueEvent → Bool
  | QueueEvent.pop _ size => decide (0 < size)
  | QueueEvent.push _ accepted => accepted
  | QueueEvent.index idx size => decide (idx < size)

/-- The `for` loop of `updateVTOLs` as `SimulationEngine.updateLoop`, with the queue operations
it makes, in order. -/
def SimulationEngine.updateLoopLog (queueType : VTOLStatus) :
    Nat → SimulationEngine → Option (List VTOLPtr) →
      Option ((SimulationEngine × Option (List VTOLPtr)) × List QueueEvent)
  | 0, e, stateChangedVTOLs => some ((e, stateChangedVTOLs), [])
  | n + 1, e, stateChangedVTOLs =>
    let popped := QueueEvent.pop queueType (e.getQueue queueType).size
    match (e.getQueue queueType).pop with
    | none => none
    | some (curVTOL, Q) =>
      let roll := Q.getFaultRoll
      let e := e.setQueue queueType roll.2
      match e.heap[curVTOL]? with
      | none => none
      | some v =>
        let r := v.updateVTOL e.hoursPerTick roll.1
        let e := { e with heap := e.heap.set curVTOL r.1 }
        match stateChangedVTOLs with
        | some changed =>
          if queueType ≠ r.1.getStatus then
            let e :=
              if queueType = VTOLStatus.CHARGING then
                { e with chargerAvailabilityTimes := e.chargerAvailabilityTimes ++ [r.2] }
              else e
            (SimulationEngine.updateLoopLog queueType n e (some (changed ++ [curVTOL]))).map
              (fun s => (s.1, popped :: s.2))
          else
            let pushed := (e.getQueue queueType).push curVTOL
            (SimulationEngine.updateLoopLog queueType n (e.setQueue queueType pushed.1)
              (some changed)).map
              (fun s => (s.1, popped :: QueueEvent.push queueType pushed.2 :: s.2))
        | none =>
          let pushed := (e.getQueue queueType).push curVTOL
          (SimulationEngine.updateLoopLog queueType n (e.setQueue queueType pushed.1) none).map
            (fun s => (s.1, popped :: QueueEvent.push queueType pushed.2 :: s.2))

/-- The member `SimulationEngine::updateVTOLs` as `SimulationEngine.updateVTOLs`, with the
queue operations it makes. -/
def SimulationEngine.updateVTOLsLog (e : SimulationEngine) (queueType : VTOLStatus)
    (stateChangedVTOLs : Option (List VTOLPtr)) :
    Option ((SimulationEngine × Option (List VTOLPtr)) × List QueueEvent) :=
  let VTOLsInQueue := (e.getQueue queueType).size
  match SimulationEngine.updateLoopLog queueType VTOLsInQueue e stateChangedVTOLs with
  | none => none
  | some ((e, changed), log) =>
    if queueType = VTOLStatus.CHARGING then
      some (({ e with chargerAvailabilityTimes := sortDescending e.chargerAvailabilityTimes },
        changed), log)
    else
      match changed with
      | some ch =>
        if queueType = VTOLStatus.FLYING then some ((e, some (sortPointers ch)), log)
        else some ((e, some ch), log)
      | none => some ((e, none), log)

/-- The first branch of `moveVTOLs` as `SimulationEngine.pushChanged`, with the pushes it
makes. -/
def SimulationEngine.pushChangedLog (e : SimulationEngine) (next : VTOLStatus) :
    List VTOLPtr → SimulationEngine × List QueueEvent
  | [] => (e, [])
  | p :: ps =>
    let pushed := (e.getQueue next).push p
    let s := SimulationEngine.pushChangedLog (e.setQueue next pushed.1) next ps
    (s.1, QueueEvent.push next pushed.2 :: s.2)

/-- The second branch of `moveVTOLs` as `SimulationEngine.allocateLoop`, with the queue
operations and the accesses to the availability list it makes. -/
def SimulationEngine.allocateLoopLog (chargerAvailIdx : Nat) :
    Nat → SimulationEngine → Option (SimulationEngine × List QueueEvent)
  | 0, e => some (e, [])
  | fuel + 1, e =>
    if (!e.chargingQueue.full && !e.waitingQueue.empty) = true then
      let popped := QueueEvent.pop VTOLStatus.WAITING e.waitingQueue.size
      match e.waitingQueue.pop with
      | none => none
      | some (curVTOL, wq) =>
        let e := { e with waitingQueue := wq }
        let dTime : Option ℚ :=
          if chargerAvailIdx ≥ e.chargerAvailabilityTimes.length then some e.hoursPerTick
          else e.chargerAvailabilityTimes[chargerAvailIdx]?
        let indexed : List QueueEvent :=
          if chargerAvailIdx ≥ e.chargerAvailabilityTimes.length then []
          else [QueueEvent.index chargerAvailIdx e.chargerAvailabilityTimes.length]
        match dTime, e.heap[curVTOL]? with
        | some d, some v =>
          let e := { e with heap := e.heap.set curVTOL (v.moveToCharger d) }
          let pushed := e.chargingQueue.push curVTOL
          let e := { e with chargingQueue := pushed.1 }
          (SimulationEngine.allocateLoopLog chargerAvailIdx fuel e).map
            (fun s => (s.1,
              popped :: (indexed ++ QueueEvent.push VTOLStatus.CHARGING pushed.2 :: s.2)))
        | _, _ => none
    else some (e, [])

/-- The member `SimulationEngine::moveVTOLs` as `SimulationEngine.moveVTOLs`, with the queue
operations it makes. -/
def SimulationEngine.moveVTOLsLog (e : SimulationEngine) (queueType : VTOLStatus)
    (stateChangedVTOLs : Option (List VTOLPtr)) : Option (SimulationEngine × List QueueEvent) :=
  let next := nextQueueType queueType
  if queueType ≠ VTOLStatus.WAITING then
    match stateChangedVTOLs with
    | none => none
    | some changed => some (e.pushChangedLog next changed)
  else
    match SimulationEngine.allocateLoopLog 0 e.waitingQueue.size e with
    | none => none
    | some (e, log) => some ({ e with chargerAvailabilityTimes := [] }, log)

/-- One tick as `SimulationEngine.tick`, with the queue operations of its three phases, in
order. -/
def SimulationEngine.tickLog (e : SimulationEngine) :
    Option (SimulationEngine × List QueueEvent) :=
  match e.updateVTOLsLog VTOLStatus.FLYING (some []) with
  | none => none
  | some ((e, changedFlying), logFlying) =>
    match e.updateVTOLsLog VTOLStatus.CHARGING (some []) with
    | none => none
    | some ((e, changedCharging), logCharging) =>
      match e.updateVTOLsLog VTOLStatus.WAITING none with
      | none => none
      | some ((e, _), logWaiting) =>
        match e.moveVTOLsLog VTOLStatus.FLYING changedFlying with
        | none => none
        | some (e, logToWaiting) =>
          match e.moveVTOLsLog VTOLStatus.CHARGING changedCharging with
          | none => none
          | some (e, logToFlying) =>
            match e.moveVTOLsLog VTOLStatus.WAITING none with
            | none => none
            | some (e, logAllocate) =>
              some (e, logFlying ++ logCharging ++ logWaiting ++ logToWaiting ++ logToFlying ++
                logAllocate)

/-! ## Reading an engine state -/

/-- The state of the unit behind a handle, `none` for a handle that is not in the heap. -/
def SimulationEngine.stateOf (e : SimulationEngine) (p : VTOLPtr) : Option VTOLStatus :=
  (e.heap[p]?).map VTOL.state

/-- The time in state this tick of the unit behind a handle: the value its last `updateVTOL`
returned. -/
def SimulationEngine.residualOf (e : SimulationEngine) (p : VTOLPtr) : ℚ :=
  ((e.heap[p]?).map VTOL.timeInStateThisTick).getD 0

/-- The unit behind the handle goes to the changed list of Phase A: there is a changed list and
the state of the unit is not the type of the queue. -/
def SimulationEngine.leaves (e : SimulationEngine) (queueType : VTOLStatus) (tracked : Bool)
    (p : VTOLPtr) : Bool :=
  tracked && decide (e.stateOf p ≠ some queueType)

/-- A queue accepts pushes up to `n` units: it is unbounded or `n` is within its capacity. -/
def VTOLQueue.holds (Q : VTOLQueue) (n : Nat) : Prop :=
  Q.capacity = UNLIMITED ∨ (n : Int) ≤ Q.capacity

/-- The engine after an iteration of the `for` loop of `updateVTOLs` in which the unit `p`,
advanced to `r.1` with returned value `r.2`, went to the changed list; `Q` is the queue after
the pop and the draw of the roll. -/
def SimulationEngine.movedOut (e : SimulationEngine) (queueType : VTOLStatus) (Q : VTOLQueue)
    (p : VTOLPtr) (r : VTOL × ℚ) : SimulationEngine :=
  { e.setQueue queueType Q with
    heap := e.heap.set p r.1
    chargerAvailabilityTimes := e.chargerAvailabilityTimes ++
      (if queueType = VTOLStatus.CHARGING then [r.2] else []) }

/-- The engine after an iteration of the `for` loop of `updateVTOLs` in which the unit `p`,
advanced to `r.1`, was pushed back into the queue. -/
def SimulationEngine.pushedBack (e : SimulationEngine) (queueType : VTOLStatus) (Q : VTOLQueue)
    (p : VTOLPtr) (r : VTOL × ℚ) : SimulationEngine :=
  ({ e with heap := e.heap.set p r.1 } : SimulationEngine).setQueue queueType (Q.push p).1

/-- What the `for` loop of `updateVTOLs` on the handles `ps` leaves of the engine `e` in the
engine `e1`, apart from the contents of its own queue: each unit of `ps` advanced once by
`hoursPerTick`, the other units and queues as they were, and for the Charging queue one residual
time appended to the availability list per unit that goes to the changed list. -/
structure PhaseAResult (queueType : VTOLStatus) (tracked : Bool) (ps : List VTOLPtr)
    (e e1 : SimulationEngine) : Prop where
  heap_length : e1.heap.length = e.heap.length
  heap_other : ∀ i, i ∉ ps → e1.heap[i]? = e.heap[i]?
  heap_updated : ∀ p ∈ ps, ∃ v roll,
    e.heap[p]? = some v ∧ e1.heap[p]? = some (v.updateVTOL e.hoursPerTick roll).1
  queue_other : ∀ t, t ≠ queueType → e1.getQueue t = e.getQueue t
  capacity_eq : (e1.getQueue queueType).capacity = (e.getQueue queueType).capacity
  queueType_eq : (e1.getQueue queueType).queueType = (e.getQueue queueType).queueType
  hoursPerTick_eq : e1.hoursPerTick = e.hoursPerTick
  tickLength_eq : e1.tickLength = e.tickLength
  VTOLs_eq : e1.VTOLs = e.VTOLs
  availability : e1.chargerAvailabilityTimes = e.chargerAvailabilityTimes ++
    (if queueType = VTOLStatus.CHARGING then
      ((ps.filter (e1.leaves queueType tracked)).map e1.residualOf)
     else [])

/-- The argument that an iteration of the `while` loop of `moveVTOLs` passes to
`moveToCharger`: the full tick when `chargerAvailIdx` is not below the size of the availability
list, the entry at `chargerAvailIdx` otherwise. -/
def SimulationEngine.chargerOffer (e : SimulationEngine) (chargerAvailIdx : Nat) : ℚ :=
  if chargerAvailIdx ≥ e.chargerAvailabilityTimes.length then e.hoursPerTick
  else e.chargerAvailabilityTimes.getD chargerAvailIdx 0

/-- The engine after an iteration of the `while` loop of `moveVTOLs` that popped the unit `p`,
left the Waiting queue as `wq` and the unit as `v`, and pushed it into the Charging queue. -/
def SimulationEngine.allocated (e : SimulationEngine) (wq : VTOLQueue) (p : VTOLPtr)
    (v : VTOL) : SimulationEngine :=
  { e with
    waitingQueue := wq
    heap := e.heap.set p v
    chargingQueue := (e.chargingQueue.push p).1 }

/-- What the `while` loop of `moveVTOLs` leaves of the engine `e` in the engine `e1` when it
moved the units `moved`, apart from the contents of the Waiting and the Charging queue. -/
structure PhaseCResult (chargerAvailIdx : Nat) (moved : List VTOLPtr)
    (e e1 : SimulationEngine) : Prop where
  heap_length : e1.heap.length = e.heap.length
  heap_other : ∀ i, i ∉ moved → e1.heap[i]? = e.heap[i]?
  heap_moved : moved.Nodup → ∀ p ∈ moved, ∃ v,
    e.heap[p]? = some v ∧ e1.heap[p]? = some (v.moveToCharger (e.chargerOffer chargerAvailIdx))
  flyingQueue_eq : e1.flyingQueue = e.flyingQueue
  waiting_capacity : e1.waitingQueue.capacity = e.waitingQueue.capacity
  charging_capacity : e1.chargingQueue.capacity = e.chargingQueue.capacity
  availability_eq : e1.chargerAvailabilityTimes = e.chargerAvailabilityTimes
  hoursPerTick_eq : e1.hoursPerTick = e.hoursPerTick
  tickLength_eq : e1.tickLength = e.tickLength
  VTOLs_eq : e1.VTOLs = e.VTOLs

/-! ## The engine up to fault counts and random draws -/

/-- The unit with its fault count set to zero: what is left of it when the rolls are ignored. -/
def VTOL.withoutFaults (v : VTOL) : VTOL := { v with numFaults := 0 }

/-- The contents, type and capacity of a queue, without its random engine. -/
structure QueueView where
  q : List VTOLPtr
  queueType : VTOLStatus
  capacity : Int
  deriving DecidableEq

/-- The engine without the random engines of its queues and the fault counts of its units. -/
structure EngineView where
  flyingQueue : QueueView
  waitingQueue : QueueView
  chargingQueue : QueueView
  VTOLs : List VTOLPtr
  chargerAvailabilityTimes : List ℚ
  tickLength : ℚ
  hoursPerTick : ℚ
  heap : List VTOL
  deriving DecidableEq

/-- The view of a queue. -/
def VTOLQueue.view (Q : VTOLQueue) : QueueView :=
  { q := Q.q, queueType := Q.queueType, capacity := Q.capacity }

/-- The view of an engine. -/
def SimulationEngine.view (e : SimulationEngine) : EngineView :=
  { flyingQueue := e.flyingQueue.view
    waitingQueue := e.waitingQueue.view
    chargingQueue := e.chargingQueue.view
    VTOLs := e.VTOLs
    chargerAvailabilityTimes := e.chargerAvailabilityTimes
    tickLength := e.tickLength
    hoursPerTick := e.hoursPerTick
    heap := e.heap.map VTOL.withoutFaults }

/-- The unit after one `updateVTOL` of a tick, fault count left out. -/
def VTOL.advance (hoursPerTick : ℚ) (v : VTOL) : VTOL :=
  (v.updateVTOL hoursPerTick 1).1.withoutFaults

/-- A queue with the given view and no random engine. -/
def QueueView.queue (Q : QueueView) : VTOLQueue :=
  { generator := none, q := Q.q, queueType := Q.queueType, capacity := Q.capacity }

/-- An engine with the given view and no random engine in any queue. -/
def EngineView.engine (o : EngineView) : SimulationEngine :=
  { flyingQueue := o.flyingQueue.queue
    waitingQueue := o.waitingQueue.queue
    chargingQueue := o.chargingQueue.queue
    VTOLs := o.VTOLs
    chargerAvailabilityTimes := o.chargerAvailabilityTimes
    tickLength := o.tickLength
    hoursPerTick := o.hoursPerTick
    heap := o.heap }

/-- One tick, on views. -/
def tickView (o : EngineView) : Option EngineView :=
  o.engine.tick.map SimulationEngine.view

/-- The tick loop for `n` ticks, on views. -/
def runView : Nat → EngineView → Option EngineView
  | 0, o => some o
  | n + 1, o =>
    match tickView o with
    | none => none
    | some o1 => runView n o1

/-- The unit can be advanced `k` ticks without a change of state: a Flying or Charging unit has
a countdown of at least `k` ticks and the tolerance, a Waiting unit has its countdown at or
below the sentinel. -/
def VTOL.stableFor (k : Nat) (hoursPerTick : ℚ) (v : VTOL) : Bool :=
  match v.state with
  | VTOLStatus.WAITING => decide (v.timeToStateChange ≤ (UNLIMITED : ℚ))
  | _ => decide ((k : ℚ) * hoursPerTick + TOLERANCE ≤ v.timeToStateChange)

/-- The unit after `k` ticks without a change of state, fault count left out. -/
def VTOL.coast (k : Nat) (hoursPerTick : ℚ) (v : VTOL) : VTOL :=
  if k = 0 then v.withoutFaults
  else
    match v.state with
    | VTOLStatus.FLYING =>
      { v with
        timeToStateChange := v.timeToStateChange - (k : ℚ) * hoursPerTick
        timeFlying := v.timeFlying + (k : ℚ) * hoursPerTick
        timeInStateThisTick := hoursPerTick
        numFaults := 0 }
    | VTOLStatus.WAITING =>
      { v with
        timeToStateChange := v.timeToStateChange - (k : ℚ) * hoursPerTick
        timeWaiting := v.timeWaiting + (k : ℚ) * hoursPerTick
        timeInStateThisTick := hoursPerTick
        numFaults := 0 }
    | VTOLStatus.CHARGING =>
      { v with
        timeToStateChange := v.timeToStateChange - (k : ℚ) * hoursPerTick
        timeCharging := v.timeCharging + (k : ℚ) * hoursPerTick
        timeInStateThisTick := hoursPerTick
        numFaults := 0 }

/-- The handles of the three queues, Flying first. -/
def EngineView.queued (o : EngineView) : List VTOLPtr :=
  o.flyingQueue.q ++ o.chargingQueue.q ++ o.waitingQueue.q

/-- Every unit of the list of handles is in the heap and in the given state. -/
def EngineView.allInState (o : EngineView) (ps : List VTOLPtr) (s : VTOLStatus) : Bool :=
  ps.all (fun p => decide ((o.heap[p]?).map VTOL.state = some s))

/-- The engine is set for `k` ticks in which nothing happens but the passing of time: the
queues hold each unit of the heap exactly once, each in the queue of its state, the Flying and
the Waiting queue are unbounded and the Charging queue is within its capacity, no charger can
be given away (the Charging queue is full or the Waiting queue is empty), the availability list
is empty, and every unit can be advanced `k` ticks without a change of state. -/
def EngineView.quietFor (k : Nat) (o : EngineView) : Bool :=
  decide o.queued.Nodup &&
  o.queued.all (fun p => decide (p < o.heap.length)) &&
  (List.range o.heap.length).all (fun i => o.queued.contains i) &&
  o.allInState o.flyingQueue.q VTOLStatus.FLYING &&
  o.allInState o.chargingQueue.q VTOLStatus.CHARGING &&
  o.allInState o.waitingQueue.q VTOLStatus.WAITING &&
  decide (o.flyingQueue.capacity = UNLIMITED) &&
  decide (o.waitingQueue.capacity = UNLIMITED) &&
  decide ((o.chargingQueue.q.length : Int) ≤ o.chargingQueue.capacity) &&
  (decide ((o.chargingQueue.q.length : Int) = o.chargingQueue.capacity) ||
    o.waitingQueue.q.isEmpty) &&
  decide (o.chargerAvailabilityTimes = []) &&
  decide (0 ≤ o.hoursPerTick) &&
  o.heap.all (VTOL.stableFor k o.hoursPerTick)

/-- The view after `k` ticks in which nothing happens but the passing of time. -/
def EngineView.coast (k : Nat) (o : EngineView) : EngineView :=
  { o with heap := o.heap.map (VTOL.coast k o.hoursPerTick) }

/-- A step of a plan for a run of the engine: `k` ticks in which nothing happens but the
passing of time, or one tick in full. -/
inductive PlanStep where
  | coast (k : Nat)
  | tick

/-- The number of ticks that a plan covers. -/
def planTicks : List PlanStep → Nat
  | [] => 0
  | PlanStep.coast k :: plan => k + planTicks plan
  | PlanStep.tick :: plan => 1 + planTicks plan

/-- The view at the end of a plan: a `coast` step is taken only from a view that is set for
it, a `tick` step is the tick of the engine. -/
def runPlan : List PlanStep → EngineView → Option EngineView
  | [], o => some o
  | PlanStep.coast k :: plan, o =>
    if o.quietFor k = true then runPlan plan (o.coast k) else none
  | PlanStep.tick :: plan, o =>
    match tickView o with
    | none => none
    | some o1 => runPlan plan o1

/-- The figures of a summary that do not depend on the fault counts. -/
def MakeSummary.times (s : MakeSummary) : ℚ × ℚ × ℚ × ℚ :=
  (s.flightTime, s.waitTime, s.chargeTime, s.totalPassengerMiles)

/-- The engine of the default configuration (3 chargers, 30 ticks per second) loaded with six
ALPHA aircraft. -/
def sixAlpha (draws : Nat → ℚ) : SimulationEngine :=
  (SimulationEngine.new 3 30 draws).load (List.replicate 6 VTOLMake.ALPHA)

/-- The 5400 ticks of the six ALPHA aircraft in seven steps: all fly for 2999 ticks and run out
of battery in the next; three charge and three wait for 1079 ticks, the chargers change hands
in the next; three fly and three charge for 1079 ticks, the last three take off in the next;
all fly for the last 240 ticks. -/
def sixAlphaPlan : List PlanStep :=
  [PlanStep.coast 2999, PlanStep.tick, PlanStep.coast 1079, PlanStep.tick,
   PlanStep.coast 1079, PlanStep.tick, PlanStep.coast 240]

/-- What a Phase A in which no unit of the queue changes state leaves of the engine `e` in the
engine `e1`: the queues, up to their random engines, and the other members as they were, the
availability list empty, and each unit of `ps` advanced once by `hoursPerTick`. -/
structure QuietStep (ps : List VTOLPtr) (e e1 : SimulationEngine) : Prop where
  queues : ∀ t, (e1.getQueue t).view = (e.getQueue t).view
  VTOLs_eq : e1.VTOLs = e.VTOLs
  tickLength_eq : e1.tickLength = e.tickLength
  hoursPerTick_eq : e1.hoursPerTick = e.hoursPerTick
  availability : e1.chargerAvailabilityTimes = []
  heap_length : e1.heap.length = e.heap.length
  heap_other : ∀ i, i ∉ ps → e1.heap[i]? = e.heap[i]?
  heap_updated : ∀ p ∈ ps, ∃ v roll,
    e.heap[p]? = some v ∧ e1.heap[p]? = some (v.updateVTOL e.hoursPerTick roll).1

/-- The conditions of `EngineView.quietFor`, as propositions. -/
structure QuietFacts (k : Nat) (o : EngineView) : Prop where
  nodup : o.queued.Nodup
  valid : ∀ p ∈ o.queued, p < o.heap.length
  covered : ∀ i, i < o.heap.length → i ∈ o.queued
  flying_state : ∀ p ∈ o.flyingQueue.q, (o.heap[p]?).map VTOL.state = some VTOLStatus.FLYING
  charging_state : ∀ p ∈ o.chargingQueue.q,
    (o.heap[p]?).map VTOL.state = some VTOLStatus.CHARGING
  waiting_state : ∀ p ∈ o.waitingQueue.q,
    (o.heap[p]?).map VTOL.state = some VTOLStatus.WAITING
  flying_capacity : o.flyingQueue.capacity = UNLIMITED
  waiting_capacity : o.waitingQueue.capacity = UNLIMITED
  charging_capacity : (o.chargingQueue.q.length : Int) ≤ o.chargingQueue.capacity
  no_charger : (o.chargingQueue.q.length : Int) = o.chargingQueue.capacity ∨
    o.waitingQueue.q = []
  availability : o.chargerAvailabilityTimes = []
  tick_nonneg : 0 ≤ o.hoursPerTick
  stable : ∀ v ∈ o.heap, v.stableFor k o.hoursPerTick = true

/-- The heap of the view holds no fault count: the view is the view of an engine. -/
def IsView (o : EngineView) : Prop := o.heap.map VTOL.withoutFaults = o.heap

/-! ## The fleet and its queues -/

/-- The state of the fleet at a point of a tick: the fleet holds each unit once, and each unit is
in exactly one of the three queues or of the two changed lists (`toWaiting` of the Flying worker,
`toFlying` of the Charging worker); the units in the Flying queue and bound for it are Flying,
those in the Charging queue are Charging, those in the Waiting queue and bound for it are
Waiting; every unit suits the tick; the Flying and the Waiting queue are unbounded and the
Charging queue is within its capacity. -/
structure MidTick (e : SimulationEngine) (toWaiting toFlying : List VTOLPtr) : Prop where
  fleet : e.VTOLs.Nodup
  perm : (e.view.queued ++ toWaiting ++ toFlying).Perm e.VTOLs
  valid : ∀ p ∈ e.VTOLs, p < e.heap.length
  fits : ∀ (i : Nat) (v : VTOL), e.heap[i]? = some v → v.Fits e.hoursPerTick
  flying_state : ∀ p, p ∈ e.flyingQueue.q ∨ p ∈ toFlying →
    e.stateOf p = some VTOLStatus.FLYING
  charging_state : ∀ p, p ∈ e.chargingQueue.q → e.stateOf p = some VTOLStatus.CHARGING
  waiting_state : ∀ p, p ∈ e.waitingQueue.q ∨ p ∈ toWaiting →
    e.stateOf p = some VTOLStatus.WAITING
  flying_capacity : e.flyingQueue.capacity = UNLIMITED
  waiting_capacity : e.waitingQueue.capacity = UNLIMITED
  charging_capacity : (e.chargingQueue.size : Int) ≤ e.chargingQueue.capacity

/-- The queues of the engine are sound: every handle they hold is in the heap, the size of each
is within its capacity, and the Flying and the Waiting queue are unbounded, as the constructor
makes them. -/
structure QueuesValid (e : SimulationEngine) : Prop where
  valid : ∀ t, ∀ p ∈ (e.getQueue t).q, p < e.heap.length
  holds : ∀ t, (e.getQueue t).holds (e.getQueue t).size
  unbounded : ∀ t, t ≠ VTOLStatus.CHARGING → (e.getQueue t).capacity = UNLIMITED

/-! ## Concrete inputs -/

/-- The scenario of `tests.cpp` up to the charger transfer: two advances of 1.0 h and one of
0.5 h. -/
def testAdvances : List VTOLOp :=
  [VTOLOp.update 1 0, VTOLOp.update 1 10000, VTOLOp.update (1 / 2) 0]

/-- The whole scenario of `tests.cpp` for one unit. -/
def testScenario : List VTOLOp :=
  testAdvances ++ [VTOLOp.toCharger 1, VTOLOp.update (15 / 100) 0]

/-- An ALPHA unit that has flown its battery empty and then waited five hours in one advance. -/
def waitedFiveHours : VTOL :=
  runOps (VTOL.new VTOLMake.ALPHA) [VTOLOp.update (5 / 3) 1, VTOLOp.update 5 1]

/-- The scenario of `tests.cpp` up to the charger transfer, followed by one advance of 34/15 h,
longer than the 0.1 h of charge left and the drain time together. -/
def longAdvance : List VTOLOp :=
  testAdvances ++ [VTOLOp.toCharger 1, VTOLOp.update (34 / 15) 1]

/-- A Charging queue of three chargers holding the units 0, 1, 2. -/
def fullChargingQueue : VTOLQueue :=
  (pushAll (VTOLQueue.new VTOLStatus.CHARGING (fun _ => 0) 3) [0, 1, 2]).1

/-- The default tick of the engine in hours: `( 1.0 / 30 ) / 60`. -/
def defaultHoursPerTick : ℚ := 1 / 1800

/-- An ALPHA unit that has flown its battery empty and waited one whole tick. -/
def waitedOneTick : VTOL :=
  runOps (VTOL.new VTOLMake.ALPHA)
    [VTOLOp.update (5 / 3) 1, VTOLOp.update defaultHoursPerTick 1]

/-- A BETA unit that has flown its battery empty, moved to a charger at once, and charged until
`left` hours of charge remained. -/
def chargedUntil (left : ℚ) : VTOL :=
  runOps (VTOL.new VTOLMake.BETA)
    [VTOLOp.update (2 / 3) 1, VTOLOp.toCharger 0, VTOLOp.update (2 / 10 - left) 1]

/-- An engine state at the start of Phase C of a tick, with three chargers: the units 0 and 1
have waited the whole tick, the units 2 and 3 finished charging in Phase A of this tick,
3/10000 h and 1/10000 h before its end, and were moved to the Flying queue in Phase B, the unit 4
is still charging; the availability list holds the residual times of the units 2 and 3 in
descending order, and two chargers are free. -/
def allocationExample : SimulationEngine :=
  let e := SimulationEngine.new 3 30 (fun _ => 1)
  { e with
    heap := [waitedOneTick, waitedOneTick,
      ((chargedUntil (defaultHoursPerTick - 3 / 10000)).updateVTOL defaultHoursPerTick 1).1,
      ((chargedUntil (defaultHoursPerTick - 1 / 10000)).updateVTOL defaultHoursPerTick 1).1,
      chargedUntil (1 / 10)]
    VTOLs := [0, 1, 2, 3, 4]
    waitingQueue := (pushAll e.waitingQueue [0, 1]).1
    flyingQueue := (pushAll e.flyingQueue [2, 3]).1
    chargingQueue := (pushAll e.chargingQueue [4]).1
    chargerAvailabilityTimes :=
      [((chargedUntil (defaultHoursPerTick - 3 / 10000)).updateVTOL defaultHoursPerTick 1).2,
       ((chargedUntil (defaultHoursPerTick - 1 / 10000)).updateVTOL defaultHoursPerTick 1).2] }

/-- An ALPHA unit that has flown until `left` hours of flight remained. -/
def flownUntil (left : ℚ) : VTOL :=
  runOps (VTOL.new VTOLMake.ALPHA) [VTOLOp.update (5 / 3 - left) 1]

/-- An ALPHA unit that ran out of battery `residual` hours before the end of a default tick: it
is Waiting, with `residual` as its time in state this tick. -/
def justWaiting (residual : ℚ) : VTOL :=
  ((flownUntil (defaultHoursPerTick - residual)).updateVTOL defaultHoursPerTick 1).1

/-- An engine state at the start of Phase A of a tick: the units 0 and 1 are in the Flying
queue and run out of battery during the tick, the unit 0 with 1/10000 h of the tick left and
the unit 1 with 3/10000 h left. -/
def rankingExample : SimulationEngine :=
  let e := SimulationEngine.new 3 30 (fun _ => 1)
  { e with
    heap := [flownUntil (defaultHoursPerTick - 1 / 10000),
      flownUntil (defaultHoursPerTick - 3 / 10000)]
    VTOLs := [0, 1]
    flyingQueue := (pushAll e.flyingQueue [0, 1]).1 }

/-- An engine state at the start of Phase A of a tick, with three chargers: the units 0 and 1
finish charging during the tick, 1/10000 h and 3/10000 h before its end, and the unit 2 has
0.1 h of charge left. -/
def chargingExample : SimulationEngine :=
  let e := SimulationEngine.new 3 30 (fun _ => 1)
  { e with
    heap := [chargedUntil (defaultHoursPerTick - 1 / 10000),
      chargedUntil (defaultHoursPerTick - 3 / 10000), chargedUntil (1 / 10)]
    VTOLs := [0, 1, 2]
    chargingQueue := (pushAll e.chargingQueue [0, 1, 2]).1 }

/-- An engine state at the start of a tick, with three chargers: the unit 0 is Flying and runs
out of battery during the tick, the unit 1 has waited one tick, the unit 2 finishes charging
3/10000 h before the end of the tick and the unit 3 has 0.1 h of charge left. -/
def busyExample : SimulationEngine :=
  let e := SimulationEngine.new 3 30 (fun _ => 1)
  { e with
    heap := [flownUntil (defaultHoursPerTick - 1 / 10000), waitedOneTick,
      chargedUntil (defaultHoursPerTick - 3 / 10000), chargedUntil (1 / 10)]
    VTOLs := [0, 1, 2, 3]
    flyingQueue := (pushAll e.flyingQueue [0]).1
    waitingQueue := (pushAll e.waitingQueue [1]).1
    chargingQueue := (pushAll e.chargingQueue [2, 3]).1 }

/-! ## Lemmas on the state machine -/

theorem updateVTOL_totalHours (v : VTOL) (dTime faultRoll : ℚ)
    (hw : v.state = VTOLStatus.WAITING → v.timeToStateChange ≤ 0 ∨ dTime ≤ v.timeToStateChange) :
    (v.updateVTOL dTime faultRoll).1.totalHours = v.totalHours + dTime := by
  obtain ⟨state, make, speed, chargeTime, drainTime, pc, fp, ttsc, tf, tw, tc, nf, tist⟩ := v
  cases state <;>
    simp only [VTOL.updateVTOL, VTOL.totalHours, VTOL.getTimeInFlight, VTOL.getTimeWaiting,
      VTOL.getTimeCharging, VTOL.setState, VTOL.hadFault] <;>
    split_ifs <;> simp_all <;>
    first
      | ring1
      | (rcases hw with h | h
         · linarith
         · rw [min_eq_left h]; ring1)

theorem almostEqual_zero_false_of_le (x : ℚ) (h : x ≤ (UNLIMITED : ℚ)) :
    almostEqual x 0 = false := by
  have h1 : x ≤ -1 := by simpa [UNLIMITED] using h
  have h2 : |x - 0| = -x := by
    rw [sub_zero]; exact abs_of_nonpos (by linarith)
  simp only [almostEqual, TOLERANCE, h2, decide_eq_false_iff_not, not_lt]
  linarith

theorem updateVTOL_waiting (v : VTOL) (dTime faultRoll : ℚ)
    (hs : v.state = VTOLStatus.WAITING) (hc : v.timeToStateChange ≤ (UNLIMITED : ℚ))
    (hd : 0 < dTime) :
    v.updateVTOL dTime faultRoll =
      ({ v with timeToStateChange := v.timeToStateChange - dTime
                timeWaiting := v.timeWaiting + dTime
                timeInStateThisTick := dTime }, dTime) := by
  obtain ⟨state, make, speed, chargeTime, drainTime, pc, fp, ttsc, tf, tw, tc, nf, tist⟩ := v
  simp only at hs hc
  subst hs
  have h1 : ttsc ≤ -1 := by simpa [UNLIMITED] using hc
  have h2 : ¬ (0 < ttsc) := by linarith
  have h3 : almostEqual (ttsc - dTime) 0 = false :=
    almostEqual_zero_false_of_le _ (by simp only [UNLIMITED]; push_cast; linarith)
  simp [VTOL.updateVTOL, h2, h3]

theorem updateVTOL_waitingSentinel (v : VTOL) (dTime faultRoll : ℚ)
    (hv : WaitingSentinel v) (hd : 0 < dTime) :
    WaitingSentinel (v.updateVTOL dTime faultRoll).1 := by
  intro hs
  cases hst : v.state with
  | WAITING =>
    rw [updateVTOL_waiting v dTime faultRoll hst (hv hst) hd]
    have := hv hst
    simp only
    linarith
  | FLYING =>
    obtain ⟨state, make, speed, chargeTime, drainTime, pc, fp, ttsc, tf, tw, tc, nf, tist⟩ := v
    simp only at hst
    subst hst
    revert hs
    simp only [VTOL.updateVTOL, VTOL.setState, VTOL.hadFault]
    split_ifs <;> simp
  | CHARGING =>
    obtain ⟨state, make, speed, chargeTime, drainTime, pc, fp, ttsc, tf, tw, tc, nf, tist⟩ := v
    simp only at hst
    subst hst
    revert hs
    simp only [VTOL.updateVTOL, VTOL.setState, VTOL.hadFault]
    split_ifs <;> simp

theorem moveToCharger_state_ne_waiting (v : VTOL) (dTime : ℚ) :
    (v.moveToCharger dTime).state ≠ VTOLStatus.WAITING := by
  obtain ⟨state, make, speed, chargeTime, drainTime, pc, fp, ttsc, tf, tw, tc, nf, tist⟩ := v
  simp only [VTOL.moveToCharger, VTOL.updateVTOL, VTOL.setState, VTOL.hadFault]
  split_ifs <;> simp

theorem moveToCharger_totalHours (v : VTOL) (dTime : ℚ) :
    (v.moveToCharger dTime).totalHours = v.totalHours := by
  unfold VTOL.moveToCharger
  simp only
  rw [updateVTOL_totalHours _ _ _ (by intro h; simp [VTOL.setState] at h)]
  simp only [VTOL.totalHours, VTOL.getTimeInFlight, VTOL.getTimeWaiting, VTOL.getTimeCharging,
    VTOL.setState]
  ring

theorem new_waitingSentinel (make : VTOLMake) : WaitingSentinel (VTOL.new make) := by
  intro h
  cases make <;> simp [VTOL.new, VTOL.Init] at h

theorem apply_waitingSentinel (v : VTOL) (op : VTOLOp) (hv : WaitingSentinel v)
    (ha : op.admissible v = true) : WaitingSentinel (op.apply v) := by
  cases op with
  | update dTime faultRoll =>
    simp only [VTOLOp.admissible, decide_eq_true_eq] at ha
    exact updateVTOL_waitingSentinel v dTime faultRoll hv ha
  | toCharger dTime =>
    intro h
    exact absurd h (moveToCharger_state_ne_waiting v dTime)

theorem apply_totalHours (v : VTOL) (op : VTOLOp) (hv : WaitingSentinel v)
    (ha : op.admissible v = true) :
    (op.apply v).totalHours = v.totalHours + elapsedHours [op] := by
  cases op with
  | update dTime faultRoll =>
    simp only [VTOLOp.admissible, decide_eq_true_eq] at ha
    simp only [VTOLOp.apply, elapsedHours, add_zero]
    refine updateVTOL_totalHours v dTime faultRoll ?_
    intro hs
    left
    have := hv hs
    simp only [UNLIMITED] at this
    push_cast at this
    linarith
  | toCharger dTime =>
    simp only [VTOLOp.apply, elapsedHours, add_zero]
    exact moveToCharger_totalHours v dTime

theorem elapsedHours_cons (op : VTOLOp) (ops : List VTOLOp) :
    elapsedHours (op :: ops) = elapsedHours [op] + elapsedHours ops := by
  cases op <;> simp [elapsedHours]

theorem runOps_invariant (ops : List VTOLOp) :
    ∀ v : VTOL, WaitingSentinel v → admissibleOps v ops = true →
      WaitingSentinel (runOps v ops) ∧
        (runOps v ops).totalHours = v.totalHours + elapsedHours ops := by
  induction ops with
  | nil =>
    intro v hv _
    exact ⟨hv, by simp [runOps, elapsedHours]⟩
  | cons op ops ih =>
    intro v hv ha
    simp only [admissibleOps, Bool.and_eq_true] at ha
    obtain ⟨h1, h2⟩ := ih (op.apply v) (apply_waitingSentinel v op hv ha.1) ha.2
    refine ⟨h1, ?_⟩
    simp only [runOps]
    rw [h2, apply_totalHours v op hv ha.1, elapsedHours_cons op ops]
    ring

theorem updateVTOL_countdownOK (D : ℚ) (v : VTOL) (dTime faultRoll : ℚ)
    (hv : CountdownOK D v) (h0 : 0 ≤ dTime) (hD : dTime ≤ D) :
    CountdownOK D (v.updateVTOL dTime faultRoll).1 := by
  obtain ⟨state, make, speed, chargeTime, drainTime, pc, fp, ttsc, tf, tw, tc, nf, tist⟩ := v
  obtain ⟨h1, h2, h3, h4, h5, h6, h7⟩ := hv
  simp only at h1 h3 h4 h5 h6 h7
  subst h1
  cases state
  · have hc : 0 < ttsc := h7 (by simp)
    rcases le_total dTime ttsc with hle | hle
    · simp only [VTOL.updateVTOL, VTOL.setState, VTOL.hadFault, hc, if_true, CountdownOK,
        almostEqual, TOLERANCE, UNLIMITED, sub_zero, min_eq_left hle]
      split_ifs <;> simp_all <;>
        first
          | linarith
          | (have h := ‹(100000 : ℚ)⁻¹ ≤ |ttsc - dTime|›
             rw [abs_of_nonneg (sub_nonneg.mpr hle)] at h
             have hpos : (0 : ℚ) < 100000⁻¹ := by norm_num
             linarith)
    · simp only [VTOL.updateVTOL, VTOL.setState, VTOL.hadFault, hc, if_true, CountdownOK,
        almostEqual, TOLERANCE, UNLIMITED, sub_zero, min_eq_right hle, sub_self, abs_zero]
      split_ifs <;> simp_all <;> linarith
  · have hc : ttsc ≤ -1 := by simpa [UNLIMITED] using h6 rfl
    have hn : ¬ (0 < ttsc) := by linarith
    have h3b : almostEqual (ttsc - dTime) 0 = false :=
      almostEqual_zero_false_of_le _ (by simp only [UNLIMITED]; push_cast; linarith)
    simp only [VTOL.updateVTOL, hn, if_false, h3b, CountdownOK, UNLIMITED]
    simp_all
    linarith
  · have hc : 0 < ttsc := h7 (by simp)
    rcases le_total dTime ttsc with hle | hle
    · simp only [VTOL.updateVTOL, VTOL.setState, VTOL.hadFault, hc, if_true, CountdownOK,
        almostEqual, TOLERANCE, UNLIMITED, sub_zero, min_eq_left hle]
      split_ifs <;> simp_all <;>
        first
          | linarith
          | (have h := ‹(100000 : ℚ)⁻¹ ≤ |ttsc - dTime|›
             rw [abs_of_nonneg (sub_nonneg.mpr hle)] at h
             have hpos : (0 : ℚ) < 100000⁻¹ := by norm_num
             linarith)
    · simp only [VTOL.updateVTOL, VTOL.setState, VTOL.hadFault, hc, if_true, CountdownOK,
        almostEqual, TOLERANCE, UNLIMITED, sub_zero, min_eq_right hle, sub_self, abs_zero]
      split_ifs <;> simp_all <;>
        first
          | linarith
          | (constructor <;> linarith)

theorem moveToCharger_countdownOK (D : ℚ) (v : VTOL) (a : ℚ)
    (hv : CountdownOK D v) (ha : 0 ≤ a) : CountdownOK D (v.moveToCharger a) := by
  obtain ⟨h1, h2, h3, h4, h5, -, -⟩ := hv
  unfold VTOL.moveToCharger
  refine updateVTOL_countdownOK D _ _ 1 ?_ (le_min ha h4) (le_trans (min_le_right _ _) h5)
  refine ⟨h1, h2, h3, h4, h5, ?_, ?_⟩
  · intro hs
    simp [VTOL.setState] at hs
  · intro _
    simpa [VTOL.setState] using h3

theorem new_countdownOK (make : VTOLMake) :
    CountdownOK (VTOL.new make).drainTime (VTOL.new make) := by
  cases make <;> simp [CountdownOK, VTOL.new, VTOL.Init] <;> norm_num

theorem apply_countdownOK (D : ℚ) (v : VTOL) (op : VTOLOp) (hv : CountdownOK D v)
    (ha : op.admissible v = true) (hb : dtBounded D [op] = true) :
    CountdownOK D (op.apply v) := by
  cases op with
  | update dTime faultRoll =>
    simp only [VTOLOp.admissible, decide_eq_true_eq] at ha
    simp only [dtBounded, Bool.and_true, decide_eq_true_eq] at hb
    exact updateVTOL_countdownOK D v dTime faultRoll hv ha.le hb
  | toCharger dTime =>
    simp only [VTOLOp.admissible, Bool.and_eq_true, decide_eq_true_eq] at ha
    exact moveToCharger_countdownOK D v dTime hv ha.1

theorem dtBounded_cons (D : ℚ) (op : VTOLOp) (ops : List VTOLOp) :
    dtBounded D (op :: ops) = (dtBounded D [op] && dtBounded D ops) := by
  cases op <;> simp [dtBounded]

theorem runOps_countdownOK (D : ℚ) (ops : List VTOLOp) :
    ∀ v : VTOL, CountdownOK D v → admissibleOps v ops = true → dtBounded D ops = true →
      CountdownOK D (runOps v ops) := by
  induction ops with
  | nil =>
    intro v hv _ _
    exact hv
  | cons op ops ih =>
    intro v hv ha hb
    simp only [admissibleOps, Bool.and_eq_true] at ha
    rw [dtBounded_cons, Bool.and_eq_true] at hb
    exact ih _ (apply_countdownOK D v op hv ha.1 hb.1) ha.2 hb.2

theorem updateVTOL_numFaults_sentinel (v : VTOL) (d : ℚ) (hp : 0 ≤ v.faultProbability)
    (hd0 : 0 ≤ d) (hd : d * v.faultProbability ≤ 1) :
    (v.updateVTOL d 1).1.numFaults = v.numFaults := by
  obtain ⟨state, make, speed, chargeTime, drainTime, pc, fp, ttsc, tf, tw, tc, nf, tist⟩ := v
  simp only at hp hd
  have hmul : ∀ x : ℚ, x ≤ d → decide (1 < x * fp) = false := by
    intro x hx
    refine decide_eq_false ?_
    intro hlt
    have : x * fp ≤ d * fp := mul_le_mul_of_nonneg_right hx hp
    linarith
  have e2 : decide (1 < d * fp) = false := hmul _ le_rfl
  have e4 : decide (1 < (d - d) * fp) = false := hmul _ (by linarith)
  by_cases hc : 0 < ttsc
  · have e1 : decide (1 < min d ttsc * fp) = false := hmul _ (min_le_left _ _)
    have e3 : decide (1 < (d - min d ttsc) * fp) = false :=
      hmul _ (by linarith [le_min hd0 hc.le])
    cases state <;>
      simp only [VTOL.updateVTOL, VTOL.setState, VTOL.hadFault, hc, if_true, e1, e3,
        Bool.false_eq_true, if_false] <;>
      split_ifs <;> rfl
  · cases state <;>
      simp only [VTOL.updateVTOL, VTOL.setState, VTOL.hadFault, hc, if_false, e2, e4,
        Bool.false_eq_true] <;>
      split_ifs <;> rfl

/-! ## Lemmas on the queue -/

theorem push_capacity (Q : VTOLQueue) (p : VTOLPtr) : (Q.push p).1.capacity = Q.capacity := by
  unfold VTOLQueue.push
  split_ifs <;> rfl

theorem push_of_not_full (Q : VTOLQueue) (p : VTOLPtr) (h : Q.full = false) :
    Q.push p = ({ Q with q := Q.q ++ [p] }, true) := by
  simp [VTOLQueue.push, h]

theorem push_of_full (Q : VTOLQueue) (p : VTOLPtr) (h : Q.full = true) :
    Q.push p = (Q, false) := by
  simp [VTOLQueue.push, h]

theorem full_iff (Q : VTOLQueue) :
    Q.full = true ↔ Q.capacity ≠ UNLIMITED ∧ (Q.size : Int) = Q.capacity := by
  simp [VTOLQueue.full, VTOLQueue.size]

theorem push_size_le (Q : VTOLQueue) (p : VTOLPtr) (h0 : 0 ≤ Q.capacity)
    (h : (Q.size : Int) ≤ Q.capacity) : ((Q.push p).1.size : Int) ≤ Q.capacity := by
  by_cases hf : Q.full = true
  · rw [push_of_full Q p hf]; exact h
  · have hf2 : Q.full = false := by simpa using hf
    rw [push_of_not_full Q p hf2]
    have hne : ¬ (Q.capacity ≠ UNLIMITED ∧ (Q.size : Int) = Q.capacity) :=
      fun hh => hf ((full_iff Q).mpr hh)
    have hcap : Q.capacity ≠ UNLIMITED := by
      intro hc
      rw [hc] at h0
      simp [UNLIMITED] at h0
    have hlt : (Q.size : Int) ≠ Q.capacity := fun hh => hne ⟨hcap, hh⟩
    simp only [VTOLQueue.size, List.length_append, List.length_singleton] at *
    omega

theorem pop_some (Q : VTOLQueue) (p : VTOLPtr) (Q1 : VTOLQueue) (h : Q.pop = some (p, Q1)) :
    Q.q = p :: Q1.q ∧ Q1 = { Q with q := Q1.q } := by
  unfold VTOLQueue.pop at h
  split at h
  · exact absurd h (by simp)
  · rename_i x rest hq
    simp only [Option.some.injEq, Prod.mk.injEq] at h
    obtain ⟨h1, h2⟩ := h
    subst h1
    subst h2
    exact ⟨hq, rfl⟩

theorem runQueueOps_invariant (ops : List QueueOp) :
    ∀ Q0 Q : VTOLQueue, runQueueOps Q0 ops = some Q →
      Q.capacity = Q0.capacity ∧
      (0 ≤ Q0.capacity → (Q0.size : Int) ≤ Q0.capacity → (Q.size : Int) ≤ Q0.capacity) := by
  induction ops with
  | nil =>
    intro Q0 Q h
    simp only [runQueueOps, Option.some.injEq] at h
    subst h
    exact ⟨rfl, fun _ hle => hle⟩
  | cons op ops ih =>
    intro Q0 Q h
    cases op with
    | push p =>
      simp only [runQueueOps] at h
      obtain ⟨h1, h2⟩ := ih _ _ h
      rw [push_capacity] at h1 h2
      exact ⟨h1, fun h0 hle => h2 h0 (push_size_le Q0 p h0 hle)⟩
    | pop =>
      simp only [runQueueOps] at h
      cases hp : Q0.pop with
      | none => rw [hp] at h; exact absurd h (by simp)
      | some r =>
        obtain ⟨p, Q1⟩ := r
        rw [hp] at h
        simp only at h
        obtain ⟨h1, h2⟩ := ih _ _ h
        obtain ⟨hq, hQ1⟩ := pop_some Q0 p Q1 hp
        have hcap : Q1.capacity = Q0.capacity := by rw [hQ1]
        have hsz : (Q1.size : Int) ≤ (Q0.size : Int) := by
          simp only [VTOLQueue.size, hq, List.length_cons]
          omega
        rw [hcap] at h1 h2
        exact ⟨h1, fun h0 hle => h2 h0 (le_trans hsz hle)⟩

theorem pushAll_accepted (ps : List VTOLPtr) :
    ∀ Q : VTOLQueue, (pushAll Q ps).2 = List.replicate ps.length true →
      (pushAll Q ps).1 = { Q with q := Q.q ++ ps } := by
  induction ps with
  | nil =>
    intro Q _
    simp [pushAll]
  | cons p ps ih =>
    intro Q h
    simp only [pushAll, List.length_cons, List.replicate_succ, List.cons.injEq] at h
    obtain ⟨h1, h2⟩ := h
    have hnf : Q.full = false := by
      by_contra hf
      have hf2 : Q.full = true := by simpa using hf
      rw [push_of_full Q p hf2] at h1
      exact absurd h1 (by simp)
    simp only [pushAll]
    rw [ih _ h2, push_of_not_full Q p hnf]
    simp

theorem popN_append (ps : List VTOLPtr) :
    ∀ (Q : VTOLQueue) (rest : List VTOLPtr), Q.q = ps ++ rest →
      popN ps.length Q = some (ps, { Q with q := rest }) := by
  induction ps with
  | nil =>
    intro Q rest h
    simp only [List.nil_append] at h
    subst h
    simp [popN]
  | cons p ps ih =>
    intro Q rest h
    have hpop : Q.pop = some (p, { Q with q := ps ++ rest }) := by
      simp [VTOLQueue.pop, h]
    simp only [List.length_cons, popN, hpop]
    rw [ih { Q with q := ps ++ rest } rest rfl]

theorem push_generator (Q : VTOLQueue) (p : VTOLPtr) :
    (Q.push p).1.generator = Q.generator := by
  unfold VTOLQueue.push
  split_ifs <;> rfl

theorem runQueueOps_generator (ops : List QueueOp) :
    ∀ Q0 Q : VTOLQueue, runQueueOps Q0 ops = some Q → Q.generator = Q0.generator := by
  induction ops with
  | nil =>
    intro Q0 Q h
    simp only [runQueueOps, Option.some.injEq] at h
    rw [h]
  | cons op ops ih =>
    intro Q0 Q h
    cases op with
    | push p =>
      simp only [runQueueOps] at h
      rw [ih _ _ h, push_generator]
    | pop =>
      simp only [runQueueOps] at h
      cases hp : Q0.pop with
      | none => rw [hp] at h; exact absurd h (by simp)
      | some r =>
        obtain ⟨p, Q1⟩ := r
        rw [hp] at h
        simp only at h
        rw [ih _ _ h, (pop_some Q0 p Q1 hp).2]

/-! ## Lemmas on the engine's queue accessors -/

@[simp] theorem getQueue_setQueue_same (e : SimulationEngine) (t : VTOLStatus) (Q : VTOLQueue) :
    (e.setQueue t Q).getQueue t = Q := by
  cases t <;> rfl

theorem getQueue_setQueue_ne (e : SimulationEngine) (t u : VTOLStatus) (Q : VTOLQueue)
    (h : u ≠ t) : (e.setQueue t Q).getQueue u = e.getQueue u := by
  cases t <;> cases u <;> first | rfl | exact absurd rfl h

@[simp] theorem setQueue_heap (e : SimulationEngine) (t : VTOLStatus) (Q : VTOLQueue) :
    (e.setQueue t Q).heap = e.heap := by
  cases t <;> rfl

@[simp] theorem setQueue_hoursPerTick (e : SimulationEngine) (t : VTOLStatus) (Q : VTOLQueue) :
    (e.setQueue t Q).hoursPerTick = e.hoursPerTick := by
  cases t <;> rfl

@[simp] theorem setQueue_tickLength (e : SimulationEngine) (t : VTOLStatus) (Q : VTOLQueue) :
    (e.setQueue t Q).tickLength = e.tickLength := by
  cases t <;> rfl

@[simp] theorem setQueue_VTOLs (e : SimulationEngine) (t : VTOLStatus) (Q : VTOLQueue) :
    (e.setQueue t Q).VTOLs = e.VTOLs := by
  cases t <;> rfl

@[simp] theorem setQueue_availability (e : SimulationEngine) (t : VTOLStatus) (Q : VTOLQueue) :
    (e.setQueue t Q).chargerAvailabilityTimes = e.chargerAvailabilityTimes := by
  cases t <;> rfl

@[simp] theorem getQueue_heap_update (e : SimulationEngine) (t : VTOLStatus) (h : List VTOL) :
    ({ e with heap := h } : SimulationEngine).getQueue t = e.getQueue t := by
  cases t <;> rfl

@[simp] theorem getQueue_availability_update (e : SimulationEngine) (t : VTOLStatus)
    (l : List ℚ) :
    ({ e with chargerAvailabilityTimes := l } : SimulationEngine).getQueue t = e.getQueue t := by
  cases t <;> rfl

theorem getFaultRoll_snd (Q : VTOLQueue) :
    Q.getFaultRoll.2.q = Q.q ∧ Q.getFaultRoll.2.capacity = Q.capacity ∧
      Q.getFaultRoll.2.queueType = Q.queueType := by
  unfold VTOLQueue.getFaultRoll
  cases Q.generator <;> exact ⟨rfl, rfl, rfl⟩

theorem not_full_of_holds (Q : VTOLQueue) (n : Nat) (h : Q.holds n) (hlt : Q.q.length < n) :
    Q.full = false := by
  rcases h with h | h
  · simp [VTOLQueue.full, h]
  · have hne : ¬ ((Q.q.length : Int) = Q.capacity) := by omega
    simp [VTOLQueue.full, hne]

/-! ## Lemmas on Phase A -/

theorem updateLoop_step (queueType : VTOLStatus) (n : Nat) (e : SimulationEngine)
    (changed : Option (List VTOLPtr)) (p : VTOLPtr) (Q : VTOLQueue) (v : VTOL)
    (hpop : (e.getQueue queueType).pop = some (p, Q)) (hv : e.heap[p]? = some v) :
    SimulationEngine.updateLoop queueType (n + 1) e changed =
      if changed.isSome = true ∧
          queueType ≠ (v.updateVTOL e.hoursPerTick Q.getFaultRoll.1).1.state then
        SimulationEngine.updateLoop queueType n
          (e.movedOut queueType Q.getFaultRoll.2 p
            (v.updateVTOL e.hoursPerTick Q.getFaultRoll.1))
          (changed.map (fun c => c ++ [p]))
      else
        SimulationEngine.updateLoop queueType n
          (e.pushedBack queueType Q.getFaultRoll.2 p
            (v.updateVTOL e.hoursPerTick Q.getFaultRoll.1))
          changed := by
  rw [SimulationEngine.updateLoop]
  simp only [hpop, setQueue_heap, hv, setQueue_hoursPerTick, VTOL.getStatus]
  cases changed with
  | none =>
    simp only [Option.isSome_none, Bool.false_eq_true, false_and, if_false]
    cases queueType <;> rfl
  | some c =>
    simp only [Option.isSome_some, true_and, Option.map_some']
    split_ifs with h1 h2
    · cases queueType <;> simp_all [SimulationEngine.setQueue, SimulationEngine.movedOut]
    · cases queueType <;> simp_all [SimulationEngine.setQueue, SimulationEngine.movedOut]
    · cases queueType <;> rfl

@[simp] theorem movedOut_getQueue_same (e : SimulationEngine) (t : VTOLStatus) (Q : VTOLQueue)
    (p : VTOLPtr) (r : VTOL × ℚ) : (e.movedOut t Q p r).getQueue t = Q := by
  cases t <;> rfl

theorem movedOut_getQueue_ne (e : SimulationEngine) (t u : VTOLStatus) (Q : VTOLQueue)
    (p : VTOLPtr) (r : VTOL × ℚ) (h : u ≠ t) :
    (e.movedOut t Q p r).getQueue u = e.getQueue u := by
  cases t <;> cases u <;> first | rfl | exact absurd rfl h

@[simp] theorem movedOut_heap (e : SimulationEngine) (t : VTOLStatus) (Q : VTOLQueue)
    (p : VTOLPtr) (r : VTOL × ℚ) : (e.movedOut t Q p r).heap = e.heap.set p r.1 := by
  cases t <;> rfl

@[simp] theorem movedOut_hoursPerTick (e : SimulationEngine) (t : VTOLStatus) (Q : VTOLQueue)
    (p : VTOLPtr) (r : VTOL × ℚ) : (e.movedOut t Q p r).hoursPerTick = e.hoursPerTick := by
  cases t <;> rfl

@[simp] theorem movedOut_tickLength (e : SimulationEngine) (t : VTOLStatus) (Q : VTOLQueue)
    (p : VTOLPtr) (r : VTOL × ℚ) : (e.movedOut t Q p r).tickLength = e.tickLength := by
  cases t <;> rfl

@[simp] theorem movedOut_VTOLs (e : SimulationEngine) (t : VTOLStatus) (Q : VTOLQueue)
    (p : VTOLPtr) (r : VTOL × ℚ) : (e.movedOut t Q p r).VTOLs = e.VTOLs := by
  cases t <;> rfl

@[simp] theorem movedOut_availability (e : SimulationEngine) (t : VTOLStatus) (Q : VTOLQueue)
    (p : VTOLPtr) (r : VTOL × ℚ) :
    (e.movedOut t Q p r).chargerAvailabilityTimes =
      e.chargerAvailabilityTimes ++ (if t = VTOLStatus.CHARGING then [r.2] else []) := by
  cases t <;> rfl

@[simp] theorem pushedBack_getQueue_same (e : SimulationEngine) (t : VTOLStatus)
    (Q : VTOLQueue) (p : VTOLPtr) (r : VTOL × ℚ) :
    (e.pushedBack t Q p r).getQueue t = (Q.push p).1 := by
  cases t <;> rfl

theorem pushedBack_getQueue_ne (e : SimulationEngine) (t u : VTOLStatus) (Q : VTOLQueue)
    (p : VTOLPtr) (r : VTOL × ℚ) (h : u ≠ t) :
    (e.pushedBack t Q p r).getQueue u = e.getQueue u := by
  cases t <;> cases u <;> first | rfl | exact absurd rfl h

@[simp] theorem pushedBack_heap (e : SimulationEngine) (t : VTOLStatus) (Q : VTOLQueue)
    (p : VTOLPtr) (r : VTOL × ℚ) : (e.pushedBack t Q p r).heap = e.heap.set p r.1 := by
  cases t <;> rfl

@[simp] theorem pushedBack_hoursPerTick (e : SimulationEngine) (t : VTOLStatus) (Q : VTOLQueue)
    (p : VTOLPtr) (r : VTOL × ℚ) : (e.pushedBack t Q p r).hoursPerTick = e.hoursPerTick := by
  cases t <;> rfl

@[simp] theorem pushedBack_tickLength (e : SimulationEngine) (t : VTOLStatus) (Q : VTOLQueue)
    (p : VTOLPtr) (r : VTOL × ℚ) : (e.pushedBack t Q p r).tickLength = e.tickLength := by
  cases t <;> rfl

@[simp] theorem pushedBack_VTOLs (e : SimulationEngine) (t : VTOLStatus) (Q : VTOLQueue)
    (p : VTOLPtr) (r : VTOL × ℚ) : (e.pushedBack t Q p r).VTOLs = e.VTOLs := by
  cases t <;> rfl

@[simp] theorem pushedBack_availability (e : SimulationEngine) (t : VTOLStatus)
    (Q : VTOLQueue) (p : VTOLPtr) (r : VTOL × ℚ) :
    (e.pushedBack t Q p r).chargerAvailabilityTimes = e.chargerAvailabilityTimes := by
  cases t <;> rfl

theorem updateLoop_spec (queueType : VTOLStatus) (ps : List VTOLPtr) :
    ∀ (e : SimulationEngine) (changed : Option (List VTOLPtr)) (kept : List VTOLPtr),
      (e.getQueue queueType).q = ps ++ kept → ps.Nodup →
      (∀ p ∈ ps, p < e.heap.length) →
      (e.getQueue queueType).holds (ps ++ kept).length →
      ∃ e1 : SimulationEngine,
        SimulationEngine.updateLoop queueType ps.length e changed =
          some (e1, changed.map
            (fun c => c ++ ps.filter (e1.leaves queueType changed.isSome))) ∧
        (e1.getQueue queueType).q =
          kept ++ ps.filter (fun p => !e1.leaves queueType changed.isSome p) ∧
        PhaseAResult queueType changed.isSome ps e e1 := by
  induction ps with
  | nil =>
    intro e changed kept hq _ _ _
    refine ⟨e, ?_, ?_, ?_⟩
    · cases changed <;> simp [SimulationEngine.updateLoop]
    · simpa using hq
    · exact
        { heap_length := rfl
          heap_other := fun _ _ => rfl
          heap_updated := by simp
          queue_other := fun _ _ => rfl
          capacity_eq := rfl
          queueType_eq := rfl
          hoursPerTick_eq := rfl
          tickLength_eq := rfl
          VTOLs_eq := rfl
          availability := by simp }
  | cons p ps ih =>
    intro e changed kept hq hnd hvalid hcap
    obtain ⟨hp_notin, hnd1⟩ := List.nodup_cons.mp hnd
    have hplt : p < e.heap.length := hvalid p (by simp)
    have hv : e.heap[p]? = some e.heap[p] := List.getElem?_eq_getElem hplt
    have hpop : (e.getQueue queueType).pop =
        some (p, { e.getQueue queueType with q := ps ++ kept }) := by
      simp [VTOLQueue.pop, hq]
    obtain ⟨hrq, hrc, hrt⟩ :=
      getFaultRoll_snd ({ e.getQueue queueType with q := ps ++ kept } : VTOLQueue)
    rw [List.length_cons, updateLoop_step queueType ps.length e changed p _ _ hpop hv]
    generalize hQ2 : ({ e.getQueue queueType with q := ps ++ kept } : VTOLQueue).getFaultRoll
      = roll at hrq hrc hrt ⊢
    generalize hr : (e.heap[p]).updateVTOL e.hoursPerTick roll.1 = r
    simp only at hrq hrc hrt
    have hne : ∀ q ∈ ps, q ≠ p := fun q hq hqp => hp_notin (hqp ▸ hq)
    by_cases hmove : changed.isSome = true ∧ queueType ≠ r.1.state
    · rw [if_pos hmove]
      obtain ⟨c, rfl⟩ := Option.isSome_iff_exists.mp hmove.1
      obtain ⟨e1, hrun, hqueue, R⟩ := ih (e.movedOut queueType roll.2 p r) (some (c ++ [p])) kept
        (by simp [hrq]) hnd1
        (by intro q hq; simpa using hvalid q (List.mem_cons_of_mem _ hq))
        (by
          rcases hcap with h | h
          · exact Or.inl (by simpa [hrc] using h)
          · refine Or.inr ?_
            simp only [movedOut_getQueue_same, hrc]
            simp only [List.length_cons, List.length_append] at h ⊢
            omega)
      have hp1 : e1.heap[p]? = some r.1 := by
        rw [R.heap_other p hp_notin, movedOut_heap, List.getElem?_set_self hplt]
      have hleave : e1.leaves queueType true p = true := by
        simp only [SimulationEngine.leaves, SimulationEngine.stateOf, hp1, Option.map_some',
          Bool.true_and, decide_eq_true_eq, ne_eq, Option.some.injEq]
        exact fun h => hmove.2 h.symm
      refine ⟨e1, ?_, ?_, ?_⟩
      · simp only [Option.map_some', Option.isSome_some] at hrun ⊢
        rw [hrun]
        simp only [List.filter_cons_of_pos hleave, List.append_assoc, List.singleton_append]
      · rw [hqueue]
        simp only [Option.isSome_some, List.filter_cons, hleave, Bool.not_true,
          Bool.false_eq_true, if_false]
      · exact
          { heap_length := by rw [R.heap_length, movedOut_heap, List.length_set]
            heap_other := by
              intro i hi
              simp only [List.mem_cons, not_or] at hi
              rw [R.heap_other i hi.2, movedOut_heap, List.getElem?_set_ne (Ne.symm hi.1)]
            heap_updated := by
              intro q hq
              rcases List.mem_cons.mp hq with rfl | hq
              · exact ⟨_, roll.1, hv, by rw [hp1, hr]⟩
              · obtain ⟨v1, roll1, h1, h2⟩ := R.heap_updated q hq
                refine ⟨v1, roll1, ?_, ?_⟩
                · rw [← h1, movedOut_heap, List.getElem?_set_ne (Ne.symm (hne q hq))]
                · rw [h2, movedOut_hoursPerTick]
            queue_other := by
              intro t ht
              rw [R.queue_other t ht, movedOut_getQueue_ne _ _ _ _ _ _ ht]
            capacity_eq := by rw [R.capacity_eq, movedOut_getQueue_same, hrc]
            queueType_eq := by rw [R.queueType_eq, movedOut_getQueue_same, hrt]
            hoursPerTick_eq := by rw [R.hoursPerTick_eq, movedOut_hoursPerTick]
            tickLength_eq := by rw [R.tickLength_eq, movedOut_tickLength]
            VTOLs_eq := by rw [R.VTOLs_eq, movedOut_VTOLs]
            availability := by
              have hres : e1.residualOf p = r.2 := by
                simp only [SimulationEngine.residualOf, hp1, Option.map_some', Option.getD_some]
                rw [← hr]
                rfl
              rw [R.availability, movedOut_availability]
              simp only [Option.isSome_some, List.filter_cons_of_pos hleave, List.map_cons, hres]
              split_ifs <;> simp }
    · rw [if_neg hmove]
      have hnf : roll.2.full = false := by
        refine not_full_of_holds roll.2 (p :: ps ++ kept).length ?_ ?_
        · rcases hcap with h | h
          · exact Or.inl (by simpa [hrc] using h)
          · exact Or.inr (by simpa [hrc] using h)
        · simp [hrq]
      obtain ⟨e1, hrun, hqueue, R⟩ := ih (e.pushedBack queueType roll.2 p r) changed
        (kept ++ [p])
        (by simp [push_of_not_full _ _ hnf, hrq]) hnd1
        (by intro q hq; simpa using hvalid q (List.mem_cons_of_mem _ hq))
        (by
          rcases hcap with h | h
          · exact Or.inl (by simpa [push_capacity, hrc] using h)
          · refine Or.inr ?_
            simp only [pushedBack_getQueue_same, push_capacity, hrc]
            simp only [List.length_cons, List.length_append, List.length_nil] at h ⊢
            omega)
      have hp1 : e1.heap[p]? = some r.1 := by
        rw [R.heap_other p hp_notin, pushedBack_heap, List.getElem?_set_self hplt]
      have hleave : ¬ (e1.leaves queueType changed.isSome p = true) := by
        simp only [SimulationEngine.leaves, SimulationEngine.stateOf, hp1, Option.map_some',
          Bool.and_eq_true, decide_eq_true_eq, ne_eq, Option.some.injEq]
        exact fun h => hmove ⟨h.1, fun h2 => h.2 h2.symm⟩
      refine ⟨e1, ?_, ?_, ?_⟩
      · rw [hrun]
        simp only [List.filter_cons_of_neg hleave]
      · rw [hqueue]
        simp only [List.filter_cons, hleave, Bool.not_eq_true, Bool.not_eq_true',
          List.append_assoc, List.singleton_append]
        simp [Bool.eq_false_iff.mpr hleave]
      · exact
          { heap_length := by rw [R.heap_length, pushedBack_heap, List.length_set]
            heap_other := by
              intro i hi
              simp only [List.mem_cons, not_or] at hi
              rw [R.heap_other i hi.2, pushedBack_heap, List.getElem?_set_ne (Ne.symm hi.1)]
            heap_updated := by
              intro q hq
              rcases List.mem_cons.mp hq with rfl | hq
              · exact ⟨_, roll.1, hv, by rw [hp1, hr]⟩
              · obtain ⟨v1, roll1, h1, h2⟩ := R.heap_updated q hq
                refine ⟨v1, roll1, ?_, ?_⟩
                · rw [← h1, pushedBack_heap, List.getElem?_set_ne (Ne.symm (hne q hq))]
                · rw [h2, pushedBack_hoursPerTick]
            queue_other := by
              intro t ht
              rw [R.queue_other t ht, pushedBack_getQueue_ne _ _ _ _ _ _ ht]
            capacity_eq := by
              rw [R.capacity_eq, pushedBack_getQueue_same, push_capacity, hrc]
            queueType_eq := by
              rw [R.queueType_eq, pushedBack_getQueue_same, push_of_not_full _ _ hnf, hrt]
            hoursPerTick_eq := by rw [R.hoursPerTick_eq, pushedBack_hoursPerTick]
            tickLength_eq := by rw [R.tickLength_eq, pushedBack_tickLength]
            VTOLs_eq := by rw [R.VTOLs_eq, pushedBack_VTOLs]
            availability := by
              rw [R.availability, pushedBack_availability]
              simp only [List.filter_cons_of_neg hleave] }

theorem updateVTOLs_spec (queueType : VTOLStatus) (e : SimulationEngine)
    (changed : Option (List VTOLPtr))
    (hnd : (e.getQueue queueType).q.Nodup)
    (hvalid : ∀ p ∈ (e.getQueue queueType).q, p < e.heap.length)
    (hcap : (e.getQueue queueType).holds (e.getQueue queueType).size) :
    ∃ e1 : SimulationEngine,
      PhaseAResult queueType changed.isSome (e.getQueue queueType).q e e1 ∧
      (e1.getQueue queueType).q =
        (e.getQueue queueType).q.filter (fun p => !e1.leaves queueType changed.isSome p) ∧
      e.updateVTOLs queueType changed =
        some
          (if queueType = VTOLStatus.CHARGING then
            { e1 with chargerAvailabilityTimes := sortDescending e1.chargerAvailabilityTimes }
           else e1,
           if queueType = VTOLStatus.FLYING then
             changed.map (fun c => sortPointers
               (c ++ (e.getQueue queueType).q.filter (e1.leaves queueType changed.isSome)))
           else
             changed.map (fun c =>
               c ++ (e.getQueue queueType).q.filter (e1.leaves queueType changed.isSome))) := by
  obtain ⟨e1, hrun, hqueue, R⟩ := updateLoop_spec queueType (e.getQueue queueType).q e changed []
    (by simp) hnd hvalid (by simpa [VTOLQueue.size] using hcap)
  refine ⟨e1, R, by simpa using hqueue, ?_⟩
  unfold SimulationEngine.updateVTOLs
  simp only [VTOLQueue.size, hrun]
  cases queueType <;> cases changed <;> simp

/-! ## Lemmas on the allocation loop -/

theorem allocateLoop_exit (idx : Nat) (fuel : Nat) :
    ∀ e e1 : SimulationEngine, e.waitingQueue.size ≤ fuel →
      SimulationEngine.allocateLoop idx fuel e = some e1 →
      (!e1.chargingQueue.full && !e1.waitingQueue.empty) = false := by
  induction fuel with
  | zero =>
    intro e e1 hsz h
    simp only [SimulationEngine.allocateLoop, Option.some.injEq] at h
    subst h
    have : e.waitingQueue.q = [] := by
      simpa [VTOLQueue.size] using hsz
    simp [VTOLQueue.empty, this]
  | succ fuel ih =>
    intro e e1 hsz h
    rw [SimulationEngine.allocateLoop] at h
    split_ifs at h with hcond
    · cases hp : e.waitingQueue.pop with
      | none => rw [hp] at h; exact absurd h (by simp)
      | some r =>
        obtain ⟨p, wq⟩ := r
        rw [hp] at h
        simp only at h
        obtain ⟨hq, -⟩ := pop_some _ p wq hp
        split at h
        · refine ih _ e1 ?_ h
          simp only [VTOLQueue.size, hq, List.length_cons] at hsz ⊢
          omega
        · exact absurd h (by simp)
    · simp only [Option.some.injEq] at h
      subst h
      simpa using hcond

theorem allocateLoop_step (idx fuel : Nat) (e : SimulationEngine) (p : VTOLPtr)
    (wq : VTOLQueue) (v : VTOL)
    (hfull : e.chargingQueue.full = false)
    (hpop : e.waitingQueue.pop = some (p, wq)) (hv : e.heap[p]? = some v) :
    SimulationEngine.allocateLoop idx (fuel + 1) e =
      SimulationEngine.allocateLoop idx fuel
        (e.allocated wq p (v.moveToCharger (e.chargerOffer idx))) := by
  have hempty : e.waitingQueue.empty = false := by
    obtain ⟨hq, -⟩ := pop_some _ _ _ hpop
    simp [VTOLQueue.empty, hq]
  rw [SimulationEngine.allocateLoop]
  simp only [hfull, hempty, Bool.not_false, Bool.and_self, if_true, hpop, hv]
  by_cases hidx : idx ≥ e.chargerAvailabilityTimes.length
  · simp [hidx, SimulationEngine.chargerOffer, SimulationEngine.allocated]
  · have hlt : idx < e.chargerAvailabilityTimes.length := by omega
    simp [hidx, hlt, SimulationEngine.chargerOffer, SimulationEngine.allocated,
      List.getElem?_eq_getElem hlt, List.getD_eq_getElem _ _ hlt]

theorem allocateLoop_spec (idx : Nat) (ws : List VTOLPtr) :
    ∀ e : SimulationEngine, e.waitingQueue.q = ws →
      (∀ p ∈ ws, p < e.heap.length) →
      (e.chargingQueue.size : Int) ≤ e.chargingQueue.capacity →
      ∃ e1 : SimulationEngine,
        SimulationEngine.allocateLoop idx ws.length e = some e1 ∧
        e1.waitingQueue.q =
          ws.drop (min (e.chargingQueue.capacity - e.chargingQueue.size).toNat ws.length) ∧
        e1.chargingQueue.q = e.chargingQueue.q ++
          ws.take (min (e.chargingQueue.capacity - e.chargingQueue.size).toNat ws.length) ∧
        PhaseCResult idx
          (ws.take (min (e.chargingQueue.capacity - e.chargingQueue.size).toNat ws.length))
          e e1 := by
  induction ws with
  | nil =>
    intro e hq _ _
    refine ⟨e, rfl, by simpa using hq, by simp, ?_⟩
    exact
      { heap_length := rfl
        heap_other := fun _ _ => rfl
        heap_moved := by simp
        flyingQueue_eq := rfl
        waiting_capacity := rfl
        charging_capacity := rfl
        availability_eq := rfl
        hoursPerTick_eq := rfl
        tickLength_eq := rfl
        VTOLs_eq := rfl }
  | cons p ws ih =>
    intro e hq hvalid hcap
    by_cases hfull : e.chargingQueue.full = true
    · have hsz : (e.chargingQueue.size : Int) = e.chargingQueue.capacity :=
        ((full_iff _).mp hfull).2
      have hk : (e.chargingQueue.capacity - e.chargingQueue.size).toNat = 0 := by
        rw [hsz]; simp
      refine ⟨e, ?_, ?_, ?_, ?_⟩
      · rw [List.length_cons, SimulationEngine.allocateLoop]
        simp [hfull]
      · simpa [hk] using hq
      · simp [hk]
      · rw [hk]
        simp only [Nat.zero_min, List.take_zero]
        exact
          { heap_length := rfl
            heap_other := fun _ _ => rfl
            heap_moved := by simp
            flyingQueue_eq := rfl
            waiting_capacity := rfl
            charging_capacity := rfl
            availability_eq := rfl
            hoursPerTick_eq := rfl
            tickLength_eq := rfl
            VTOLs_eq := rfl }
    · have hnf : e.chargingQueue.full = false := by simpa using hfull
      have hplt : p < e.heap.length := hvalid p (by simp)
      have hv : e.heap[p]? = some e.heap[p] := List.getElem?_eq_getElem hplt
      have hpop : e.waitingQueue.pop = some (p, { e.waitingQueue with q := ws }) := by
        simp [VTOLQueue.pop, hq]
      have hlt : (e.chargingQueue.size : Int) < e.chargingQueue.capacity := by
        rcases lt_or_eq_of_le hcap with h | h
        · exact h
        · exfalso
          have hcu : e.chargingQueue.capacity ≠ UNLIMITED := by
            intro hu
            rw [hu] at h
            simp only [UNLIMITED] at h
            omega
          exact hfull ((full_iff _).mpr ⟨hcu, h⟩)
      rw [List.length_cons, allocateLoop_step idx ws.length e p _ _ hnf hpop hv]
      generalize hv1 : (e.heap[p]).moveToCharger (e.chargerOffer idx) = v1
      obtain ⟨e1, hrun, hw, hc, R⟩ := ih (e.allocated { e.waitingQueue with q := ws } p v1)
        (by simp [SimulationEngine.allocated])
        (by
          intro q hq
          simpa [SimulationEngine.allocated] using hvalid q (List.mem_cons_of_mem _ hq))
        (by
          simp only [SimulationEngine.allocated, push_of_not_full _ _ hnf, push_capacity,
            VTOLQueue.size, List.length_append, List.length_singleton]
          simp only [VTOLQueue.size] at hlt
          push_cast
          omega)
      have hsz1 : (e.allocated { e.waitingQueue with q := ws } p v1).chargingQueue.size =
          e.chargingQueue.size + 1 := by
        simp [SimulationEngine.allocated, push_of_not_full _ _ hnf, VTOLQueue.size]
      have hcap1 : (e.allocated { e.waitingQueue with q := ws } p v1).chargingQueue.capacity =
          e.chargingQueue.capacity := by
        simp [SimulationEngine.allocated, push_capacity]
      have hq1 : (e.allocated { e.waitingQueue with q := ws } p v1).chargingQueue.q =
          e.chargingQueue.q ++ [p] := by
        simp [SimulationEngine.allocated, push_of_not_full _ _ hnf]
      have hk : min (e.chargingQueue.capacity - e.chargingQueue.size).toNat (ws.length + 1) =
          min ((e.allocated { e.waitingQueue with q := ws } p v1).chargingQueue.capacity -
            (e.allocated { e.waitingQueue with q := ws } p v1).chargingQueue.size).toNat
            ws.length + 1 := by
        rw [hsz1, hcap1]
        omega
      rw [hk]
      refine ⟨e1, hrun, ?_, ?_, ?_⟩
      · rw [hw, List.drop_succ_cons]
      · rw [hc, hq1, List.take_succ_cons, List.append_assoc, List.singleton_append]
      · rw [List.take_succ_cons]
        have hoffer : (e.allocated { e.waitingQueue with q := ws } p v1).chargerOffer idx =
            e.chargerOffer idx := rfl
        exact
          { heap_length := by
              rw [R.heap_length]; simp [SimulationEngine.allocated]
            heap_other := by
              intro i hi
              simp only [List.mem_cons, not_or] at hi
              rw [R.heap_other i hi.2]
              simp [SimulationEngine.allocated, List.getElem?_set_ne (Ne.symm hi.1)]
            heap_moved := by
              intro hnd q hq
              obtain ⟨hp_notin, hnd1⟩ := List.nodup_cons.mp hnd
              rcases List.mem_cons.mp hq with rfl | hq
              · refine ⟨_, hv, ?_⟩
                rw [R.heap_other _ hp_notin, hv1]
                simp [SimulationEngine.allocated, List.getElem?_set_self hplt]
              · obtain ⟨v2, h1, h2⟩ := R.heap_moved hnd1 q hq
                have hqp : q ≠ p := fun h => hp_notin (h ▸ hq)
                refine ⟨v2, ?_, ?_⟩
                · rw [← h1]
                  simp [SimulationEngine.allocated, List.getElem?_set_ne (Ne.symm hqp)]
                · rw [h2, hoffer]
            flyingQueue_eq := by rw [R.flyingQueue_eq]; rfl
            waiting_capacity := by rw [R.waiting_capacity]; rfl
            charging_capacity := by rw [R.charging_capacity, hcap1]
            availability_eq := by rw [R.availability_eq]; rfl
            hoursPerTick_eq := by rw [R.hoursPerTick_eq]; rfl
            tickLength_eq := by rw [R.tickLength_eq]; rfl
            VTOLs_eq := by rw [R.VTOLs_eq]; rfl }

/-! ## Lemmas: the rolls only reach the fault counts -/

theorem updateVTOL_withoutFaults (v : VTOL) (dTime r : ℚ) :
    (v.updateVTOL dTime r).1.withoutFaults = (v.withoutFaults.updateVTOL dTime 1).1.withoutFaults ∧
    (v.updateVTOL dTime r).2 = (v.withoutFaults.updateVTOL dTime 1).2 ∧
    (v.updateVTOL dTime r).1.state = (v.withoutFaults.updateVTOL dTime 1).1.state := by
  obtain ⟨state, make, speed, chargeTime, drainTime, pc, fp, ttsc, tf, tw, tc, nf, tist⟩ := v
  cases state <;>
    simp only [VTOL.updateVTOL, VTOL.setState, VTOL.hadFault, VTOL.withoutFaults] <;>
    split_ifs <;> simp_all

theorem updateVTOL_congr (v w : VTOL) (dTime r1 r2 : ℚ)
    (h : v.withoutFaults = w.withoutFaults) :
    (v.updateVTOL dTime r1).1.withoutFaults = (w.updateVTOL dTime r2).1.withoutFaults ∧
    (v.updateVTOL dTime r1).2 = (w.updateVTOL dTime r2).2 ∧
    (v.updateVTOL dTime r1).1.state = (w.updateVTOL dTime r2).1.state := by
  obtain ⟨a1, a2, a3⟩ := updateVTOL_withoutFaults v dTime r1
  obtain ⟨b1, b2, b3⟩ := updateVTOL_withoutFaults w dTime r2
  rw [a1, a2, a3, b1, b2, b3, h]
  exact ⟨rfl, rfl, rfl⟩

theorem moveToCharger_congr (v w : VTOL) (d : ℚ) (h : v.withoutFaults = w.withoutFaults) :
    (v.moveToCharger d).withoutFaults = (w.moveToCharger d).withoutFaults := by
  have ht : v.timeInStateThisTick = w.timeInStateThisTick := by
    have := congrArg VTOL.timeInStateThisTick h
    simpa [VTOL.withoutFaults] using this
  unfold VTOL.moveToCharger
  simp only [ht]
  refine (updateVTOL_congr _ _ _ 1 1 ?_).1
  have h2 := h
  simp only [VTOL.withoutFaults, VTOL.mk.injEq] at h2
  obtain ⟨h1, h2, h3, h4, h5, h6, h7, h8, h9, h10, h11, -, h13⟩ := h2
  simp [VTOL.withoutFaults, VTOL.setState, h1, h2, h3, h4, h5, h6, h7, h8, h9, h10, h11, h13]

/-! ## Lemmas: the engine is determined by its view -/

theorem view_getQueue (e e1 : SimulationEngine) (h : e.view = e1.view) (t : VTOLStatus) :
    (e.getQueue t).view = (e1.getQueue t).view := by
  simp only [SimulationEngine.view, EngineView.mk.injEq] at h
  cases t
  · exact h.1
  · exact h.2.1
  · exact h.2.2.1

theorem view_heap (e e1 : SimulationEngine) (h : e.view = e1.view) :
    e.heap.map VTOL.withoutFaults = e1.heap.map VTOL.withoutFaults := by
  simp only [SimulationEngine.view, EngineView.mk.injEq] at h
  exact h.2.2.2.2.2.2.2

theorem view_hoursPerTick (e e1 : SimulationEngine) (h : e.view = e1.view) :
    e.hoursPerTick = e1.hoursPerTick := by
  simp only [SimulationEngine.view, EngineView.mk.injEq] at h
  exact h.2.2.2.2.2.2.1

theorem view_availability (e e1 : SimulationEngine) (h : e.view = e1.view) :
    e.chargerAvailabilityTimes = e1.chargerAvailabilityTimes := by
  simp only [SimulationEngine.view, EngineView.mk.injEq] at h
  exact h.2.2.2.2.1

theorem view_heap_getElem (e e1 : SimulationEngine) (h : e.view = e1.view) (p : VTOLPtr) :
    (e.heap[p]?).map VTOL.withoutFaults = (e1.heap[p]?).map VTOL.withoutFaults := by
  have := congrArg (fun l => l[p]?) (view_heap e e1 h)
  simpa [List.getElem?_map] using this

theorem view_q (Q Q1 : VTOLQueue) (h : Q.view = Q1.view) :
    Q.q = Q1.q ∧ Q.queueType = Q1.queueType ∧ Q.capacity = Q1.capacity := by
  simpa [VTOLQueue.view] using h

theorem getFaultRoll_view (Q : VTOLQueue) : Q.getFaultRoll.2.view = Q.view := by
  unfold VTOLQueue.getFaultRoll
  cases Q.generator <;> rfl

theorem push_view (Q Q1 : VTOLQueue) (p : VTOLPtr) (h : Q.view = Q1.view) :
    (Q.push p).1.view = (Q1.push p).1.view := by
  obtain ⟨h1, h2, h3⟩ := view_q Q Q1 h
  simp only [VTOLQueue.push, VTOLQueue.full, h1, h3]
  split_ifs
  · exact h
  · simp [VTOLQueue.view, h1, h2, h3]

theorem full_view (Q Q1 : VTOLQueue) (h : Q.view = Q1.view) : Q.full = Q1.full := by
  obtain ⟨h1, -, h3⟩ := view_q Q Q1 h
  simp [VTOLQueue.full, h1, h3]

theorem setQueue_view (e e1 : SimulationEngine) (t : VTOLStatus) (Q Q1 : VTOLQueue)
    (h : e.view = e1.view) (hQ : Q.view = Q1.view) :
    (e.setQueue t Q).view = (e1.setQueue t Q1).view := by
  simp only [SimulationEngine.view, EngineView.mk.injEq] at h
  obtain ⟨h1, h2, h3, h4, h5, h6, h7, h8⟩ := h
  cases t <;>
    simp [SimulationEngine.view, SimulationEngine.setQueue, h1, h2, h3, h4, h5, h6, h7, h8, hQ]

theorem movedOut_view (e e1 : SimulationEngine) (t : VTOLStatus) (Q Q1 : VTOLQueue)
    (p : VTOLPtr) (r r1 : VTOL × ℚ) (h : e.view = e1.view) (hQ : Q.view = Q1.view)
    (hr : r.1.withoutFaults = r1.1.withoutFaults) (hr2 : r.2 = r1.2) :
    (e.movedOut t Q p r).view = (e1.movedOut t Q1 p r1).view := by
  simp only [SimulationEngine.view, EngineView.mk.injEq] at h
  obtain ⟨h1, h2, h3, h4, h5, h6, h7, h8⟩ := h
  cases t <;>
    simp [SimulationEngine.view, SimulationEngine.movedOut, SimulationEngine.setQueue,
      List.map_set, h1, h2, h3, h4, h5, h6, h7, h8, hQ, hr, hr2]

theorem pushedBack_view (e e1 : SimulationEngine) (t : VTOLStatus) (Q Q1 : VTOLQueue)
    (p : VTOLPtr) (r r1 : VTOL × ℚ) (h : e.view = e1.view) (hQ : Q.view = Q1.view)
    (hr : r.1.withoutFaults = r1.1.withoutFaults) :
    (e.pushedBack t Q p r).view = (e1.pushedBack t Q1 p r1).view := by
  have hp := push_view Q Q1 p hQ
  simp only [SimulationEngine.view, EngineView.mk.injEq] at h
  obtain ⟨h1, h2, h3, h4, h5, h6, h7, h8⟩ := h
  cases t <;>
    simp [SimulationEngine.view, SimulationEngine.pushedBack, SimulationEngine.setQueue,
      List.map_set, h1, h2, h3, h4, h5, h6, h7, h8, hp, hr]

theorem updateLoop_pop_none (queueType : VTOLStatus) (n : Nat) (e : SimulationEngine)
    (changed : Option (List VTOLPtr)) (hpop : (e.getQueue queueType).pop = none) :
    SimulationEngine.updateLoop queueType (n + 1) e changed = none := by
  rw [SimulationEngine.updateLoop]
  simp [hpop]

theorem updateLoop_heap_none (queueType : VTOLStatus) (n : Nat) (e : SimulationEngine)
    (changed : Option (List VTOLPtr)) (p : VTOLPtr) (Q : VTOLQueue)
    (hpop : (e.getQueue queueType).pop = some (p, Q)) (hv : e.heap[p]? = none) :
    SimulationEngine.updateLoop queueType (n + 1) e changed = none := by
  rw [SimulationEngine.updateLoop]
  simp [hpop, hv]

theorem pop_view (Q Q1 : VTOLQueue) (h : Q.view = Q1.view) :
    (Q.pop = none ∧ Q1.pop = none) ∨
    ∃ p R R1, Q.pop = some (p, R) ∧ Q1.pop = some (p, R1) ∧ R.view = R1.view := by
  obtain ⟨h1, h2, h3⟩ := view_q Q Q1 h
  cases hq : Q.q with
  | nil =>
    left
    exact ⟨by simp [VTOLQueue.pop, hq], by simp [VTOLQueue.pop, ← h1, hq]⟩
  | cons p rest =>
    right
    refine ⟨p, { Q with q := rest }, { Q1 with q := rest }, by simp [VTOLQueue.pop, hq],
      by simp [VTOLQueue.pop, ← h1, hq], ?_⟩
    simp [VTOLQueue.view, h2, h3]

theorem heap_view_cases (e e1 : SimulationEngine) (h : e.view = e1.view) (p : VTOLPtr) :
    (e.heap[p]? = none ∧ e1.heap[p]? = none) ∨
    ∃ v v1, e.heap[p]? = some v ∧ e1.heap[p]? = some v1 ∧
      v.withoutFaults = v1.withoutFaults := by
  have hp := view_heap_getElem e e1 h p
  cases hv : e.heap[p]? with
  | none =>
    left
    rw [hv] at hp
    cases hv1 : e1.heap[p]? with
    | none => exact ⟨rfl, rfl⟩
    | some v1 => rw [hv1] at hp; simp at hp
  | some v =>
    right
    rw [hv] at hp
    cases hv1 : e1.heap[p]? with
    | none => rw [hv1] at hp; simp at hp
    | some v1 =>
      rw [hv1] at hp
      exact ⟨v, v1, rfl, rfl, by simpa using hp⟩

theorem updateLoop_congr (queueType : VTOLStatus) (n : Nat) :
    ∀ (e e1 : SimulationEngine) (changed : Option (List VTOLPtr)), e.view = e1.view →
      (SimulationEngine.updateLoop queueType n e changed).map (fun r => (r.1.view, r.2)) =
        (SimulationEngine.updateLoop queueType n e1 changed).map (fun r => (r.1.view, r.2)) := by
  induction n with
  | zero =>
    intro e e1 changed h
    simp [SimulationEngine.updateLoop, h]
  | succ n ih =>
    intro e e1 changed h
    rcases pop_view _ _ (view_getQueue e e1 h queueType) with ⟨hp, hp1⟩ | ⟨p, R, R1, hp, hp1, hR⟩
    · rw [updateLoop_pop_none _ _ _ _ hp, updateLoop_pop_none _ _ _ _ hp1]
    · rcases heap_view_cases e e1 h p with ⟨hv, hv1⟩ | ⟨v, v1, hv, hv1, hvv⟩
      · rw [updateLoop_heap_none _ _ _ _ _ _ hp hv, updateLoop_heap_none _ _ _ _ _ _ hp1 hv1]
      · rw [updateLoop_step _ _ _ _ _ _ _ hp hv, updateLoop_step _ _ _ _ _ _ _ hp1 hv1]
        have hh := view_hoursPerTick e e1 h
        obtain ⟨c1, c2, c3⟩ := updateVTOL_congr v v1 e.hoursPerTick R.getFaultRoll.1
          R1.getFaultRoll.1 hvv
        rw [hh] at c1 c2 c3
        have hRR : R.getFaultRoll.2.view = R1.getFaultRoll.2.view := by
          rw [getFaultRoll_view, getFaultRoll_view, hR]
        rw [hh, c3]
        split_ifs
        · exact ih _ _ _ (movedOut_view _ _ _ _ _ _ _ _ h hRR c1 c2)
        · exact ih _ _ _ (pushedBack_view _ _ _ _ _ _ _ _ h hRR c1)

theorem map_eq_cases {α β : Type} (f : α → β) (x y : Option α)
    (h : x.map f = y.map f) :
    (x = none ∧ y = none) ∨ ∃ a b, x = some a ∧ y = some b ∧ f a = f b := by
  cases x with
  | none =>
    cases y with
    | none => exact Or.inl ⟨rfl, rfl⟩
    | some b => simp at h
  | some a =>
    cases y with
    | none => simp at h
    | some b => exact Or.inr ⟨a, b, rfl, rfl, by simpa using h⟩

theorem availability_update_view (e e1 : SimulationEngine) (l : List ℚ)
    (h : e.view = e1.view) :
    ({ e with chargerAvailabilityTimes := l } : SimulationEngine).view =
      ({ e1 with chargerAvailabilityTimes := l } : SimulationEngine).view := by
  simp only [SimulationEngine.view, EngineView.mk.injEq] at h
  obtain ⟨h1, h2, h3, h4, h5, h6, h7, h8⟩ := h
  simp [SimulationEngine.view, h1, h2, h3, h4, h6, h7, h8]

theorem updateVTOLs_congr (queueType : VTOLStatus) (e e1 : SimulationEngine)
    (changed : Option (List VTOLPtr)) (h : e.view = e1.view) :
    (e.updateVTOLs queueType changed).map (fun r => (r.1.view, r.2)) =
      (e1.updateVTOLs queueType changed).map (fun r => (r.1.view, r.2)) := by
  have hsz : (e.getQueue queueType).size = (e1.getQueue queueType).size := by
    simp [VTOLQueue.size, (view_q _ _ (view_getQueue e e1 h queueType)).1]
  unfold SimulationEngine.updateVTOLs
  simp only [hsz]
  rcases map_eq_cases _ _ _
    (updateLoop_congr queueType (e1.getQueue queueType).size e e1 changed h) with
    ⟨h1, h2⟩ | ⟨a, b, h1, h2, hab⟩
  · rw [h1, h2]
  · rw [h1, h2]
    obtain ⟨ea, ca⟩ := a
    obtain ⟨eb, cb⟩ := b
    simp only [Prod.mk.injEq] at hab
    obtain ⟨hv, hc⟩ := hab
    subst hc
    simp only
    split_ifs
    · simp only [Option.map_some', Option.some.injEq, Prod.mk.injEq, and_true]
      rw [view_availability ea eb hv]
      exact availability_update_view ea eb _ hv
    · cases ca <;> simp [hv]
    · cases ca <;> simp [hv]

theorem pushChanged_congr (next : VTOLStatus) (changed : List VTOLPtr) :
    ∀ e e1 : SimulationEngine, e.view = e1.view →
      (e.pushChanged next changed).view = (e1.pushChanged next changed).view := by
  induction changed with
  | nil =>
    intro e e1 h
    exact h
  | cons p ps ih =>
    intro e e1 h
    simp only [SimulationEngine.pushChanged]
    exact ih _ _ (setQueue_view e e1 next _ _ h
      (push_view _ _ p (view_getQueue e e1 h next)))

theorem allocateLoop_unfold (idx fuel : Nat) (e : SimulationEngine) :
    SimulationEngine.allocateLoop idx (fuel + 1) e =
      if (!e.chargingQueue.full && !e.waitingQueue.empty) = true then
        match e.waitingQueue.pop with
        | none => none
        | some (p, wq) =>
          match e.heap[p]? with
          | none => none
          | some v =>
            SimulationEngine.allocateLoop idx fuel
              (e.allocated wq p (v.moveToCharger (e.chargerOffer idx)))
      else some e := by
  rw [SimulationEngine.allocateLoop]
  split_ifs with hc
  · cases hp : e.waitingQueue.pop with
    | none => rfl
    | some r =>
      obtain ⟨p, wq⟩ := r
      simp only
      cases hv : e.heap[p]? with
      | none =>
        by_cases hidx : idx ≥ e.chargerAvailabilityTimes.length
        · simp [hidx]
        · have hlt : idx < e.chargerAvailabilityTimes.length := by omega
          simp [hidx, List.getElem?_eq_getElem hlt]
      | some v =>
        by_cases hidx : idx ≥ e.chargerAvailabilityTimes.length
        · simp [hidx, SimulationEngine.chargerOffer, SimulationEngine.allocated]
        · have hlt : idx < e.chargerAvailabilityTimes.length := by omega
          simp [hidx, hlt, SimulationEngine.chargerOffer, SimulationEngine.allocated,
            List.getElem?_eq_getElem hlt, List.getD_eq_getElem _ _ hlt]
  · rfl

theorem allocated_view (e e1 : SimulationEngine) (wq wq1 : VTOLQueue) (p : VTOLPtr)
    (v v1 : VTOL) (h : e.view = e1.view) (hq : wq.view = wq1.view)
    (hv : v.withoutFaults = v1.withoutFaults) :
    (e.allocated wq p v).view = (e1.allocated wq1 p v1).view := by
  have hp := push_view e.chargingQueue e1.chargingQueue p
    (view_getQueue e e1 h VTOLStatus.CHARGING)
  simp only [SimulationEngine.view, EngineView.mk.injEq] at h
  obtain ⟨h1, h2, h3, h4, h5, h6, h7, h8⟩ := h
  simp [SimulationEngine.view, SimulationEngine.allocated, List.map_set, h1, h4, h5, h6, h7,
    h8, hq, hv, hp]

theorem chargerOffer_view (e e1 : SimulationEngine) (idx : Nat) (h : e.view = e1.view) :
    e.chargerOffer idx = e1.chargerOffer idx := by
  simp [SimulationEngine.chargerOffer, view_availability e e1 h, view_hoursPerTick e e1 h]

theorem allocateLoop_congr (idx fuel : Nat) :
    ∀ e e1 : SimulationEngine, e.view = e1.view →
      (SimulationEngine.allocateLoop idx fuel e).map SimulationEngine.view =
        (SimulationEngine.allocateLoop idx fuel e1).map SimulationEngine.view := by
  induction fuel with
  | zero =>
    intro e e1 h
    simp [SimulationEngine.allocateLoop, h]
  | succ fuel ih =>
    intro e e1 h
    have hf := full_view _ _ (view_getQueue e e1 h VTOLStatus.CHARGING)
    have hw := view_getQueue e e1 h VTOLStatus.WAITING
    simp only [SimulationEngine.getQueue] at hf hw
    have he : e.waitingQueue.empty = e1.waitingQueue.empty := by
      simp [VTOLQueue.empty, (view_q _ _ hw).1]
    rw [allocateLoop_unfold, allocateLoop_unfold, hf, he]
    split_ifs
    · rcases pop_view _ _ hw with ⟨hp, hp1⟩ | ⟨p, R, R1, hp, hp1, hR⟩
      · rw [hp, hp1]
      · rw [hp, hp1]
        simp only
        rcases heap_view_cases e e1 h p with ⟨hv, hv1⟩ | ⟨v, v1, hv, hv1, hvv⟩
        · rw [hv, hv1]
        · rw [hv, hv1]
          simp only
          rw [chargerOffer_view e e1 idx h]
          exact ih _ _ (allocated_view e e1 R R1 p _ _ h hR (moveToCharger_congr v v1 _ hvv))
    · simp [h]

theorem moveVTOLs_congr (queueType : VTOLStatus) (changed : Option (List VTOLPtr))
    (e e1 : SimulationEngine) (h : e.view = e1.view) :
    (e.moveVTOLs queueType changed).map SimulationEngine.view =
      (e1.moveVTOLs queueType changed).map SimulationEngine.view := by
  unfold SimulationEngine.moveVTOLs
  simp only
  split_ifs
  · cases changed with
    | none => rfl
    | some c => simpa using pushChanged_congr _ c e e1 h
  · have hsz : e.waitingQueue.size = e1.waitingQueue.size := by
      have hw := view_getQueue e e1 h VTOLStatus.WAITING
      simp only [SimulationEngine.getQueue] at hw
      simp [VTOLQueue.size, (view_q _ _ hw).1]
    rw [hsz]
    rcases map_eq_cases _ _ _ (allocateLoop_congr 0 e1.waitingQueue.size e e1 h) with
      ⟨h1, h2⟩ | ⟨a, b, h1, h2, hab⟩
    · rw [h1, h2]
    · rw [h1, h2]
      simpa using availability_update_view a b [] hab

theorem tick_congr (e e1 : SimulationEngine) (h : e.view = e1.view) :
    e.tick.map SimulationEngine.view = e1.tick.map SimulationEngine.view := by
  unfold SimulationEngine.tick
  rcases map_eq_cases _ _ _ (updateVTOLs_congr VTOLStatus.FLYING e e1 (some []) h) with
    ⟨h1, h2⟩ | ⟨a, b, h1, h2, hab⟩
  · rw [h1, h2]
  rw [h1, h2]
  obtain ⟨ea, ca⟩ := a
  obtain ⟨eb, cb⟩ := b
  simp only [Prod.mk.injEq] at hab
  obtain ⟨hv, hc⟩ := hab
  subst hc
  simp only
  rcases map_eq_cases _ _ _ (updateVTOLs_congr VTOLStatus.CHARGING ea eb (some []) hv) with
    ⟨h1, h2⟩ | ⟨a, b, h1, h2, hab⟩
  · rw [h1, h2]
  rw [h1, h2]
  obtain ⟨ea2, ca2⟩ := a
  obtain ⟨eb2, cb2⟩ := b
  simp only [Prod.mk.injEq] at hab
  obtain ⟨hv2, hc2⟩ := hab
  subst hc2
  simp only
  rcases map_eq_cases _ _ _ (updateVTOLs_congr VTOLStatus.WAITING ea2 eb2 none hv2) with
    ⟨h1, h2⟩ | ⟨a, b, h1, h2, hab⟩
  · rw [h1, h2]
  rw [h1, h2]
  obtain ⟨ea3, ca3⟩ := a
  obtain ⟨eb3, cb3⟩ := b
  simp only [Prod.mk.injEq] at hab
  obtain ⟨hv3, -⟩ := hab
  simp only
  rcases map_eq_cases _ _ _ (moveVTOLs_congr VTOLStatus.FLYING ca ea3 eb3 hv3) with
    ⟨h1, h2⟩ | ⟨a, b, h1, h2, hab⟩
  · rw [h1, h2]
  rw [h1, h2]
  simp only
  rcases map_eq_cases _ _ _ (moveVTOLs_congr VTOLStatus.CHARGING ca2 a b hab) with
    ⟨h1, h2⟩ | ⟨a2, b2, h1, h2, hab2⟩
  · rw [h1, h2]
  rw [h1, h2]
  simp only
  exact moveVTOLs_congr VTOLStatus.WAITING none a2 b2 hab2

/-! ## Lemmas: ticks in which nothing happens but the passing of time -/

theorem withoutFaults_idem (v : VTOL) : v.withoutFaults.withoutFaults = v.withoutFaults := rfl

theorem advance_withoutFaults (hoursPerTick : ℚ) (v : VTOL) (roll : ℚ) :
    (v.updateVTOL hoursPerTick roll).1.withoutFaults = v.withoutFaults.advance hoursPerTick := by
  unfold VTOL.advance
  rw [(updateVTOL_withoutFaults v hoursPerTick roll).1]

theorem stableFor_withoutFaults (k : Nat) (hoursPerTick : ℚ) (v : VTOL) :
    v.withoutFaults.stableFor k hoursPerTick = v.stableFor k hoursPerTick := rfl

theorem updateVTOL_stable (k : Nat) (hoursPerTick : ℚ) (v : VTOL) (roll : ℚ)
    (hs : v.stableFor (k + 1) hoursPerTick = true) (h0 : 0 ≤ hoursPerTick) :
    (v.updateVTOL hoursPerTick roll).1.withoutFaults = v.coast 1 hoursPerTick ∧
    (v.updateVTOL hoursPerTick roll).1.state = v.state ∧
    (v.updateVTOL hoursPerTick roll).1.stableFor k hoursPerTick = true := by
  obtain ⟨state, make, speed, chargeTime, drainTime, pc, fp, ttsc, tf, tw, tc, nf, tist⟩ := v
  have hk : (0 : ℚ) ≤ (k : ℚ) * hoursPerTick := mul_nonneg (Nat.cast_nonneg k) h0
  cases state
  · simp only [VTOL.stableFor, TOLERANCE, decide_eq_true_eq] at hs
    push_cast at hs
    have hc : 0 < ttsc := by linarith
    have hle : hoursPerTick ≤ ttsc := by linarith
    have hae : almostEqual (ttsc - hoursPerTick) 0 = false := by
      have habs : |ttsc - hoursPerTick - 0| = ttsc - hoursPerTick := by
        rw [sub_zero]; exact abs_of_nonneg (by linarith)
      simp only [almostEqual, TOLERANCE, habs, decide_eq_false_iff_not, not_lt]
      linarith
    simp only [VTOL.updateVTOL, VTOL.hadFault, hc, if_true, min_eq_left hle]
    split_ifs <;>
      (simp_all [VTOL.withoutFaults, VTOL.coast, VTOL.stableFor, TOLERANCE]
       all_goals linarith)
  · simp only [VTOL.stableFor, decide_eq_true_eq] at hs
    have hc : ttsc ≤ -1 := by simpa [UNLIMITED] using hs
    have hn : ¬ (0 < ttsc) := by linarith
    have hae : almostEqual (ttsc - hoursPerTick) 0 = false :=
      almostEqual_zero_false_of_le _ (by simp only [UNLIMITED]; push_cast; linarith)
    simp [VTOL.updateVTOL, hn, hae, VTOL.withoutFaults, VTOL.coast, VTOL.stableFor, UNLIMITED]
    linarith
  · simp only [VTOL.stableFor, TOLERANCE, decide_eq_true_eq] at hs
    push_cast at hs
    have hc : 0 < ttsc := by linarith
    have hle : hoursPerTick ≤ ttsc := by linarith
    have hae : almostEqual (ttsc - hoursPerTick) 0 = false := by
      have habs : |ttsc - hoursPerTick - 0| = ttsc - hoursPerTick := by
        rw [sub_zero]; exact abs_of_nonneg (by linarith)
      simp only [almostEqual, TOLERANCE, habs, decide_eq_false_iff_not, not_lt]
      linarith
    simp only [VTOL.updateVTOL, VTOL.hadFault, hc, if_true, min_eq_left hle]
    split_ifs <;>
      (simp_all [VTOL.withoutFaults, VTOL.coast, VTOL.stableFor, TOLERANCE]
       all_goals linarith)

theorem coast_succ (k : Nat) (hoursPerTick : ℚ) (v : VTOL) :
    (v.coast 1 hoursPerTick).coast k hoursPerTick = v.coast (k + 1) hoursPerTick := by
  obtain ⟨state, make, speed, chargeTime, drainTime, pc, fp, ttsc, tf, tw, tc, nf, tist⟩ := v
  rcases Nat.eq_zero_or_pos k with rfl | hk
  · cases state <;> simp [VTOL.coast, VTOL.withoutFaults]
  · have hk0 : k ≠ 0 := by omega
    cases state <;> (simp [VTOL.coast, hk0]; constructor <;> ring)

theorem view_engine_view (e : SimulationEngine) : e.view.engine.view = e.view := by
  simp [SimulationEngine.view, EngineView.engine, VTOLQueue.view, QueueView.queue,
    Function.comp_def, withoutFaults_idem]

theorem tick_view (e : SimulationEngine) : e.tick.map SimulationEngine.view = tickView e.view :=
  tick_congr e e.view.engine (view_engine_view e).symm

theorem runTicks_view (n : Nat) :
    ∀ e : SimulationEngine, (e.runTicks n).map SimulationEngine.view = runView n e.view := by
  induction n with
  | zero =>
    intro e
    rfl
  | succ n ih =>
    intro e
    have h := tick_view e
    simp only [SimulationEngine.runTicks, runView]
    cases ht : e.tick with
    | none =>
      rw [ht] at h
      simp only [Option.map_none'] at h
      rw [← h]
      rfl
    | some e1 =>
      rw [ht] at h
      simp only [Option.map_some'] at h
      rw [← h]
      exact ih e1

theorem updateVTOLs_quiet (queueType : VTOLStatus) (e : SimulationEngine)
    (changed : Option (List VTOLPtr)) (hch : changed = some [] ∨ changed = none)
    (hnd : (e.getQueue queueType).q.Nodup)
    (hvalid : ∀ p ∈ (e.getQueue queueType).q, p < e.heap.length)
    (hcap : (e.getQueue queueType).holds (e.getQueue queueType).size)
    (havail : e.chargerAvailabilityTimes = [])
    (hstay : ∀ p ∈ (e.getQueue queueType).q, ∀ v roll, e.heap[p]? = some v →
      (v.updateVTOL e.hoursPerTick roll).1.state = queueType) :
    ∃ e1 : SimulationEngine,
      e.updateVTOLs queueType changed = some (e1, changed) ∧
      QuietStep (e.getQueue queueType).q e e1 := by
  obtain ⟨e1, R, hqueue, hrun⟩ := updateVTOLs_spec queueType e changed hnd hvalid hcap
  have hleave : ∀ p ∈ (e.getQueue queueType).q,
      e1.leaves queueType changed.isSome p = false := by
    intro p hp
    obtain ⟨v, roll, h1, h2⟩ := R.heap_updated p hp
    simp [SimulationEngine.leaves, SimulationEngine.stateOf, h2, hstay p hp v roll h1]
  have hnone : (e.getQueue queueType).q.filter (e1.leaves queueType changed.isSome) = [] := by
    rw [List.filter_eq_nil_iff]
    intro p hp
    simp [hleave p hp]
  have hall : (e.getQueue queueType).q.filter
      (fun p => !e1.leaves queueType changed.isSome p) = (e.getQueue queueType).q := by
    rw [List.filter_eq_self]
    intro p hp
    simp [hleave p hp]
  rw [hall] at hqueue
  rw [hnone] at hrun
  have hav1 : e1.chargerAvailabilityTimes = [] := by
    rw [R.availability, havail, hnone]
    split_ifs <;> rfl
  refine ⟨if queueType = VTOLStatus.CHARGING then
      { e1 with chargerAvailabilityTimes := sortDescending e1.chargerAvailabilityTimes }
    else e1, ?_, ?_⟩
  · rw [hrun]
    rcases hch with rfl | rfl
    · cases queueType <;> simp [sortPointers]
    · cases queueType <;> simp
  · have hq1 : ∀ t, (e1.getQueue t).view = (e.getQueue t).view := by
      intro t
      by_cases ht : t = queueType
      · subst ht
        simp [VTOLQueue.view, hqueue, R.capacity_eq, R.queueType_eq]
      · rw [R.queue_other t ht]
    split_ifs
    · exact
        { queues := fun t => by rw [getQueue_availability_update]; exact hq1 t
          VTOLs_eq := R.VTOLs_eq
          tickLength_eq := R.tickLength_eq
          hoursPerTick_eq := R.hoursPerTick_eq
          availability := by simp [hav1, sortDescending]
          heap_length := R.heap_length
          heap_other := R.heap_other
          heap_updated := R.heap_updated }
    · exact
        { queues := hq1
          VTOLs_eq := R.VTOLs_eq
          tickLength_eq := R.tickLength_eq
          hoursPerTick_eq := R.hoursPerTick_eq
          availability := hav1
          heap_length := R.heap_length
          heap_other := R.heap_other
          heap_updated := R.heap_updated }

theorem moveVTOLs_nothing_changed (e : SimulationEngine) (queueType : VTOLStatus)
    (h : queueType ≠ VTOLStatus.WAITING) : e.moveVTOLs queueType (some []) = some e := by
  simp [SimulationEngine.moveVTOLs, h, SimulationEngine.pushChanged]

theorem moveVTOLs_no_charger (e : SimulationEngine)
    (h : e.chargingQueue.full = true ∨ e.waitingQueue.empty = true) :
    e.moveVTOLs VTOLStatus.WAITING none =
      some { e with chargerAvailabilityTimes := [] } := by
  have hloop : ∀ fuel, SimulationEngine.allocateLoop 0 fuel e = some e := by
    intro fuel
    cases fuel with
    | zero => rfl
    | succ n =>
      rw [allocateLoop_unfold]
      rcases h with h | h <;> simp [h]
  simp [SimulationEngine.moveVTOLs, hloop]

theorem quietFor_iff (k : Nat) (o : EngineView) : o.quietFor k = true ↔ QuietFacts k o := by
  constructor
  · intro h
    simp only [EngineView.quietFor, Bool.and_eq_true, decide_eq_true_eq, List.all_eq_true,
      EngineView.allInState, Bool.or_eq_true, List.isEmpty_iff, List.mem_range,
      List.elem_eq_mem] at h
    obtain ⟨⟨⟨⟨⟨⟨⟨⟨⟨⟨⟨⟨h1, h2⟩, h3⟩, h4⟩, h5⟩, h6⟩, h7⟩, h8⟩, h9⟩, h10⟩, h11⟩, h12⟩, h13⟩ := h
    exact ⟨h1, h2, h3, h4, h5, h6, h7, h8, h9, h10, h11, h12, h13⟩
  · intro h
    simp only [EngineView.quietFor, Bool.and_eq_true, decide_eq_true_eq, List.all_eq_true,
      EngineView.allInState, Bool.or_eq_true, List.isEmpty_iff, List.mem_range,
      List.elem_eq_mem]
    exact ⟨⟨⟨⟨⟨⟨⟨⟨⟨⟨⟨⟨h.nodup, h.valid⟩, h.covered⟩, h.flying_state⟩, h.charging_state⟩,
      h.waiting_state⟩, h.flying_capacity⟩, h.waiting_capacity⟩, h.charging_capacity⟩,
      h.no_charger⟩, h.availability⟩, h.tick_nonneg⟩, h.stable⟩

theorem heap_view_getElem (e : SimulationEngine) (p : VTOLPtr) :
    e.view.heap[p]? = (e.heap[p]?).map VTOL.withoutFaults := by
  simp [SimulationEngine.view, List.getElem?_map]

theorem stay_of_quiet (k : Nat) (e : SimulationEngine) (F : QuietFacts (k + 1) e.view)
    (p : VTOLPtr) (v : VTOL) (roll : ℚ) (hv : e.heap[p]? = some v) :
    (v.updateVTOL e.hoursPerTick roll).1.withoutFaults = v.coast 1 e.hoursPerTick ∧
    (v.updateVTOL e.hoursPerTick roll).1.state = v.state := by
  have hmem : v.withoutFaults ∈ e.view.heap := by
    have h := heap_view_getElem e p
    rw [hv] at h
    exact List.getElem?_mem h
  have hs : v.stableFor (k + 1) e.hoursPerTick = true :=
    (stableFor_withoutFaults (k + 1) e.hoursPerTick v) ▸ F.stable _ hmem
  obtain ⟨h1, h2, -⟩ := updateVTOL_stable k e.hoursPerTick v roll hs F.tick_nonneg
  exact ⟨h1, h2⟩

theorem state_of_view (e : SimulationEngine) (p : VTOLPtr) (v : VTOL) (s : VTOLStatus)
    (h : (e.view.heap[p]?).map VTOL.state = some s) (hv : e.heap[p]? = some v) :
    v.state = s := by
  rw [heap_view_getElem, hv] at h
  simpa [VTOL.withoutFaults] using h

theorem coast_withoutFaults (k : Nat) (hoursPerTick : ℚ) (v : VTOL) :
    v.withoutFaults.coast k hoursPerTick = v.coast k hoursPerTick := by
  obtain ⟨state, make, speed, chargeTime, drainTime, pc, fp, ttsc, tf, tw, tc, nf, tist⟩ := v
  cases state <;> rfl

theorem tick_quiet (k : Nat) (e : SimulationEngine) (F : QuietFacts (k + 1) e.view) :
    ∃ e1 : SimulationEngine, e.tick = some e1 ∧ e1.view = e.view.coast 1 := by
  have hqueued : e.view.queued = e.flyingQueue.q ++ e.chargingQueue.q ++ e.waitingQueue.q :=
    rfl
  have hlen : e.view.heap.length = e.heap.length := by simp [SimulationEngine.view]
  have hnd := F.nodup
  rw [hqueued] at hnd
  have hndF : e.flyingQueue.q.Nodup := hnd.of_append_left.of_append_left
  have hndC : e.chargingQueue.q.Nodup := hnd.of_append_left.of_append_right
  have hndW : e.waitingQueue.q.Nodup := hnd.of_append_right
  have hFC : ∀ p, p ∈ e.flyingQueue.q → p ∉ e.chargingQueue.q :=
    fun p h1 h2 => List.disjoint_of_nodup_append hnd.of_append_left h1 h2
  have hFW : ∀ p, p ∈ e.flyingQueue.q → p ∉ e.waitingQueue.q :=
    fun p h1 h2 => List.disjoint_of_nodup_append hnd (List.mem_append_left _ h1) h2
  have hCW : ∀ p, p ∈ e.chargingQueue.q → p ∉ e.waitingQueue.q :=
    fun p h1 h2 => List.disjoint_of_nodup_append hnd (List.mem_append_right _ h1) h2
  have hvalid : ∀ p, p ∈ e.flyingQueue.q ∨ p ∈ e.chargingQueue.q ∨ p ∈ e.waitingQueue.q →
      p < e.heap.length := by
    intro p hp
    rw [← hlen]
    refine F.valid p ?_
    rw [hqueued]
    simp only [List.mem_append]
    tauto
  -- Phase A, Flying worker
  obtain ⟨e1, hrun1, Q1⟩ := updateVTOLs_quiet VTOLStatus.FLYING e (some []) (Or.inl rfl)
    hndF (fun p hp => hvalid p (Or.inl hp)) (Or.inl F.flying_capacity) F.availability
    (by
      intro p hp v roll hv
      rw [(stay_of_quiet k e F p v roll hv).2]
      exact state_of_view e p v _ (F.flying_state p hp) hv)
  -- Phase A, Charging worker
  have hq1C : (e1.getQueue VTOLStatus.CHARGING).q = e.chargingQueue.q :=
    (view_q _ _ (Q1.queues VTOLStatus.CHARGING)).1
  have hc1C : (e1.getQueue VTOLStatus.CHARGING).capacity = e.chargingQueue.capacity :=
    (view_q _ _ (Q1.queues VTOLStatus.CHARGING)).2.2
  obtain ⟨e2, hrun2, Q2⟩ := updateVTOLs_quiet VTOLStatus.CHARGING e1 (some []) (Or.inl rfl)
    (by rw [hq1C]; exact hndC)
    (by
      intro p hp
      rw [hq1C] at hp
      rw [Q1.heap_length]
      exact hvalid p (Or.inr (Or.inl hp)))
    (by
      refine Or.inr ?_
      rw [hc1C, VTOLQueue.size, hq1C]
      exact F.charging_capacity)
    Q1.availability
    (by
      intro p hp v roll hv
      rw [hq1C] at hp
      rw [Q1.heap_other p (fun h => hFC p h hp)] at hv
      rw [Q1.hoursPerTick_eq, (stay_of_quiet k e F p v roll hv).2]
      exact state_of_view e p v _ (F.charging_state p hp) hv)
  rw [hq1C] at Q2
  -- Phase A, Waiting worker
  have hq2W : (e2.getQueue VTOLStatus.WAITING).q = e.waitingQueue.q :=
    ((view_q _ _ (Q2.queues VTOLStatus.WAITING)).1).trans
      (view_q _ _ (Q1.queues VTOLStatus.WAITING)).1
  have hc2W : (e2.getQueue VTOLStatus.WAITING).capacity = e.waitingQueue.capacity :=
    ((view_q _ _ (Q2.queues VTOLStatus.WAITING)).2.2).trans
      (view_q _ _ (Q1.queues VTOLStatus.WAITING)).2.2
  obtain ⟨e3, hrun3, Q3⟩ := updateVTOLs_quiet VTOLStatus.WAITING e2 none (Or.inr rfl)
    (by rw [hq2W]; exact hndW)
    (by
      intro p hp
      rw [hq2W] at hp
      rw [Q2.heap_length, Q1.heap_length]
      exact hvalid p (Or.inr (Or.inr hp)))
    (Or.inl (hc2W.trans F.waiting_capacity))
    Q2.availability
    (by
      intro p hp v roll hv
      rw [hq2W] at hp
      rw [Q2.heap_other p (fun h => hCW p h hp),
        Q1.heap_other p (fun h => hFW p h hp)] at hv
      rw [Q2.hoursPerTick_eq, Q1.hoursPerTick_eq, (stay_of_quiet k e F p v roll hv).2]
      exact state_of_view e p v _ (F.waiting_state p hp) hv)
  rw [hq2W] at Q3
  -- Phases B and C
  have hqv : ∀ t, (e3.getQueue t).view = (e.getQueue t).view := fun t =>
    ((Q3.queues t).trans (Q2.queues t)).trans (Q1.queues t)
  have hno : e3.chargingQueue.full = true ∨ e3.waitingQueue.empty = true := by
    obtain ⟨hcq, -, hcc⟩ := view_q _ _ (hqv VTOLStatus.CHARGING)
    obtain ⟨hwq, -, -⟩ := view_q _ _ (hqv VTOLStatus.WAITING)
    simp only [SimulationEngine.getQueue] at hcq hcc hwq
    rcases F.no_charger with h | h
    · left
      have h1 : (e.chargingQueue.q.length : Int) = e.chargingQueue.capacity := h
      have hne : e.chargingQueue.capacity ≠ UNLIMITED := by
        intro hu
        rw [hu] at h1
        simp only [UNLIMITED] at h1
        omega
      simp [VTOLQueue.full, hcq, hcc, h1, hne]
    · right
      have h1 : e.waitingQueue.q = [] := h
      simp [VTOLQueue.empty, hwq, h1]
  refine ⟨{ e3 with chargerAvailabilityTimes := [] }, ?_, ?_⟩
  · unfold SimulationEngine.tick
    simp only [hrun1, hrun2, hrun3]
    rw [moveVTOLs_nothing_changed e3 VTOLStatus.FLYING (by decide)]
    simp only
    rw [moveVTOLs_nothing_changed e3 VTOLStatus.CHARGING (by decide)]
    simp only
    exact moveVTOLs_no_charger e3 hno
  · have hheap : e3.heap.map VTOL.withoutFaults =
        (e.heap.map VTOL.withoutFaults).map (VTOL.coast 1 e.hoursPerTick) := by
      refine List.ext_getElem? ?_
      intro i
      simp only [List.getElem?_map]
      by_cases hi : i < e.heap.length
      · have hmem : i ∈ e.flyingQueue.q ++ e.chargingQueue.q ++ e.waitingQueue.q :=
          F.covered i (by rw [hlen]; exact hi)
        simp only [List.mem_append] at hmem
        have hkey : ∃ v roll, e.heap[i]? = some v ∧
            e3.heap[i]? = some (v.updateVTOL e.hoursPerTick roll).1 := by
          rcases hmem with (hF | hC) | hW
          · obtain ⟨v, roll, h1, h2⟩ := Q1.heap_updated i hF
            refine ⟨v, roll, h1, ?_⟩
            rw [Q3.heap_other i (hFW i hF), Q2.heap_other i (hFC i hF), h2]
          · obtain ⟨v, roll, h1, h2⟩ := Q2.heap_updated i hC
            rw [Q1.heap_other i (fun h => hFC i h hC)] at h1
            refine ⟨v, roll, h1, ?_⟩
            rw [Q3.heap_other i (hCW i hC), h2, Q1.hoursPerTick_eq]
          · obtain ⟨v, roll, h1, h2⟩ := Q3.heap_updated i hW
            rw [Q2.heap_other i (fun h => hCW i h hW),
              Q1.heap_other i (fun h => hFW i h hW)] at h1
            refine ⟨v, roll, h1, ?_⟩
            rw [h2, Q2.hoursPerTick_eq, Q1.hoursPerTick_eq]
        obtain ⟨v, roll, h1, h2⟩ := hkey
        rw [h1, h2]
        simp only [Option.map_some', Option.some.injEq]
        rw [(stay_of_quiet k e F i v roll h1).1, coast_withoutFaults]
      · have h3 : e3.heap.length ≤ i := by
          rw [Q3.heap_length, Q2.heap_length, Q1.heap_length]
          omega
        rw [List.getElem?_eq_none h3, List.getElem?_eq_none (by omega)]
        rfl
    have hF := view_q _ _ (hqv VTOLStatus.FLYING)
    have hC := view_q _ _ (hqv VTOLStatus.CHARGING)
    have hW := view_q _ _ (hqv VTOLStatus.WAITING)
    simp only [SimulationEngine.getQueue] at hF hC hW
    have hav : e.chargerAvailabilityTimes = [] := F.availability
    simp only [SimulationEngine.view, EngineView.coast, VTOLQueue.view, hheap, hF.1, hF.2.1,
      hF.2.2, hC.1, hC.2.1, hC.2.2, hW.1, hW.2.1, hW.2.2, Q3.VTOLs_eq, Q2.VTOLs_eq,
      Q1.VTOLs_eq, Q3.tickLength_eq, Q2.tickLength_eq, Q1.tickLength_eq, Q3.hoursPerTick_eq,
      Q2.hoursPerTick_eq, Q1.hoursPerTick_eq, hav]

theorem coast_state (k : Nat) (hoursPerTick : ℚ) (v : VTOL) :
    (v.coast k hoursPerTick).state = v.state := by
  obtain ⟨state, make, speed, chargeTime, drainTime, pc, fp, ttsc, tf, tw, tc, nf, tist⟩ := v
  by_cases hk : k = 0
  · simp [VTOL.coast, hk, VTOL.withoutFaults]
  · cases state <;> simp [VTOL.coast, hk]

theorem coast_one_stable (k : Nat) (hoursPerTick : ℚ) (v : VTOL)
    (hs : v.stableFor (k + 1) hoursPerTick = true) (h0 : 0 ≤ hoursPerTick) :
    (v.coast 1 hoursPerTick).stableFor k hoursPerTick = true := by
  obtain ⟨h1, -, h3⟩ := updateVTOL_stable k hoursPerTick v 1 hs h0
  rw [← h1, stableFor_withoutFaults]
  exact h3

theorem coast_quietFacts (k : Nat) (o : EngineView) (F : QuietFacts (k + 1) o) :
    QuietFacts k (o.coast 1) := by
  have hstate : ∀ (p : VTOLPtr) (s : VTOLStatus), (o.heap[p]?).map VTOL.state = some s →
      ((o.coast 1).heap[p]?).map VTOL.state = some s := by
    intro p s h
    simp only [EngineView.coast, List.getElem?_map, Option.map_map]
    rw [← h]
    congr 1
    funext v
    exact coast_state 1 o.hoursPerTick v
  exact
    { nodup := F.nodup
      valid := by
        intro p hp
        simp only [EngineView.coast, List.length_map]
        exact F.valid p hp
      covered := by
        intro i hi
        simp only [EngineView.coast, List.length_map] at hi
        exact F.covered i hi
      flying_state := fun p hp => hstate p _ (F.flying_state p hp)
      charging_state := fun p hp => hstate p _ (F.charging_state p hp)
      waiting_state := fun p hp => hstate p _ (F.waiting_state p hp)
      flying_capacity := F.flying_capacity
      waiting_capacity := F.waiting_capacity
      charging_capacity := F.charging_capacity
      no_charger := F.no_charger
      availability := F.availability
      tick_nonneg := F.tick_nonneg
      stable := by
        intro w hw
        simp only [EngineView.coast, List.mem_map] at hw
        obtain ⟨v, hv, rfl⟩ := hw
        exact coast_one_stable k o.hoursPerTick v (F.stable v hv) F.tick_nonneg }

theorem coast_coast (k : Nat) (o : EngineView) : (o.coast 1).coast k = o.coast (k + 1) := by
  simp only [EngineView.coast, List.map_map]
  congr 1
  refine List.map_congr_left ?_
  intro v _
  exact coast_succ k o.hoursPerTick v

theorem isView_view (e : SimulationEngine) : IsView e.view := by
  simp [IsView, SimulationEngine.view, Function.comp_def, withoutFaults_idem]

theorem isView_coast (k : Nat) (o : EngineView) : IsView (o.coast k) := by
  simp only [IsView, EngineView.coast, List.map_map]
  refine List.map_congr_left ?_
  intro v _
  obtain ⟨state, make, speed, chargeTime, drainTime, pc, fp, ttsc, tf, tw, tc, nf, tist⟩ := v
  by_cases hk : k = 0
  · simp [VTOL.coast, hk, VTOL.withoutFaults]
  · cases state <;> simp [VTOL.coast, hk, VTOL.withoutFaults]

theorem coast_zero (o : EngineView) (h : IsView o) : o.coast 0 = o := by
  have h2 : o.heap.map (VTOL.coast 0 o.hoursPerTick) = o.heap := by
    have hfun : VTOL.coast 0 o.hoursPerTick = VTOL.withoutFaults := by
      funext v
      simp [VTOL.coast]
    rw [hfun]
    exact h
  simp only [EngineView.coast, h2]

theorem quiet_run (k : Nat) :
    ∀ e : SimulationEngine, QuietFacts k e.view →
      ∃ e1 : SimulationEngine, e.runTicks k = some e1 ∧ e1.view = e.view.coast k := by
  induction k with
  | zero =>
    intro e _
    exact ⟨e, rfl, (coast_zero _ (isView_view e)).symm⟩
  | succ k ih =>
    intro e F
    obtain ⟨e1, h1, hv1⟩ := tick_quiet k e F
    obtain ⟨e2, h2, hv2⟩ := ih e1 (hv1 ▸ coast_quietFacts k e.view F)
    refine ⟨e2, ?_, ?_⟩
    · simp only [SimulationEngine.runTicks, h1]
      exact h2
    · rw [hv2, hv1, coast_coast]

theorem engine_view (o : EngineView) (h : IsView o) : o.engine.view = o := by
  simp only [SimulationEngine.view, EngineView.engine, VTOLQueue.view, QueueView.queue]
  simp only [IsView] at h
  rw [h]

theorem runView_quiet (k : Nat) (o : EngineView) (h : IsView o)
    (hq : o.quietFor k = true) : runView k o = some (o.coast k) := by
  have hv := engine_view o h
  obtain ⟨e1, h1, h2⟩ := quiet_run k o.engine (hv.symm ▸ (quietFor_iff k o).mp hq)
  have h3 := runTicks_view k o.engine
  rw [h1, hv] at h3
  rw [← h3]
  simp [h2, hv]

theorem runView_add (a b : Nat) :
    ∀ o : EngineView, runView (a + b) o = (runView a o).bind (runView b) := by
  induction a with
  | zero =>
    intro o
    simp [runView]
  | succ a ih =>
    intro o
    rw [Nat.succ_add]
    simp only [runView]
    cases tickView o with
    | none => rfl
    | some o1 => exact ih o1

theorem isView_tickView (o o1 : EngineView) (h : tickView o = some o1) : IsView o1 := by
  unfold tickView at h
  cases ht : o.engine.tick with
  | none => rw [ht] at h; simp at h
  | some e1 =>
    rw [ht] at h
    simp only [Option.map_some', Option.some.injEq] at h
    rw [← h]
    exact isView_view e1

theorem runPlan_sound (plan : List PlanStep) :
    ∀ o o1 : EngineView, IsView o → runPlan plan o = some o1 →
      runView (planTicks plan) o = some o1 := by
  induction plan with
  | nil =>
    intro o o1 _ h
    simpa [runPlan, planTicks, runView] using h
  | cons step plan ih =>
    intro o o1 hv h
    cases step with
    | coast k =>
      simp only [runPlan] at h
      split_ifs at h with hq
      simp only [planTicks]
      rw [runView_add, runView_quiet k o hv hq]
      exact ih _ _ (isView_coast k o) h
    | tick =>
      simp only [runPlan] at h
      simp only [planTicks]
      rw [runView_add]
      cases ht : tickView o with
      | none => rw [ht] at h; simp at h
      | some o2 =>
        rw [ht] at h
        simp only at h
        have h1 : runView 1 o = some o2 := by simp [runView, ht]
        rw [h1]
        exact ih _ _ (isView_tickView o o2 ht) h

theorem summaryLoop_congr (make : VTOLMake) (us ws : List VTOL)
    (h : us.map VTOL.withoutFaults = ws.map VTOL.withoutFaults) :
    ∀ acc acc1 : Nat × MakeSummary, acc.1 = acc1.1 → acc.2.times = acc1.2.times →
      (summaryLoop make us acc).1 = (summaryLoop make ws acc1).1 ∧
      (summaryLoop make us acc).2.times = (summaryLoop make ws acc1).2.times := by
  induction us generalizing ws with
  | nil =>
    intro acc acc1 h1 h2
    cases ws with
    | nil => exact ⟨h1, h2⟩
    | cons w ws => simp at h
  | cons u us ih =>
    intro acc acc1 h1 h2
    cases ws with
    | nil => simp at h
    | cons w ws =>
      simp only [List.map_cons, List.cons.injEq] at h
      obtain ⟨huw, hrest⟩ := h
      simp only [VTOL.withoutFaults, VTOL.mk.injEq] at huw
      obtain ⟨-, g2, g3, -, -, g6, -, -, g9, g10, g11, -, -⟩ := huw
      obtain ⟨c, s⟩ := acc
      obtain ⟨c1, s1⟩ := acc1
      simp only at h1
      subst h1
      simp only [MakeSummary.times, Prod.mk.injEq] at h2
      obtain ⟨t1, t2, t3, t4⟩ := h2
      by_cases hm : w.make = make
      · simp only [summaryLoop, g2, hm, if_true]
        refine ih ws hrest _ _ rfl ?_
        simp only [MakeSummary.times, VTOL.getTimeInFlight, VTOL.getTimeWaiting,
          VTOL.getTimeCharging, VTOL.getPassengerMiles, t1, t2, t3, t4, g3, g6, g9, g10, g11]
      · simp only [summaryLoop, g2, hm, if_false]
        exact ih ws hrest _ _ rfl (by simp only [MakeSummary.times, t1, t2, t3, t4])

theorem mapM_heap_congr (e e1 : SimulationEngine) (h : e.view = e1.view)
    (ps : List VTOLPtr) :
    (ps.mapM (fun p => e.heap[p]?)).map (List.map VTOL.withoutFaults) =
      (ps.mapM (fun p => e1.heap[p]?)).map (List.map VTOL.withoutFaults) := by
  induction ps with
  | nil => rfl
  | cons p ps ih =>
    simp only [List.mapM_cons]
    rcases heap_view_cases e e1 h p with ⟨hv, hv1⟩ | ⟨v, v1, hv, hv1, hvv⟩
    · rw [hv, hv1]
      rfl
    · rw [hv, hv1]
      rcases map_eq_cases _ _ _ ih with ⟨h1, h2⟩ | ⟨a, b, h1, h2, hab⟩
      · rw [h1, h2]
        rfl
      · rw [h1, h2]
        simp [hvv, hab]

theorem displayMakeSummary_congr (e e1 : SimulationEngine) (h : e.view = e1.view)
    (make : VTOLMake) :
    (e.displayMakeSummary make).map MakeSummary.times =
      (e1.displayMakeSummary make).map MakeSummary.times := by
  have hV : e.VTOLs = e1.VTOLs := by
    simp only [SimulationEngine.view, EngineView.mk.injEq] at h
    exact h.2.2.2.1
  unfold SimulationEngine.displayMakeSummary
  rw [hV]
  rcases map_eq_cases _ _ _ (mapM_heap_congr e e1 h e1.VTOLs) with
    ⟨h1, h2⟩ | ⟨a, b, h1, h2, hab⟩
  · rw [h1, h2]
  · rw [h1, h2]
    simp only
    obtain ⟨hc, ht⟩ := summaryLoop_congr make a b hab
      (0, { flightTime := 0, waitTime := 0, chargeTime := 0, maxFaults := 0,
            totalPassengerMiles := 0 })
      (0, { flightTime := 0, waitTime := 0, chargeTime := 0, maxFaults := 0,
            totalPassengerMiles := 0 }) rfl rfl
    simp only [MakeSummary.times, Prod.mk.injEq] at ht
    obtain ⟨t1, t2, t3, t4⟩ := ht
    rw [hc]
    split_ifs <;> simp [MakeSummary.times, t1, t2, t3, t4, hc]

theorem addNewVTOL_view (e e1 : SimulationEngine) (h : e.view = e1.view) (make : VTOLMake) :
    (e.addNewVTOL make).view = (e1.addNewVTOL make).view := by
  have hl : e.heap.length = e1.heap.length := by
    have := congrArg List.length (view_heap e e1 h)
    simpa using this
  have hp := push_view e.flyingQueue e1.flyingQueue e1.heap.length
    (view_getQueue e e1 h VTOLStatus.FLYING)
  simp only [SimulationEngine.view, EngineView.mk.injEq] at h
  obtain ⟨h1, h2, h3, h4, h5, h6, h7, h8⟩ := h
  simp [SimulationEngine.view, SimulationEngine.addNewVTOL, hl, h2, h3, h4, h5, h6, h7, h8, hp]

theorem load_view (makes : List VTOLMake) :
    ∀ e e1 : SimulationEngine, e.view = e1.view → (e.load makes).view = (e1.load makes).view := by
  induction makes with
  | nil =>
    intro e e1 h
    exact h
  | cons make makes ih =>
    intro e e1 h
    exact ih _ _ (addNewVTOL_view e e1 h make)

theorem sixAlpha_view (draws : Nat → ℚ) : (sixAlpha draws).view = (sixAlpha (fun _ => 1)).view :=
  load_view _ _ _ rfl

/-! ## Lemmas on the first flight leg -/

theorem new_firstLeg (make : VTOLMake) : FirstLeg (VTOL.new make).drainTime (VTOL.new make) := by
  cases make <;> simp [FirstLeg, VTOL.new, VTOL.Init]

theorem updateVTOL_flying_cases (v : VTOL) (dTime faultRoll : ℚ)
    (hs : v.state = VTOLStatus.FLYING) (hc : 0 < v.timeToStateChange) :
    ((v.updateVTOL dTime faultRoll).1.state = VTOLStatus.FLYING ∧
      (v.updateVTOL dTime faultRoll).1.timeFlying = v.timeFlying + dTime ∧
      (v.updateVTOL dTime faultRoll).1.timeToStateChange = v.timeToStateChange - dTime ∧
      TOLERANCE ≤ v.timeToStateChange - dTime) ∨
    ((v.updateVTOL dTime faultRoll).1.state = VTOLStatus.WAITING ∧
      (v.updateVTOL dTime faultRoll).1.timeToStateChange = (UNLIMITED : ℚ) ∧
      (v.updateVTOL dTime faultRoll).1.timeFlying = v.timeFlying + min dTime v.timeToStateChange ∧
      v.timeToStateChange - min dTime v.timeToStateChange < TOLERANCE) := by
  obtain ⟨state, make, speed, chargeTime, drainTime, pc, fp, ttsc, tf, tw, tc, nf, tist⟩ := v
  simp only at hs hc
  subst hs
  rcases le_total dTime ttsc with hle | hle
  · have habs : |ttsc - dTime| = ttsc - dTime := abs_of_nonneg (sub_nonneg.mpr hle)
    by_cases hlt : ttsc - dTime < TOLERANCE
    · right
      simp only [VTOL.updateVTOL, VTOL.setState, VTOL.hadFault, hc, if_true, almostEqual,
        sub_zero, min_eq_left hle]
      split_ifs <;> simp_all <;>
        (rw [abs_of_nonneg (sub_nonneg.mpr hle)] at *; linarith)
    · left
      simp only [VTOL.updateVTOL, VTOL.setState, VTOL.hadFault, hc, if_true, almostEqual,
        sub_zero, min_eq_left hle]
      split_ifs <;> simp_all <;>
        (rw [abs_of_nonneg (sub_nonneg.mpr hle)] at *; linarith)
  · right
    have hpos : (0 : ℚ) < TOLERANCE := by norm_num [TOLERANCE]
    simp only [VTOL.updateVTOL, VTOL.setState, VTOL.hadFault, hc, if_true, almostEqual,
      sub_zero, min_eq_right hle]
    split_ifs <;> simp_all

theorem updateVTOL_firstLeg (D : ℚ) (v : VTOL) (dTime faultRoll : ℚ) (hv : FirstLeg D v)
    (hd : 0 < dTime) : FirstLeg D (v.updateVTOL dTime faultRoll).1 := by
  obtain ⟨h1, h2, h3, h4⟩ := hv
  have hdrain : (v.updateVTOL dTime faultRoll).1.drainTime = v.drainTime := by
    obtain ⟨state, make, speed, chargeTime, drainTime, pc, fp, ttsc, tf, tw, tc, nf, tist⟩ := v
    cases state <;> simp only [VTOL.updateVTOL, VTOL.setState, VTOL.hadFault] <;>
      split_ifs <;> rfl
  cases hst : v.state with
  | FLYING =>
    obtain ⟨hsum, hpos⟩ := h3 hst
    have hT : (0 : ℚ) < TOLERANCE := by norm_num [TOLERANCE]
    rcases updateVTOL_flying_cases v dTime faultRoll hst hpos with
      ⟨a1, a2, a3, a4⟩ | ⟨a1, a2, a3, a4⟩
    · refine ⟨hdrain.trans h1, by rw [a1]; simp, fun _ => ⟨?_, ?_⟩, fun h => ?_⟩
      · rw [a2, a3]; linarith
      · rw [a3]; linarith
      · rw [a1] at h; cases h
    · refine ⟨hdrain.trans h1, by rw [a1]; simp, fun h => ?_, fun _ => ?_⟩
      · rw [a1] at h; cases h
      · rw [a2]
  | WAITING =>
    rw [updateVTOL_waiting v dTime faultRoll hst (h4 hst) hd]
    refine ⟨h1, by simp [hst], fun h => ?_, fun _ => ?_⟩
    · simp [hst] at h
    · have := h4 hst
      simp only
      linarith
  | CHARGING => exact absurd hst h2

theorem runOps_firstLeg (D : ℚ) (calls : List (ℚ × ℚ)) :
    ∀ v : VTOL, FirstLeg D v → (∀ c ∈ calls, 0 < c.1) → FirstLeg D (runOps v (advances calls)) := by
  induction calls with
  | nil =>
    intro v hv _
    exact hv
  | cons c calls ih =>
    intro v hv hpos
    simp only [advances, List.map_cons, runOps, VTOLOp.apply]
    exact ih _ (updateVTOL_firstLeg D v c.1 c.2 hv (hpos c (by simp)))
      (fun c1 hc1 => hpos c1 (List.mem_cons_of_mem _ hc1))

/-! ## Lemmas: units that suit the tick -/

theorem new_fits (make : VTOLMake) (h : ℚ)
    (h1 : h < (VTOL.new make).chargeTime - TOLERANCE) (h2 : h < (VTOL.new make).drainTime) :
    (VTOL.new make).Fits h := by
  have hm : max h 0 + TOLERANCE < (VTOL.new make).chargeTime ∧
      max h 0 < (VTOL.new make).drainTime ∧ 0 < (VTOL.new make).drainTime := by
    rcases le_total h 0 with h0 | h0
    · rw [max_eq_right h0]
      cases make <;> norm_num [VTOL.new, VTOL.Init, TOLERANCE]
    · rw [max_eq_left h0]
      refine ⟨by linarith, h2, by linarith⟩
  refine ⟨hm.1, hm.2.1, ?_, ?_⟩
  · have : (VTOL.new make).timeInStateThisTick = 0 := by cases make <;> rfl
    rw [this]
    exact le_max_right _ _
  · intro _
    have : (VTOL.new make).timeToStateChange = (VTOL.new make).drainTime := by
      cases make <;> rfl
    rw [this]
    exact hm.2.2

theorem updateVTOL_fits (h : ℚ) (v : VTOL) (faultRoll : ℚ) (hv : v.Fits h) :
    (v.updateVTOL h faultRoll).1.Fits h ∧
    ((v.updateVTOL h faultRoll).1.state = v.state ∨
      (v.state ≠ VTOLStatus.WAITING ∧
        (v.updateVTOL h faultRoll).1.state = nextQueueType v.state)) := by
  obtain ⟨state, make, speed, chargeTime, drainTime, pc, fp, ttsc, tf, tw, tc, nf, tist⟩ := v
  obtain ⟨h1, h2, h3, h4⟩ := hv
  simp only at h1 h2 h3 h4
  have hT : (0 : ℚ) < TOLERANCE := by norm_num [TOLERANCE]
  have hm0 : 0 ≤ max h 0 := le_max_right _ _
  have hmh : h ≤ max h 0 := le_max_left _ _
  cases state
  · have hc : 0 < ttsc := h4 (by simp)
    rcases le_total h ttsc with hle | hle
    · simp only [VTOL.updateVTOL, VTOL.setState, VTOL.hadFault, hc, if_true, almostEqual,
        sub_zero, min_eq_left hle, VTOL.Fits, nextQueueType]
      split_ifs <;> simp_all [abs_of_nonneg (sub_nonneg.mpr hle)] <;> linarith
    · have hh : max h 0 = h := max_eq_left (le_trans hc.le hle)
      simp only [VTOL.updateVTOL, VTOL.setState, VTOL.hadFault, hc, if_true, almostEqual,
        sub_zero, min_eq_right hle, VTOL.Fits, nextQueueType]
      split_ifs <;> simp_all <;> linarith
  · by_cases hc : 0 < ttsc
    · rcases le_total h ttsc with hle | hle
      · simp only [VTOL.updateVTOL, hc, if_true, min_eq_left hle, VTOL.Fits, nextQueueType]
        split_ifs <;> simp_all
      · have hh : max h 0 = h := max_eq_left (le_trans hc.le hle)
        simp only [VTOL.updateVTOL, hc, if_true, min_eq_right hle, VTOL.Fits, nextQueueType]
        split_ifs <;> simp_all
        linarith
    · simp only [VTOL.updateVTOL, hc, if_false, VTOL.Fits, nextQueueType]
      split_ifs <;> simp_all
  · have hc : 0 < ttsc := h4 (by simp)
    rcases le_total h ttsc with hle | hle
    · simp only [VTOL.updateVTOL, VTOL.setState, VTOL.hadFault, hc, if_true, almostEqual,
        sub_zero, min_eq_left hle, VTOL.Fits, nextQueueType]
      split_ifs <;> simp_all [abs_of_nonneg (sub_nonneg.mpr hle)]
      linarith
    · have hh : max h 0 = h := max_eq_left (le_trans hc.le hle)
      simp only [VTOL.updateVTOL, VTOL.setState, VTOL.hadFault, hc, if_true, almostEqual,
        sub_zero, min_eq_right hle, VTOL.Fits, nextQueueType]
      split_ifs <;> simp_all <;> first | linarith | (constructor <;> linarith)

theorem moveToCharger_fits (h : ℚ) (v : VTOL) (d : ℚ) (hv : v.Fits h) :
    (v.moveToCharger d).Fits h ∧ (v.moveToCharger d).state = VTOLStatus.CHARGING := by
  obtain ⟨state, make, speed, chargeTime, drainTime, pc, fp, ttsc, tf, tw, tc, nf, tist⟩ := v
  obtain ⟨h1, h2, h3, -⟩ := hv
  simp only at h1 h2 h3
  have hT : (0 : ℚ) < TOLERANCE := by norm_num [TOLERANCE]
  have hm0 : 0 ≤ max h 0 := le_max_right _ _
  have ha : min d tist ≤ max h 0 := le_trans (min_le_right _ _) h3
  simp only [VTOL.moveToCharger, VTOL.Fits]
  generalize min d tist = a at ha ⊢
  generalize max h 0 = m at h1 h2 h3 hm0 ha ⊢
  have hc : 0 < chargeTime := by linarith
  have hle : a ≤ chargeTime := by linarith
  simp only [VTOL.updateVTOL, VTOL.setState, VTOL.hadFault, hc, if_true,
    almostEqual, sub_zero, min_eq_left hle]
  split_ifs <;> simp_all [abs_of_nonneg (sub_nonneg.mpr hle)] <;> linarith

/-! ## Lemmas: the queues partition the fleet -/

theorem midTick_count_le {e : SimulationEngine} {pW pF : List VTOLPtr} (M : MidTick e pW pF)
    (p : VTOLPtr) :
    e.flyingQueue.q.count p + e.chargingQueue.q.count p + e.waitingQueue.q.count p +
      pW.count p + pF.count p ≤ 1 := by
  have h1 := M.perm.count_eq p
  have h2 := List.nodup_iff_count_le_one.mp M.fleet p
  simp only [EngineView.queued, SimulationEngine.view, VTOLQueue.view, List.count_append] at h1
  omega

theorem midTick_mem_fleet {e : SimulationEngine} {pW pF : List VTOLPtr} (M : MidTick e pW pF)
    (p : VTOLPtr)
    (hp : p ∈ e.flyingQueue.q ∨ p ∈ e.chargingQueue.q ∨ p ∈ e.waitingQueue.q ∨ p ∈ pW ∨
      p ∈ pF) : p ∈ e.VTOLs := by
  refine M.perm.mem_iff.mp ?_
  simp only [EngineView.queued, SimulationEngine.view, VTOLQueue.view, List.mem_append]
  tauto

theorem midTick_availability {e : SimulationEngine} {pW pF : List VTOLPtr} (M : MidTick e pW pF)
    (l : List ℚ) : MidTick { e with chargerAvailabilityTimes := l } pW pF :=
  ⟨M.fleet, M.perm, M.valid, M.fits, M.flying_state, M.charging_state, M.waiting_state,
    M.flying_capacity, M.waiting_capacity, M.charging_capacity⟩

theorem count_filter_split (l : List VTOLPtr) (f : VTOLPtr → Bool) (p : VTOLPtr) :
    (l.filter (fun x => !f x)).count p + (l.filter f).count p = l.count p := by
  have h := (List.filter_append_perm f l).count_eq p
  rw [List.count_append] at h
  omega

theorem nodup_of_count_le (l : List VTOLPtr) (h : ∀ p, l.count p ≤ 1) : l.Nodup :=
  List.nodup_iff_count_le_one.mpr h

theorem phaseA_core (t : VTOLStatus) (e : SimulationEngine) (changed : Option (List VTOLPtr))
    (hnd : (e.getQueue t).q.Nodup) (hvalid : ∀ p ∈ (e.getQueue t).q, p < e.heap.length)
    (hcap : (e.getQueue t).holds (e.getQueue t).size)
    (hfits : ∀ (i : Nat) (v : VTOL), e.heap[i]? = some v → v.Fits e.hoursPerTick)
    (hstate : ∀ p ∈ (e.getQueue t).q, e.stateOf p = some t) :
    ∃ e1 : SimulationEngine,
      PhaseAResult t changed.isSome (e.getQueue t).q e e1 ∧
      (e1.getQueue t).q = (e.getQueue t).q.filter (fun p => !e1.leaves t changed.isSome p) ∧
      e.updateVTOLs t changed =
        some
          (if t = VTOLStatus.CHARGING then
            { e1 with chargerAvailabilityTimes := sortDescending e1.chargerAvailabilityTimes }
           else e1,
           if t = VTOLStatus.FLYING then
             changed.map (fun c => sortPointers
               (c ++ (e.getQueue t).q.filter (e1.leaves t changed.isSome)))
           else
             changed.map (fun c =>
               c ++ (e.getQueue t).q.filter (e1.leaves t changed.isSome))) ∧
      (∀ (i : Nat) (v : VTOL), e1.heap[i]? = some v → v.Fits e1.hoursPerTick) ∧
      (∀ p, p ∉ (e.getQueue t).q → e1.stateOf p = e.stateOf p) ∧
      (∀ p ∈ (e.getQueue t).q, e1.stateOf p = some t ∨
        (t ≠ VTOLStatus.WAITING ∧ e1.stateOf p = some (nextQueueType t))) := by
  obtain ⟨e1, R, hq, hrun⟩ := updateVTOLs_spec t e changed hnd hvalid hcap
  refine ⟨e1, R, hq, hrun, ?_, ?_, ?_⟩
  · intro i v hiv
    rw [R.hoursPerTick_eq]
    by_cases hi : i ∈ (e.getQueue t).q
    · obtain ⟨v0, roll, h0, h1⟩ := R.heap_updated i hi
      rw [h1] at hiv
      cases hiv
      exact (updateVTOL_fits _ v0 roll (hfits i v0 h0)).1
    · rw [R.heap_other i hi] at hiv
      exact hfits i v hiv
  · intro p hp
    simp only [SimulationEngine.stateOf, R.heap_other p hp]
  · intro p hp
    obtain ⟨v0, roll, h0, h1⟩ := R.heap_updated p hp
    have hs := hstate p hp
    simp only [SimulationEngine.stateOf, h0, Option.map_some', Option.some.injEq] at hs
    have h2 := (updateVTOL_fits _ v0 roll (hfits p v0 h0)).2
    simp only [SimulationEngine.stateOf, h1, Option.map_some', Option.some.injEq]
    rw [hs] at h2
    exact h2

theorem phaseA_flying (e : SimulationEngine) (pW pF : List VTOLPtr) (M : MidTick e pW pF) :
    ∃ (e1 : SimulationEngine) (left : List VTOLPtr),
      e.updateVTOLs VTOLStatus.FLYING (some []) = some (e1, some left) ∧
      MidTick e1 (pW ++ left) pF ∧ e1.VTOLs = e.VTOLs := by
  obtain ⟨e1, R, hq, hrun, hfits, hother, hown⟩ :=
    phaseA_core VTOLStatus.FLYING e (some [])
      (nodup_of_count_le _ (fun p => by have := midTick_count_le M p; simp only [SimulationEngine.getQueue]; omega))
      (fun p hp => M.valid p (midTick_mem_fleet M p (Or.inl hp)))
      (Or.inl M.flying_capacity) M.fits (fun p hp => M.flying_state p (Or.inl hp))
  have hqC : e1.chargingQueue = e.chargingQueue := R.queue_other VTOLStatus.CHARGING (by decide)
  have hqW : e1.waitingQueue = e.waitingQueue := R.queue_other VTOLStatus.WAITING (by decide)
  have hcapF : e1.flyingQueue.capacity = e.flyingQueue.capacity := R.capacity_eq
  simp only [SimulationEngine.getQueue, Option.isSome_some] at hq hother hown
  have hpermL := List.perm_insertionSort (fun a b : VTOLPtr => a ≤ b)
    (e.flyingQueue.q.filter (e1.leaves VTOLStatus.FLYING true))
  have hnot : ∀ p, (p ∈ e.chargingQueue.q ∨ p ∈ e.waitingQueue.q ∨ p ∈ pW ∨ p ∈ pF) →
      p ∉ e.flyingQueue.q := by
    intro p hp hpF
    have h1 := midTick_count_le M p
    have h2 := List.count_pos_iff.mpr hpF
    rcases hp with hp | hp | hp | hp <;>
      (have h3 := List.count_pos_iff.mpr hp; omega)
  refine ⟨e1, sortPointers (e.flyingQueue.q.filter (e1.leaves VTOLStatus.FLYING true)), ?_, ?_,
    R.VTOLs_eq⟩
  · simpa [SimulationEngine.getQueue] using hrun
  · exact
      { fleet := by rw [R.VTOLs_eq]; exact M.fleet
        perm := by
          rw [R.VTOLs_eq]
          refine List.Perm.trans ?_ M.perm
          rw [List.perm_iff_count]
          intro a
          have h1 := count_filter_split e.flyingQueue.q (e1.leaves VTOLStatus.FLYING true) a
          have h2 := hpermL.count_eq a
          simp only [EngineView.queued, SimulationEngine.view, VTOLQueue.view, List.count_append,
            hq, hqC, hqW, sortPointers]
          omega
        valid := by
          intro p hp
          rw [R.heap_length]
          rw [R.VTOLs_eq] at hp
          exact M.valid p hp
        fits := hfits
        flying_state := by
          intro p hp
          rcases hp with hp | hp
          · rw [hq] at hp
            have h := (List.mem_filter.mp hp).2
            simpa [SimulationEngine.leaves] using h
          · rw [hother p (hnot p (by tauto))]
            exact M.flying_state p (Or.inr hp)
        charging_state := by
          intro p hp
          rw [hqC] at hp
          rw [hother p (hnot p (by tauto))]
          exact M.charging_state p hp
        waiting_state := by
          intro p hp
          rw [hqW, List.mem_append] at hp
          rcases hp with hp | hp | hp
          · rw [hother p (hnot p (by tauto))]
            exact M.waiting_state p (Or.inl hp)
          · rw [hother p (hnot p (by tauto))]
            exact M.waiting_state p (Or.inr hp)
          · have hp1 := (hpermL.mem_iff).mp hp
            obtain ⟨hpK, hleave⟩ := List.mem_filter.mp hp1
            have hne : e1.stateOf p ≠ some VTOLStatus.FLYING := by
              simpa [SimulationEngine.leaves] using hleave
            rcases hown p hpK with h | ⟨-, h⟩
            · exact absurd h hne
            · simpa [nextQueueType] using h
        flying_capacity := by rw [hcapF]; exact M.flying_capacity
        waiting_capacity := by rw [hqW]; exact M.waiting_capacity
        charging_capacity := by rw [hqC]; exact M.charging_capacity }

theorem phaseA_charging (e : SimulationEngine) (pW pF : List VTOLPtr) (M : MidTick e pW pF) :
    ∃ (e1 : SimulationEngine) (left : List VTOLPtr),
      e.updateVTOLs VTOLStatus.CHARGING (some []) = some (e1, some left) ∧
      MidTick e1 pW (pF ++ left) ∧ e1.VTOLs = e.VTOLs := by
  obtain ⟨e1, R, hq, hrun, hfits, hother, hown⟩ :=
    phaseA_core VTOLStatus.CHARGING e (some [])
      (nodup_of_count_le _ (fun p => by
        have := midTick_count_le M p; simp only [SimulationEngine.getQueue]; omega))
      (fun p hp => M.valid p (midTick_mem_fleet M p (Or.inr (Or.inl hp))))
      (Or.inr M.charging_capacity) M.fits (fun p hp => M.charging_state p hp)
  have hqF : e1.flyingQueue = e.flyingQueue := R.queue_other VTOLStatus.FLYING (by decide)
  have hqW : e1.waitingQueue = e.waitingQueue := R.queue_other VTOLStatus.WAITING (by decide)
  have hcapC : e1.chargingQueue.capacity = e.chargingQueue.capacity := R.capacity_eq
  simp only [SimulationEngine.getQueue, Option.isSome_some] at hq hother hown
  have hnot : ∀ p, (p ∈ e.flyingQueue.q ∨ p ∈ e.waitingQueue.q ∨ p ∈ pW ∨ p ∈ pF) →
      p ∉ e.chargingQueue.q := by
    intro p hp hpC
    have h1 := midTick_count_le M p
    have h2 := List.count_pos_iff.mpr hpC
    rcases hp with hp | hp | hp | hp <;>
      (have h3 := List.count_pos_iff.mpr hp; omega)
  refine ⟨{ e1 with chargerAvailabilityTimes := sortDescending e1.chargerAvailabilityTimes },
    e.chargingQueue.q.filter (e1.leaves VTOLStatus.CHARGING true), ?_, ?_, R.VTOLs_eq⟩
  · simpa [SimulationEngine.getQueue] using hrun
  · refine midTick_availability ?_ _
    exact
      { fleet := by rw [R.VTOLs_eq]; exact M.fleet
        perm := by
          rw [R.VTOLs_eq]
          refine List.Perm.trans ?_ M.perm
          rw [List.perm_iff_count]
          intro a
          have h1 := count_filter_split e.chargingQueue.q (e1.leaves VTOLStatus.CHARGING true) a
          simp only [EngineView.queued, SimulationEngine.view, VTOLQueue.view, List.count_append,
            hq, hqF, hqW]
          omega
        valid := by
          intro p hp
          rw [R.heap_length]
          rw [R.VTOLs_eq] at hp
          exact M.valid p hp
        fits := hfits
        flying_state := by
          intro p hp
          rw [hqF, List.mem_append] at hp
          rcases hp with hp | hp | hp
          · rw [hother p (hnot p (by tauto))]
            exact M.flying_state p (Or.inl hp)
          · rw [hother p (hnot p (by tauto))]
            exact M.flying_state p (Or.inr hp)
          · obtain ⟨hpK, hleave⟩ := List.mem_filter.mp hp
            have hne : e1.stateOf p ≠ some VTOLStatus.CHARGING := by
              simpa [SimulationEngine.leaves] using hleave
            rcases hown p hpK with h | ⟨-, h⟩
            · exact absurd h hne
            · simpa [nextQueueType] using h
        charging_state := by
          intro p hp
          rw [hq] at hp
          have h := (List.mem_filter.mp hp).2
          simpa [SimulationEngine.leaves] using h
        waiting_state := by
          intro p hp
          rw [hqW] at hp
          rw [hother p (hnot p (by tauto))]
          exact M.waiting_state p hp
        flying_capacity := by rw [hqF]; exact M.flying_capacity
        waiting_capacity := by rw [hqW]; exact M.waiting_capacity
        charging_capacity := by
          have h1 := M.charging_capacity
          have h2 : (e.chargingQueue.q.filter
              (fun p => !e1.leaves VTOLStatus.CHARGING true p)).length ≤
              e.chargingQueue.q.length := List.length_filter_le _ _
          simp only [VTOLQueue.size, hcapC, hq] at h1 ⊢
          omega }

theorem phaseA_waiting (e : SimulationEngine) (pW pF : List VTOLPtr) (M : MidTick e pW pF) :
    ∃ e1 : SimulationEngine,
      e.updateVTOLs VTOLStatus.WAITING none = some (e1, none) ∧ MidTick e1 pW pF ∧
      e1.VTOLs = e.VTOLs := by
  obtain ⟨e1, R, hq, hrun, hfits, hother, hown⟩ :=
    phaseA_core VTOLStatus.WAITING e none
      (nodup_of_count_le _ (fun p => by
        have := midTick_count_le M p; simp only [SimulationEngine.getQueue]; omega))
      (fun p hp => M.valid p (midTick_mem_fleet M p (Or.inr (Or.inr (Or.inl hp)))))
      (Or.inl M.waiting_capacity) M.fits (fun p hp => M.waiting_state p (Or.inl hp))
  have hqF : e1.flyingQueue = e.flyingQueue := R.queue_other VTOLStatus.FLYING (by decide)
  have hqC : e1.chargingQueue = e.chargingQueue := R.queue_other VTOLStatus.CHARGING (by decide)
  have hcapW : e1.waitingQueue.capacity = e.waitingQueue.capacity := R.capacity_eq
  simp only [SimulationEngine.getQueue, Option.isSome_none, SimulationEngine.leaves,
    Bool.false_and, Bool.not_false, List.filter_true] at hq hother hown
  have hnot : ∀ p, (p ∈ e.flyingQueue.q ∨ p ∈ e.chargingQueue.q ∨ p ∈ pW ∨ p ∈ pF) →
      p ∉ e.waitingQueue.q := by
    intro p hp hpC
    have h1 := midTick_count_le M p
    have h2 := List.count_pos_iff.mpr hpC
    rcases hp with hp | hp | hp | hp <;>
      (have h3 := List.count_pos_iff.mpr hp; omega)
  refine ⟨e1, ?_, ?_, R.VTOLs_eq⟩
  · simpa [SimulationEngine.getQueue] using hrun
  · exact
      { fleet := by rw [R.VTOLs_eq]; exact M.fleet
        perm := by
          rw [R.VTOLs_eq]
          refine List.Perm.trans ?_ M.perm
          simp only [EngineView.queued, SimulationEngine.view, VTOLQueue.view, hq, hqF, hqC]
          exact List.Perm.refl _
        valid := by
          intro p hp
          rw [R.heap_length]
          rw [R.VTOLs_eq] at hp
          exact M.valid p hp
        fits := hfits
        flying_state := by
          intro p hp
          rw [hqF] at hp
          rw [hother p (hnot p (by tauto))]
          exact M.flying_state p hp
        charging_state := by
          intro p hp
          rw [hqC] at hp
          rw [hother p (hnot p (by tauto))]
          exact M.charging_state p hp
        waiting_state := by
          intro p hp
          rw [hq] at hp
          rcases hp with hp | hp
          · rcases hown p hp with h | ⟨h, -⟩
            · exact h
            · exact absurd rfl h
          · rw [hother p (hnot p (by tauto))]
            exact M.waiting_state p (Or.inr hp)
        flying_capacity := by rw [hqF]; exact M.flying_capacity
        waiting_capacity := by rw [hcapW]; exact M.waiting_capacity
        charging_capacity := by rw [hqC]; exact M.charging_capacity }

theorem setQueue_getQueue (e : SimulationEngine) (t : VTOLStatus) :
    e.setQueue t (e.getQueue t) = e := by
  cases t <;> rfl

theorem setQueue_setQueue (e : SimulationEngine) (t : VTOLStatus) (Q Q1 : VTOLQueue) :
    (e.setQueue t Q).setQueue t Q1 = e.setQueue t Q1 := by
  cases t <;> rfl

theorem pushChanged_unbounded (next : VTOLStatus) (changed : List VTOLPtr) :
    ∀ e : SimulationEngine, (e.getQueue next).capacity = UNLIMITED →
      e.pushChanged next changed =
        e.setQueue next { e.getQueue next with q := (e.getQueue next).q ++ changed } := by
  induction changed with
  | nil =>
    intro e _
    simp only [SimulationEngine.pushChanged, List.append_nil]
    exact (setQueue_getQueue e next).symm
  | cons p ps ih =>
    intro e hcap
    have hnf : (e.getQueue next).full = false := by simp [VTOLQueue.full, hcap]
    rw [SimulationEngine.pushChanged, push_of_not_full _ _ hnf, ih _ (by simpa using hcap)]
    simp [setQueue_setQueue]

theorem phaseB_flying (e : SimulationEngine) (cW pF : List VTOLPtr) (M : MidTick e cW pF) :
    ∃ e1 : SimulationEngine,
      e.moveVTOLs VTOLStatus.FLYING (some cW) = some e1 ∧ MidTick e1 [] pF ∧
      e1.VTOLs = e.VTOLs := by
  refine ⟨e.pushChanged VTOLStatus.WAITING cW,
    by simp [SimulationEngine.moveVTOLs, nextQueueType], ?_⟩
  rw [pushChanged_unbounded _ _ _ (by simpa [SimulationEngine.getQueue] using M.waiting_capacity)]
  refine ⟨?_, setQueue_VTOLs _ _ _⟩
  exact
    { fleet := M.fleet
      perm := by
        refine List.Perm.trans ?_ M.perm
        simp [EngineView.queued, SimulationEngine.view, VTOLQueue.view, SimulationEngine.setQueue,
          SimulationEngine.getQueue]
      valid := M.valid
      fits := M.fits
      flying_state := M.flying_state
      charging_state := M.charging_state
      waiting_state := by
        intro p hp
        refine M.waiting_state p ?_
        simpa [SimulationEngine.setQueue, SimulationEngine.getQueue] using hp
      flying_capacity := M.flying_capacity
      waiting_capacity := M.waiting_capacity
      charging_capacity := M.charging_capacity }

theorem phaseB_charging (e : SimulationEngine) (cF : List VTOLPtr) (M : MidTick e [] cF) :
    ∃ e1 : SimulationEngine,
      e.moveVTOLs VTOLStatus.CHARGING (some cF) = some e1 ∧ MidTick e1 [] [] ∧
      e1.VTOLs = e.VTOLs := by
  refine ⟨e.pushChanged VTOLStatus.FLYING cF,
    by simp [SimulationEngine.moveVTOLs, nextQueueType], ?_⟩
  rw [pushChanged_unbounded _ _ _ (by simpa [SimulationEngine.getQueue] using M.flying_capacity)]
  refine ⟨?_, setQueue_VTOLs _ _ _⟩
  exact
    { fleet := M.fleet
      perm := by
        refine List.Perm.trans ?_ M.perm
        rw [List.perm_iff_count]
        intro a
        simp only [EngineView.queued, SimulationEngine.view, VTOLQueue.view,
          SimulationEngine.setQueue, SimulationEngine.getQueue, List.count_append,
          List.count_nil]
        omega
      valid := M.valid
      fits := M.fits
      flying_state := by
        intro p hp
        refine M.flying_state p ?_
        simpa [SimulationEngine.setQueue, SimulationEngine.getQueue] using hp
      charging_state := M.charging_state
      waiting_state := M.waiting_state
      flying_capacity := M.flying_capacity
      waiting_capacity := M.waiting_capacity
      charging_capacity := M.charging_capacity }

theorem phaseC_partition (e : SimulationEngine) (M : MidTick e [] []) :
    ∃ e1 : SimulationEngine,
      e.moveVTOLs VTOLStatus.WAITING none = some e1 ∧ MidTick e1 [] [] ∧
      e1.VTOLs = e.VTOLs := by
  have hcnt := midTick_count_le M
  have hndW : e.waitingQueue.q.Nodup :=
    nodup_of_count_le _ (fun p => by have := hcnt p; omega)
  obtain ⟨e1, hrun, hw, hc, R⟩ := allocateLoop_spec 0 e.waitingQueue.q e rfl
    (fun p hp => M.valid p (midTick_mem_fleet M p (Or.inr (Or.inr (Or.inl hp))))) M.charging_capacity
  generalize hk : min (e.chargingQueue.capacity - e.chargingQueue.size).toNat
    e.waitingQueue.q.length = k at hw hc R
  have hndM : (e.waitingQueue.q.take k).Nodup := hndW.sublist (List.take_sublist _ _)
  have hmovedW : ∀ p, p ∈ e.waitingQueue.q.take k → p ∈ e.waitingQueue.q :=
    fun p hp => List.mem_of_mem_take hp
  have hnot : ∀ p, (p ∈ e.flyingQueue.q ∨ p ∈ e.chargingQueue.q) →
      p ∉ e.waitingQueue.q.take k := by
    intro p hp hpM
    have h1 := hcnt p
    have h2 := List.count_pos_iff.mpr (hmovedW p hpM)
    rcases hp with hp | hp <;>
      (have h3 := List.count_pos_iff.mpr hp; omega)
  have hstate : ∀ p, p ∉ e.waitingQueue.q.take k → e1.stateOf p = e.stateOf p := by
    intro p hp
    simp only [SimulationEngine.stateOf, R.heap_other p hp]
  refine ⟨{ e1 with chargerAvailabilityTimes := [] }, ?_, ?_, R.VTOLs_eq⟩
  · simp [SimulationEngine.moveVTOLs, VTOLQueue.size, hrun]
  · refine midTick_availability ?_ _
    exact
      { fleet := by rw [R.VTOLs_eq]; exact M.fleet
        perm := by
          rw [R.VTOLs_eq]
          refine List.Perm.trans ?_ M.perm
          rw [List.perm_iff_count]
          intro a
          have h1 : (e.waitingQueue.q.take k).count a + (e.waitingQueue.q.drop k).count a =
              e.waitingQueue.q.count a := by
            rw [← List.count_append, List.take_append_drop]
          simp only [EngineView.queued, SimulationEngine.view, VTOLQueue.view, List.count_append,
            hw, hc, R.flyingQueue_eq, List.count_nil]
          omega
        valid := by
          intro p hp
          rw [R.heap_length]
          rw [R.VTOLs_eq] at hp
          exact M.valid p hp
        fits := by
          intro i v hiv
          rw [R.hoursPerTick_eq]
          by_cases hi : i ∈ e.waitingQueue.q.take k
          · obtain ⟨v0, h0, h1⟩ := R.heap_moved hndM i hi
            rw [h1] at hiv
            cases hiv
            exact (moveToCharger_fits _ v0 _ (M.fits i v0 h0)).1
          · rw [R.heap_other i hi] at hiv
            exact M.fits i v hiv
        flying_state := by
          intro p hp
          simp only [R.flyingQueue_eq, List.not_mem_nil, or_false] at hp
          rw [hstate p (hnot p (Or.inl hp))]
          exact M.flying_state p (Or.inl hp)
        charging_state := by
          intro p hp
          rw [hc, List.mem_append] at hp
          rcases hp with hp | hp
          · rw [hstate p (hnot p (Or.inr hp))]
            exact M.charging_state p hp
          · obtain ⟨v0, h0, h1⟩ := R.heap_moved hndM p hp
            simp only [SimulationEngine.stateOf, h1, Option.map_some', Option.some.injEq]
            exact (moveToCharger_fits _ v0 _ (M.fits p v0 h0)).2
        waiting_state := by
          intro p hp
          simp only [hw, List.not_mem_nil, or_false] at hp
          have hdisj := List.disjoint_take_drop hndW (le_refl k)
          rw [hstate p (fun h => hdisj h hp)]
          exact M.waiting_state p (Or.inl (List.mem_of_mem_drop hp))
        flying_capacity := by rw [R.flyingQueue_eq]; exact M.flying_capacity
        waiting_capacity := by rw [R.waiting_capacity]; exact M.waiting_capacity
        charging_capacity := by
          have h1 := M.charging_capacity
          simp only [VTOLQueue.size] at hk
          simp only [VTOLQueue.size, hc, List.length_append, List.length_take,
            R.charging_capacity] at h1 ⊢
          omega }

theorem tick_partition (e : SimulationEngine) (M : MidTick e [] []) :
    ∃ e1 : SimulationEngine, e.tick = some e1 ∧ MidTick e1 [] [] ∧ e1.VTOLs = e.VTOLs := by
  obtain ⟨e1, cW, h1, M1, f1⟩ := phaseA_flying e [] [] M
  obtain ⟨e2, cF, h2, M2, f2⟩ := phaseA_charging e1 _ _ M1
  obtain ⟨e3, h3, M3, f3⟩ := phaseA_waiting e2 _ _ M2
  obtain ⟨e4, h4, M4, f4⟩ := phaseB_flying e3 _ _ (by simpa using M3)
  obtain ⟨e5, h5, M5, f5⟩ := phaseB_charging e4 _ (by simpa using M4)
  obtain ⟨e6, h6, M6, f6⟩ := phaseC_partition e5 M5
  refine ⟨e6, ?_, M6, ?_⟩
  · simp only [SimulationEngine.tick, h1, h2, h3, h4, h5, h6]
  · rw [f6, f5, f4, f3, f2, f1]

theorem runTicks_partition (n : Nat) :
    ∀ e : SimulationEngine, MidTick e [] [] →
      ∃ e1 : SimulationEngine, e.runTicks n = some e1 ∧ MidTick e1 [] [] ∧
        e1.VTOLs = e.VTOLs := by
  induction n with
  | zero =>
    intro e M
    exact ⟨e, rfl, M, rfl⟩
  | succ n ih =>
    intro e M
    obtain ⟨e1, h1, M1, f1⟩ := tick_partition e M
    obtain ⟨e2, h2, M2, f2⟩ := ih e1 M1
    refine ⟨e2, ?_, M2, f2.trans f1⟩
    simp only [SimulationEngine.runTicks, h1, h2]

theorem initial_partition (e : SimulationEngine) (makes : List VTOLMake)
    (hheap : e.heap = makes.map VTOL.new)
    (hfleet : e.VTOLs = List.range makes.length)
    (hflying : e.flyingQueue.q = e.VTOLs)
    (hwaiting : e.waitingQueue.q = []) (hcharging : e.chargingQueue.q = [])
    (hunbounded : e.flyingQueue.capacity = UNLIMITED ∧ e.waitingQueue.capacity = UNLIMITED)
    (hchargers : 0 ≤ e.chargingQueue.capacity)
    (hcharge : ∀ make ∈ makes, e.hoursPerTick < (VTOL.new make).chargeTime - TOLERANCE)
    (hdrain : ∀ make ∈ makes, e.hoursPerTick < (VTOL.new make).drainTime) :
    MidTick e [] [] := by
  have hget : ∀ (i : Nat) (v : VTOL), e.heap[i]? = some v →
      ∃ make ∈ makes, v = VTOL.new make := by
    intro i v hiv
    have hv : v ∈ e.heap := List.getElem?_mem hiv
    rw [hheap, List.mem_map] at hv
    obtain ⟨make, hm, rfl⟩ := hv
    exact ⟨make, hm, rfl⟩
  have hlen : e.heap.length = makes.length := by rw [hheap, List.length_map]
  exact
    { fleet := by rw [hfleet]; exact List.nodup_range _
      perm := by
        simp [EngineView.queued, SimulationEngine.view, VTOLQueue.view, hflying, hwaiting,
          hcharging]
      valid := by
        intro p hp
        rw [hfleet, List.mem_range] at hp
        rw [hlen]
        exact hp
      fits := by
        intro i v hiv
        obtain ⟨make, hm, rfl⟩ := hget i v hiv
        exact new_fits make _ (hcharge make hm) (hdrain make hm)
      flying_state := by
        intro p hp
        simp only [List.not_mem_nil, or_false, hflying, hfleet, List.mem_range] at hp
        have hp1 : p < e.heap.length := by rw [hlen]; exact hp
        obtain ⟨make, -, hv⟩ := hget p _ (List.getElem?_eq_getElem hp1)
        simp only [SimulationEngine.stateOf, List.getElem?_eq_getElem hp1, Option.map_some', hv]
        cases make <;> rfl
      charging_state := by simp [hcharging]
      waiting_state := by simp [hwaiting]
      flying_capacity := hunbounded.1
      waiting_capacity := hunbounded.2
      charging_capacity := by simpa [VTOLQueue.size, hcharging] using hchargers }

/-! ## Lemmas on the queue operations of a tick -/

theorem updateLoopLog_fst (queueType : VTOLStatus) (n : Nat) :
    ∀ (e : SimulationEngine) (changed : Option (List VTOLPtr)),
      (SimulationEngine.updateLoopLog queueType n e changed).map Prod.fst =
        SimulationEngine.updateLoop queueType n e changed := by
  induction n with
  | zero =>
    intro e changed
    rfl
  | succ n ih =>
    intro e changed
    rw [SimulationEngine.updateLoopLog, SimulationEngine.updateLoop]
    cases hp : (e.getQueue queueType).pop with
    | none => rfl
    | some r =>
      obtain ⟨p, Q⟩ := r
      simp only
      cases hv : (e.setQueue queueType Q.getFaultRoll.2).heap[p]? with
      | none => rfl
      | some v =>
        simp only
        cases changed with
        | none =>
          simp only [Option.map_map]
          exact ih _ _
        | some c =>
          simp only
          split_ifs
          · simp only [Option.map_map]
            exact ih _ _
          · simp only [Option.map_map]
            exact ih _ _
          · simp only [Option.map_map]
            exact ih _ _

theorem updateLoopLog_step (queueType : VTOLStatus) (n : Nat) (e : SimulationEngine)
    (changed : Option (List VTOLPtr)) (p : VTOLPtr) (Q : VTOLQueue) (v : VTOL)
    (hpop : (e.getQueue queueType).pop = some (p, Q)) (hv : e.heap[p]? = some v) :
    SimulationEngine.updateLoopLog queueType (n + 1) e changed =
      if changed.isSome = true ∧
          queueType ≠ (v.updateVTOL e.hoursPerTick Q.getFaultRoll.1).1.state then
        (SimulationEngine.updateLoopLog queueType n
          (e.movedOut queueType Q.getFaultRoll.2 p
            (v.updateVTOL e.hoursPerTick Q.getFaultRoll.1))
          (changed.map (fun c => c ++ [p]))).map
          (fun s => (s.1, QueueEvent.pop queueType (e.getQueue queueType).size :: s.2))
      else
        (SimulationEngine.updateLoopLog queueType n
          (e.pushedBack queueType Q.getFaultRoll.2 p
            (v.updateVTOL e.hoursPerTick Q.getFaultRoll.1))
          changed).map
          (fun s => (s.1, QueueEvent.pop queueType (e.getQueue queueType).size ::
            QueueEvent.push queueType (Q.getFaultRoll.2.push p).2 :: s.2)) := by
  rw [SimulationEngine.updateLoopLog]
  simp only [hpop, setQueue_heap, hv, setQueue_hoursPerTick, VTOL.getStatus]
  cases changed with
  | none =>
    simp only [Option.isSome_none, Bool.false_eq_true, false_and, if_false]
    cases queueType <;> rfl
  | some c =>
    simp only [Option.isSome_some, true_and, Option.map_some']
    split_ifs with h1 h2
    · cases queueType <;> simp_all [SimulationEngine.setQueue, SimulationEngine.movedOut]
    · cases queueType <;> simp_all [SimulationEngine.setQueue, SimulationEngine.movedOut]
    · cases queueType <;> rfl

theorem holds_mono (Q Q1 : VTOLQueue) (n m : Nat) (h : Q.holds n) (hc : Q1.capacity = Q.capacity)
    (hm : m ≤ n) : Q1.holds m := by
  rcases h with h | h
  · exact Or.inl (hc.trans h)
  · refine Or.inr ?_
    rw [hc]
    omega

theorem updateLoopLog_ok (queueType : VTOLStatus) (ps : List VTOLPtr) :
    ∀ (e : SimulationEngine) (changed : Option (List VTOLPtr)) (kept : List VTOLPtr)
      (r : SimulationEngine × Option (List VTOLPtr)) (log : List QueueEvent),
      (e.getQueue queueType).q = ps ++ kept →
      (e.getQueue queueType).holds (ps ++ kept).length →
      SimulationEngine.updateLoopLog queueType ps.length e changed = some (r, log) →
      ∀ ev ∈ log, ev.ok = true := by
  induction ps with
  | nil =>
    intro e changed kept r log _ _ hrun
    simp only [List.length_nil, SimulationEngine.updateLoopLog, Option.some.injEq,
      Prod.mk.injEq] at hrun
    rw [← hrun.2]
    simp
  | cons p ps ih =>
    intro e changed kept r log hq hcap hrun
    have hpop : (e.getQueue queueType).pop =
        some (p, { e.getQueue queueType with q := ps ++ kept }) := by
      simp [VTOLQueue.pop, hq]
    obtain ⟨hrq, hrc, hrt⟩ := getFaultRoll_snd { e.getQueue queueType with q := ps ++ kept }
    simp only at hrq hrc hrt
    have hsize : 0 < (e.getQueue queueType).size := by simp [VTOLQueue.size, hq]
    cases hv : e.heap[p]? with
    | none =>
      rw [List.length_cons, SimulationEngine.updateLoopLog] at hrun
      simp [hpop, hv] at hrun
    | some v =>
      rw [List.length_cons, updateLoopLog_step queueType ps.length e changed p _ v hpop hv]
        at hrun
      split_ifs at hrun with hleave
      · obtain ⟨s, hs, hsr⟩ := Option.map_eq_some'.mp hrun
        simp only [Prod.mk.injEq] at hsr
        have hrec := ih _ _ kept s.1 s.2
          (by rw [movedOut_getQueue_same]; exact hrq)
          (by
            rw [movedOut_getQueue_same]
            exact holds_mono _ _ _ _ hcap hrc (by simp))
          hs
        intro ev hev
        rw [← hsr.2, List.mem_cons] at hev
        rcases hev with rfl | hev
        · simpa [QueueEvent.ok] using hsize
        · exact hrec ev hev
      · obtain ⟨s, hs, hsr⟩ := Option.map_eq_some'.mp hrun
        simp only [Prod.mk.injEq] at hsr
        have hnf : ({ e.getQueue queueType with q := ps ++ kept } :
            VTOLQueue).getFaultRoll.2.full = false :=
          not_full_of_holds _ (p :: ps ++ kept).length
            (holds_mono _ _ _ _ hcap hrc (le_refl _)) (by rw [hrq]; simp)
        have hrec := ih _ _ (kept ++ [p]) s.1 s.2
          (by
            rw [pushedBack_getQueue_same, push_of_not_full _ _ hnf]
            simp [hrq])
          (by
            rw [pushedBack_getQueue_same]
            refine holds_mono _ _ _ _ hcap ?_ ?_
            · rw [push_capacity, hrc]
            · simp
              omega)
          hs
        intro ev hev
        rw [← hsr.2, List.mem_cons, List.mem_cons] at hev
        rcases hev with rfl | rfl | hev
        · simpa [QueueEvent.ok] using hsize
        · simp [QueueEvent.ok, push_of_not_full _ _ hnf]
        · exact hrec ev hev

theorem updateVTOLsLog_fst (e : SimulationEngine) (queueType : VTOLStatus)
    (changed : Option (List VTOLPtr)) :
    (e.updateVTOLsLog queueType changed).map Prod.fst = e.updateVTOLs queueType changed := by
  unfold SimulationEngine.updateVTOLsLog SimulationEngine.updateVTOLs
  simp only
  rw [← updateLoopLog_fst]
  cases SimulationEngine.updateLoopLog queueType (e.getQueue queueType).size e changed with
  | none => rfl
  | some s =>
    obtain ⟨⟨e1, ch⟩, log⟩ := s
    simp only [Option.map_some']
    split_ifs
    · rfl
    · cases ch <;> rfl
    · cases ch <;> rfl

theorem updateVTOLsLog_ok (e : SimulationEngine) (queueType : VTOLStatus)
    (changed : Option (List VTOLPtr)) (r : SimulationEngine × Option (List VTOLPtr))
    (log : List QueueEvent)
    (hcap : (e.getQueue queueType).holds (e.getQueue queueType).size)
    (hrun : e.updateVTOLsLog queueType changed = some (r, log)) :
    ∀ ev ∈ log, ev.ok = true := by
  unfold SimulationEngine.updateVTOLsLog at hrun
  simp only at hrun
  cases hloop : SimulationEngine.updateLoopLog queueType (e.getQueue queueType).size e
      changed with
  | none =>
    rw [hloop] at hrun
    simp at hrun
  | some s =>
    obtain ⟨⟨e1, ch⟩, log1⟩ := s
    have hok := updateLoopLog_ok queueType (e.getQueue queueType).q e changed [] (e1, ch) log1
      (by simp) (by simpa [VTOLQueue.size] using hcap) hloop
    rw [hloop] at hrun
    have hlog : log = log1 := by
      simp only at hrun
      split_ifs at hrun
      · simp only [Option.some.injEq, Prod.mk.injEq] at hrun
        exact hrun.2.symm
      · cases ch <;> simp_all
      · cases ch <;> simp_all
    rw [hlog]
    exact hok

theorem pushChangedLog_fst (next : VTOLStatus) (changed : List VTOLPtr) :
    ∀ e : SimulationEngine, (e.pushChangedLog next changed).1 = e.pushChanged next changed := by
  induction changed with
  | nil =>
    intro e
    rfl
  | cons p ps ih =>
    intro e
    simp only [SimulationEngine.pushChangedLog, SimulationEngine.pushChanged]
    exact ih _

theorem pushChangedLog_ok (next : VTOLStatus) (changed : List VTOLPtr) :
    ∀ e : SimulationEngine, (e.getQueue next).capacity = UNLIMITED →
      ∀ ev ∈ (e.pushChangedLog next changed).2, ev.ok = true := by
  induction changed with
  | nil =>
    intro e _ ev hev
    simp [SimulationEngine.pushChangedLog] at hev
  | cons p ps ih =>
    intro e hcap ev hev
    have hnf : (e.getQueue next).full = false := by simp [VTOLQueue.full, hcap]
    simp only [SimulationEngine.pushChangedLog, List.mem_cons] at hev
    rcases hev with rfl | hev
    · simp [QueueEvent.ok, push_of_not_full _ _ hnf]
    · refine ih _ ?_ ev hev
      rw [getQueue_setQueue_same, push_capacity]
      exact hcap

theorem allocateLoopLog_fst (idx fuel : Nat) :
    ∀ e : SimulationEngine,
      (SimulationEngine.allocateLoopLog idx fuel e).map Prod.fst =
        SimulationEngine.allocateLoop idx fuel e := by
  induction fuel with
  | zero =>
    intro e
    rfl
  | succ fuel ih =>
    intro e
    rw [SimulationEngine.allocateLoopLog, SimulationEngine.allocateLoop]
    split_ifs with hcond
    · cases hp : e.waitingQueue.pop with
      | none => rfl
      | some r =>
        obtain ⟨p, wq⟩ := r
        simp only
        split
        · simp only [Option.map_map]
          exact ih _
        · rfl
    · rfl

theorem allocateLoopLog_total (idx fuel : Nat) :
    ∀ e : SimulationEngine, (∀ p ∈ e.waitingQueue.q, p < e.heap.length) →
      ∃ (e1 : SimulationEngine) (log : List QueueEvent),
        SimulationEngine.allocateLoopLog idx fuel e = some (e1, log) ∧
        ∀ ev ∈ log, ev.ok = true := by
  induction fuel with
  | zero =>
    intro e _
    exact ⟨e, [], rfl, by simp⟩
  | succ fuel ih =>
    intro e hvalid
    rw [SimulationEngine.allocateLoopLog]
    split_ifs with hcond
    · simp only [Bool.and_eq_true, Bool.not_eq_true'] at hcond
      obtain ⟨hnf, hne⟩ := hcond
      cases hq : e.waitingQueue.q with
      | nil => simp [VTOLQueue.empty, hq] at hne
      | cons p ws =>
        have hpop : e.waitingQueue.pop = some (p, { e.waitingQueue with q := ws }) := by
          simp [VTOLQueue.pop, hq]
        have hplt : p < e.heap.length := hvalid p (by simp [hq])
        have hv : e.heap[p]? = some e.heap[p] := List.getElem?_eq_getElem hplt
        simp only [hpop, hv]
        by_cases hidx : idx ≥ e.chargerAvailabilityTimes.length
        · simp only [hidx, if_true]
          obtain ⟨e1, log, hrun, hok⟩ := ih
            ({ e with waitingQueue := { e.waitingQueue with q := ws }
                      heap := e.heap.set p ((e.heap[p]).moveToCharger e.hoursPerTick)
                      chargingQueue := (e.chargingQueue.push p).1 })
            (by
              intro q hq1
              simp only [List.length_set]
              exact hvalid q (by simp [hq, hq1]))
          refine ⟨e1, _, by rw [hrun]; rfl, ?_⟩
          intro ev hev
          simp only [List.nil_append, List.mem_cons] at hev
          rcases hev with rfl | rfl | hev
          · simp [QueueEvent.ok, VTOLQueue.size, hq]
          · simp [QueueEvent.ok, push_of_not_full _ _ hnf]
          · exact hok ev hev
        · have hlt : idx < e.chargerAvailabilityTimes.length := by omega
          simp only [hidx, if_false, List.getElem?_eq_getElem hlt]
          obtain ⟨e1, log, hrun, hok⟩ := ih
            ({ e with waitingQueue := { e.waitingQueue with q := ws }
                      heap := e.heap.set p
                        ((e.heap[p]).moveToCharger e.chargerAvailabilityTimes[idx])
                      chargingQueue := (e.chargingQueue.push p).1 })
            (by
              intro q hq1
              simp only [List.length_set]
              exact hvalid q (by simp [hq, hq1]))
          refine ⟨e1, _, by rw [hrun]; rfl, ?_⟩
          intro ev hev
          simp only [List.singleton_append, List.mem_cons] at hev
          rcases hev with rfl | rfl | rfl | hev
          · simp [QueueEvent.ok, VTOLQueue.size, hq]
          · simpa [QueueEvent.ok] using hlt
          · simp [QueueEvent.ok, push_of_not_full _ _ hnf]
          · exact hok ev hev
    · exact ⟨e, [], rfl, by simp⟩

theorem moveVTOLsLog_fst (e : SimulationEngine) (queueType : VTOLStatus)
    (changed : Option (List VTOLPtr)) :
    (e.moveVTOLsLog queueType changed).map Prod.fst = e.moveVTOLs queueType changed := by
  unfold SimulationEngine.moveVTOLsLog SimulationEngine.moveVTOLs
  simp only
  split_ifs
  · cases changed with
    | none => rfl
    | some c => simp [pushChangedLog_fst]
  · rw [← allocateLoopLog_fst]
    cases SimulationEngine.allocateLoopLog 0 e.waitingQueue.size e with
    | none => rfl
    | some s => rfl

theorem tickLog_fst (e : SimulationEngine) : e.tickLog.map Prod.fst = e.tick := by
  unfold SimulationEngine.tickLog SimulationEngine.tick
  rw [← updateVTOLsLog_fst]
  cases e.updateVTOLsLog VTOLStatus.FLYING (some []) with
  | none => rfl
  | some s1 =>
    obtain ⟨⟨e1, c1⟩, l1⟩ := s1
    simp only [Option.map_some']
    rw [← updateVTOLsLog_fst]
    cases e1.updateVTOLsLog VTOLStatus.CHARGING (some []) with
    | none => rfl
    | some s2 =>
      obtain ⟨⟨e2, c2⟩, l2⟩ := s2
      simp only [Option.map_some']
      rw [← updateVTOLsLog_fst]
      cases e2.updateVTOLsLog VTOLStatus.WAITING none with
      | none => rfl
      | some s3 =>
        obtain ⟨⟨e3, c3⟩, l3⟩ := s3
        simp only [Option.map_some']
        rw [← moveVTOLsLog_fst]
        cases e3.moveVTOLsLog VTOLStatus.FLYING c1 with
        | none => rfl
        | some s4 =>
          obtain ⟨e4, l4⟩ := s4
          simp only [Option.map_some']
          rw [← moveVTOLsLog_fst]
          cases e4.moveVTOLsLog VTOLStatus.CHARGING c2 with
          | none => rfl
          | some s5 =>
            obtain ⟨e5, l5⟩ := s5
            simp only [Option.map_some']
            rw [← moveVTOLsLog_fst]
            cases e5.moveVTOLsLog VTOLStatus.WAITING none with
            | none => rfl
            | some s6 => rfl

theorem phaseA_log (t : VTOLStatus) (e : SimulationEngine) (changed : Option (List VTOLPtr))
    (V : QueuesValid e) (hnd : (e.getQueue t).q.Nodup)
    (hch : ∀ p ∈ changed.getD [], p < e.heap.length) :
    ∃ (e1 : SimulationEngine) (ch : Option (List VTOLPtr)) (log : List QueueEvent),
      e.updateVTOLsLog t changed = some ((e1, ch), log) ∧
      (∀ ev ∈ log, ev.ok = true) ∧ QueuesValid e1 ∧ e1.heap.length = e.heap.length ∧
      (∀ u, u ≠ t → e1.getQueue u = e.getQueue u) ∧ ch.isSome = changed.isSome ∧
      (∀ p ∈ ch.getD [], p < e.heap.length) := by
  obtain ⟨e1, R, hq, hrun⟩ := updateVTOLs_spec t e changed hnd (V.valid t) (V.holds t)
  have hagree := updateVTOLsLog_fst e t changed
  rw [hrun] at hagree
  obtain ⟨s, hs, hs1⟩ := Option.map_eq_some'.mp hagree
  obtain ⟨r, log⟩ := s
  simp only at hs1
  subst hs1
  have hG : ∀ u, (if t = VTOLStatus.CHARGING then
      ({ e1 with chargerAvailabilityTimes := sortDescending e1.chargerAvailabilityTimes } :
        SimulationEngine) else e1).getQueue u = e1.getQueue u := by
    intro u
    split_ifs
    · exact getQueue_availability_update _ _ _
    · rfl
  have hH : (if t = VTOLStatus.CHARGING then
      ({ e1 with chargerAvailabilityTimes := sortDescending e1.chargerAvailabilityTimes } :
        SimulationEngine) else e1).heap = e1.heap := by
    split_ifs <;> rfl
  refine ⟨_, _, log, hs, updateVTOLsLog_ok e t changed _ log (V.holds t) hs, ?_, ?_, ?_, ?_, ?_⟩
  · exact
      { valid := by
          intro u p hp
          rw [hG] at hp
          rw [hH, R.heap_length]
          by_cases hu : u = t
          · subst hu
            rw [hq] at hp
            exact V.valid u p (List.mem_of_mem_filter hp)
          · rw [R.queue_other u hu] at hp
            exact V.valid u p hp
        holds := by
          intro u
          rw [hG]
          by_cases hu : u = t
          · subst hu
            refine holds_mono _ _ _ _ (V.holds u) R.capacity_eq ?_
            simp only [VTOLQueue.size, hq]
            exact List.length_filter_le _ _
          · rw [R.queue_other u hu]
            exact V.holds u
        unbounded := by
          intro u huc
          rw [hG]
          by_cases hu : u = t
          · subst hu
            rw [R.capacity_eq]
            exact V.unbounded u huc
          · rw [R.queue_other u hu]
            exact V.unbounded u huc }
  · rw [hH, R.heap_length]
  · intro u hu
    rw [hG, R.queue_other u hu]
  · split_ifs <;> simp
  · intro p hp
    cases changed with
    | none =>
      exfalso
      revert hp
      split_ifs <;> simp
    | some c =>
      have hmem : p ∈ c ∨ p ∈ (e.getQueue t).q := by
        revert hp
        split_ifs
        · simp only [Option.map_some', Option.getD_some, sortPointers]
          intro hp
          have hp1 := (List.perm_insertionSort _ _).mem_iff.mp hp
          rcases List.mem_append.mp hp1 with h | h
          · exact Or.inl h
          · exact Or.inr (List.mem_of_mem_filter h)
        · simp only [Option.map_some', Option.getD_some]
          intro hp
          rcases List.mem_append.mp hp with h | h
          · exact Or.inl h
          · exact Or.inr (List.mem_of_mem_filter h)
      rcases hmem with h | h
      · exact hch p (by simpa using h)
      · exact V.valid t p h

theorem phaseB_log (e : SimulationEngine) (next : VTOLStatus) (changed : List VTOLPtr)
    (V : QueuesValid e) (hnext : next ≠ VTOLStatus.CHARGING)
    (hch : ∀ p ∈ changed, p < e.heap.length) :
    (∀ ev ∈ (e.pushChangedLog next changed).2, ev.ok = true) ∧
    QueuesValid (e.pushChangedLog next changed).1 ∧
    (e.pushChangedLog next changed).1.heap.length = e.heap.length := by
  have hcap := V.unbounded next hnext
  refine ⟨pushChangedLog_ok next changed e hcap, ?_, ?_⟩
  · rw [pushChangedLog_fst, pushChanged_unbounded next changed e hcap]
    exact
      { valid := by
          intro u p hp
          rw [setQueue_heap]
          by_cases hu : u = next
          · subst hu
            rw [getQueue_setQueue_same] at hp
            rcases List.mem_append.mp hp with h | h
            · exact V.valid u p h
            · exact hch p h
          · rw [getQueue_setQueue_ne _ _ _ _ hu] at hp
            exact V.valid u p hp
        holds := by
          intro u
          by_cases hu : u = next
          · subst hu
            rw [getQueue_setQueue_same]
            exact Or.inl hcap
          · rw [getQueue_setQueue_ne _ _ _ _ hu]
            exact V.holds u
        unbounded := by
          intro u huc
          by_cases hu : u = next
          · subst hu
            rw [getQueue_setQueue_same]
            exact hcap
          · rw [getQueue_setQueue_ne _ _ _ _ hu]
            exact V.unbounded u huc }
  · rw [pushChangedLog_fst, pushChanged_unbounded next changed e hcap, setQueue_heap]

/-! ## The aircraft state machine: accounting -/

/-- C1 (conservation): for a unit freshly constructed with any make and any sequence of calls in
which every `updateVTOL` has `dTime > 0` and every `moveToCharger` has a non-negative argument
and is made on a Waiting unit, the sum of the three accumulators after the sequence is the sum of
the `dTime` of the `updateVTOL` calls; a further `updateVTOL` adds exactly its `dTime` to the sum
and a further `moveToCharger` adds zero. -/
theorem conservation (make : VTOLMake) (ops : List VTOLOp)
    (h : admissibleOps (VTOL.new make) ops = true) :
    (runOps (VTOL.new make) ops).totalHours = elapsedHours ops ∧
    (∀ dTime faultRoll : ℚ, 0 < dTime →
      ((runOps (VTOL.new make) ops).updateVTOL dTime faultRoll).1.totalHours =
        (runOps (VTOL.new make) ops).totalHours + dTime) ∧
    (∀ a : ℚ, 0 ≤ a → (runOps (VTOL.new make) ops).state = VTOLStatus.WAITING →
      ((runOps (VTOL.new make) ops).moveToCharger a).totalHours =
        (runOps (VTOL.new make) ops).totalHours) := by
  obtain ⟨hinv, htot⟩ := runOps_invariant ops (VTOL.new make) (new_waitingSentinel make) h
  refine ⟨?_, ?_, ?_⟩
  · rw [htot]
    cases make <;> simp [VTOL.new, VTOL.Init, VTOL.totalHours, VTOL.getTimeInFlight,
      VTOL.getTimeWaiting, VTOL.getTimeCharging]
  · intro dTime faultRoll hd
    exact apply_totalHours _ (VTOLOp.update dTime faultRoll) hinv
      (by simpa [VTOLOp.admissible] using hd) |>.trans (by simp [elapsedHours])
  · intro a _ _
    exact moveToCharger_totalHours _ a

/-- Witness of C1: the scenario of `tests.cpp` on an ALPHA unit is admissible and its 2.65
elapsed hours are accounted for. -/
theorem conservation_witness :
    admissibleOps (VTOL.new VTOLMake.ALPHA) testScenario = true ∧
    (runOps (VTOL.new VTOLMake.ALPHA) testScenario).totalHours = 265 / 100 := by
  have h : admissibleOps (VTOL.new VTOLMake.ALPHA) testScenario = true := by decide!
  refine ⟨h, ?_⟩
  rw [(conservation VTOLMake.ALPHA testScenario h).1]
  decide!

/-- C2, as stated, fails: the BETA unit of `tests.cpp` is Waiting with 0.5 h spent waiting in the
tick, and `moveToCharger( 1.0 )` takes 0.5 h off its wait hours but adds only its charge time of
0.2 h to its charge hours (the other 0.3 h are flown). -/
theorem moveToCharger_overshoot_counterexample :
    (runOps (VTOL.new VTOLMake.BETA) testAdvances).state = VTOLStatus.WAITING ∧
    (runOps (VTOL.new VTOLMake.BETA) testAdvances).timeInStateThisTick = 1 / 2 ∧
    ((runOps (VTOL.new VTOLMake.BETA) testAdvances).moveToCharger 1).timeWaiting =
      (runOps (VTOL.new VTOLMake.BETA) testAdvances).timeWaiting - 1 / 2 ∧
    ((runOps (VTOL.new VTOLMake.BETA) testAdvances).moveToCharger 1).timeCharging =
      (runOps (VTOL.new VTOLMake.BETA) testAdvances).timeCharging + 1 / 5 ∧
    ¬ (((runOps (VTOL.new VTOLMake.BETA) testAdvances).moveToCharger 1).timeCharging =
      (runOps (VTOL.new VTOLMake.BETA) testAdvances).timeCharging +
        min 1 (runOps (VTOL.new VTOLMake.BETA) testAdvances).timeInStateThisTick) := by
  decide!

/-- C2, amended (charger correction): for a Waiting unit with `timeInStateThisTick = w ≥ 0` and
an availability `a ≥ 0` such that `min a w` does not exceed the unit's `chargeTime`,
`moveToCharger( a )` takes exactly `min a w` off the wait hours and adds exactly `min a w` to the
charge hours. -/
theorem moveToCharger_correction (v : VTOL) (a : ℚ)
    (hs : v.state = VTOLStatus.WAITING) (hw : 0 ≤ v.timeInStateThisTick) (ha : 0 ≤ a)
    (hc : min a v.timeInStateThisTick ≤ v.chargeTime) :
    (v.moveToCharger a).timeWaiting = v.timeWaiting - min a v.timeInStateThisTick ∧
    (v.moveToCharger a).timeCharging = v.timeCharging + min a v.timeInStateThisTick := by
  obtain ⟨state, make, speed, chargeTime, drainTime, pc, fp, ttsc, tf, tw, tc, nf, tist⟩ := v
  simp only at hs hw hc
  subst hs
  have _ := ha
  simp only [VTOL.moveToCharger, VTOL.updateVTOL, VTOL.setState, VTOL.hadFault]
  split_ifs <;> simp_all

/-- Witness of C2 amended: the ALPHA unit of `tests.cpp` (0.5 h waited in the tick, charge time
0.6 h) offered a charger available for 1.0 h moves 0.5 h from wait hours to charge hours. -/
theorem moveToCharger_correction_witness :
    (runOps (VTOL.new VTOLMake.ALPHA) testAdvances).timeInStateThisTick = 1 / 2 ∧
    ((runOps (VTOL.new VTOLMake.ALPHA) testAdvances).moveToCharger 1).timeWaiting =
      (runOps (VTOL.new VTOLMake.ALPHA) testAdvances).timeWaiting -
        min 1 (runOps (VTOL.new VTOLMake.ALPHA) testAdvances).timeInStateThisTick ∧
    ((runOps (VTOL.new VTOLMake.ALPHA) testAdvances).moveToCharger 1).timeCharging =
      (runOps (VTOL.new VTOLMake.ALPHA) testAdvances).timeCharging +
        min 1 (runOps (VTOL.new VTOLMake.ALPHA) testAdvances).timeInStateThisTick :=
  ⟨by decide!,
    moveToCharger_correction (runOps (VTOL.new VTOLMake.ALPHA) testAdvances) 1
      (by decide!) (by decide!) (by decide!) (by decide!)⟩

/-- C3 (Flying-to-Waiting split): for a Flying unit with countdown `c > 0` and a tick
`dTime > c`, whatever the roll, `updateVTOL` credits exactly `c` to the flight hours and
`dTime - c` to the wait hours, leaves the charge hours unchanged, leaves the unit Waiting with
the countdown at the `UNLIMITED` sentinel, and returns `dTime - c`. -/
theorem flying_to_waiting_split (v : VTOL) (dTime faultRoll : ℚ)
    (hs : v.state = VTOLStatus.FLYING) (hc : 0 < v.timeToStateChange)
    (hd : v.timeToStateChange < dTime) :
    (v.updateVTOL dTime faultRoll).1.timeFlying = v.timeFlying + v.timeToStateChange ∧
    (v.updateVTOL dTime faultRoll).1.timeWaiting =
      v.timeWaiting + (dTime - v.timeToStateChange) ∧
    (v.updateVTOL dTime faultRoll).1.timeCharging = v.timeCharging ∧
    (v.updateVTOL dTime faultRoll).1.state = VTOLStatus.WAITING ∧
    (v.updateVTOL dTime faultRoll).1.timeToStateChange = (UNLIMITED : ℚ) ∧
    (v.updateVTOL dTime faultRoll).2 = dTime - v.timeToStateChange := by
  obtain ⟨state, make, speed, chargeTime, drainTime, pc, fp, ttsc, tf, tw, tc, nf, tist⟩ := v
  simp only at hs hc hd
  subst hs
  have hmin : min dTime ttsc = ttsc := min_eq_right hd.le
  simp only [VTOL.updateVTOL, VTOL.setState, VTOL.hadFault, hc, hmin, if_true]
  split_ifs <;> simp_all

/-- Witness of C3: an ALPHA unit advanced 1.0 h is Flying with 2/3 h left; the second advance
of 1.0 h leaves 5/3 flight hours and 1/3 wait hours. -/
theorem flying_to_waiting_split_witness :
    ((VTOL.new VTOLMake.ALPHA).updateVTOL 1 0).1.timeToStateChange = 2 / 3 ∧
    ((((VTOL.new VTOLMake.ALPHA).updateVTOL 1 0).1).updateVTOL 1 10000).1.timeFlying = 5 / 3 ∧
    ((((VTOL.new VTOLMake.ALPHA).updateVTOL 1 0).1).updateVTOL 1 10000).1.timeWaiting = 1 / 3 ∧
    ((((VTOL.new VTOLMake.ALPHA).updateVTOL 1 0).1).updateVTOL 1 10000).1.state =
      VTOLStatus.WAITING := by
  have h := flying_to_waiting_split ((VTOL.new VTOLMake.ALPHA).updateVTOL 1 0).1 1 10000
    (by decide!) (by decide!) (by decide!)
  have h0 : ((VTOL.new VTOLMake.ALPHA).updateVTOL 1 0).1.timeToStateChange = 2 / 3 := by decide!
  have h1 : ((VTOL.new VTOLMake.ALPHA).updateVTOL 1 0).1.timeFlying = 1 := by decide!
  have h2 : ((VTOL.new VTOLMake.ALPHA).updateVTOL 1 0).1.timeWaiting = 0 := by decide!
  refine ⟨h0, ?_, ?_, h.2.2.2.1⟩
  · rw [h.1, h0, h1]; norm_num
  · rw [h.2.1, h0, h2]; norm_num

/-- C4 (Charging-to-Flying split): for a Charging unit with countdown `c > 0` and a tick
`dTime > c`, `updateVTOL` credits exactly `c` to the charge hours and `dTime - c` to the flight
hours, leaves the wait hours unchanged, leaves the unit Flying with countdown
`drainTime - (dTime - c)`, returns `dTime - c`, and adds one fault exactly when
`faultRoll < (dTime - c) * faultProbability`. -/
theorem charging_to_flying_split (v : VTOL) (dTime faultRoll : ℚ)
    (hs : v.state = VTOLStatus.CHARGING) (hc : 0 < v.timeToStateChange)
    (hd : v.timeToStateChange < dTime) :
    (v.updateVTOL dTime faultRoll).1.timeCharging = v.timeCharging + v.timeToStateChange ∧
    (v.updateVTOL dTime faultRoll).1.timeFlying =
      v.timeFlying + (dTime - v.timeToStateChange) ∧
    (v.updateVTOL dTime faultRoll).1.timeWaiting = v.timeWaiting ∧
    (v.updateVTOL dTime faultRoll).1.state = VTOLStatus.FLYING ∧
    (v.updateVTOL dTime faultRoll).1.timeToStateChange =
      v.drainTime - (dTime - v.timeToStateChange) ∧
    (v.updateVTOL dTime faultRoll).2 = dTime - v.timeToStateChange ∧
    (v.updateVTOL dTime faultRoll).1.numFaults =
      (if faultRoll < (dTime - v.timeToStateChange) * v.faultProbability then v.numFaults + 1
       else v.numFaults) := by
  obtain ⟨state, make, speed, chargeTime, drainTime, pc, fp, ttsc, tf, tw, tc, nf, tist⟩ := v
  simp only at hs hc hd
  subst hs
  have hmin : min dTime ttsc = ttsc := min_eq_right hd.le
  simp only [VTOL.updateVTOL, VTOL.setState, VTOL.hadFault, hc, hmin, if_true]
  split_ifs <;> simp_all

/-- Witness of C4: the ALPHA unit of `tests.cpp`, Charging with 0.1 h of charge left and one
fault recorded, advanced 0.15 h with roll 0.0 ends Flying with 0.6 charge hours and two faults. -/
theorem charging_to_flying_split_witness :
    (runOps (VTOL.new VTOLMake.ALPHA) (testAdvances ++ [VTOLOp.toCharger 1])).timeToStateChange
      = 1 / 10 ∧
    ((runOps (VTOL.new VTOLMake.ALPHA) (testAdvances ++ [VTOLOp.toCharger 1])).updateVTOL
      (15 / 100) 0).1.state = VTOLStatus.FLYING ∧
    ((runOps (VTOL.new VTOLMake.ALPHA) (testAdvances ++ [VTOLOp.toCharger 1])).updateVTOL
      (15 / 100) 0).1.timeCharging = 6 / 10 ∧
    ((runOps (VTOL.new VTOLMake.ALPHA) (testAdvances ++ [VTOLOp.toCharger 1])).updateVTOL
      (15 / 100) 0).1.numFaults = 2 := by
  have h := charging_to_flying_split
    (runOps (VTOL.new VTOLMake.ALPHA) (testAdvances ++ [VTOLOp.toCharger 1])) (15 / 100) 0
    (by decide!) (by decide!) (by decide!)
  have h0 : (runOps (VTOL.new VTOLMake.ALPHA)
      (testAdvances ++ [VTOLOp.toCharger 1])).timeToStateChange = 1 / 10 := by decide!
  have h1 : (runOps (VTOL.new VTOLMake.ALPHA)
      (testAdvances ++ [VTOLOp.toCharger 1])).timeCharging = 1 / 2 := by decide!
  refine ⟨h0, h.2.2.2.1, ?_, by decide!⟩
  rw [h.1, h0, h1]; norm_num

/-- C5 (deterministic fault check): for a Flying unit with countdown `c > 0`, a tick
`dTime > 0` and any roll, `updateVTOL` adds exactly one fault if
`faultRoll < min dTime c * faultProbability` and none otherwise; so a roll of 0.0 with a positive
fault probability records exactly one fault, and a roll at or above
`min dTime c * faultProbability` records none. -/
theorem deterministic_fault_check (v : VTOL) (dTime faultRoll : ℚ)
    (hs : v.state = VTOLStatus.FLYING) (hc : 0 < v.timeToStateChange) (hd : 0 < dTime) :
    (v.updateVTOL dTime faultRoll).1.numFaults =
      (if faultRoll < min dTime v.timeToStateChange * v.faultProbability then v.numFaults + 1
       else v.numFaults) ∧
    (0 < v.faultProbability → (v.updateVTOL dTime 0).1.numFaults = v.numFaults + 1) ∧
    (min dTime v.timeToStateChange * v.faultProbability ≤ faultRoll →
      (v.updateVTOL dTime faultRoll).1.numFaults = v.numFaults) := by
  have key : ∀ r : ℚ, (v.updateVTOL dTime r).1.numFaults =
      (if r < min dTime v.timeToStateChange * v.faultProbability then v.numFaults + 1
       else v.numFaults) := by
    intro r
    obtain ⟨state, make, speed, chargeTime, drainTime, pc, fp, ttsc, tf, tw, tc, nf, tist⟩ := v
    simp only at hs hc
    subst hs
    simp only [VTOL.updateVTOL, VTOL.setState, VTOL.hadFault, hc, if_true]
    split_ifs <;> simp_all
  refine ⟨key faultRoll, ?_, ?_⟩
  · intro hp
    rw [key 0, if_pos (mul_pos (lt_min hd hc) hp)]
  · intro hr
    rw [key faultRoll, if_neg (not_lt.mpr hr)]

/-- Witness of C5: a fresh ALPHA unit advanced 1.0 h with roll 0.0 records its first fault. -/
theorem deterministic_fault_check_witness :
    ((VTOL.new VTOLMake.ALPHA).updateVTOL 1 0).1.numFaults = 1 := by
  have h := (deterministic_fault_check (VTOL.new VTOLMake.ALPHA) 1 0
    (by decide!) (by decide!) (by decide!)).2.1 (by decide!)
  rw [h]
  decide!

/-- C6 (Waiting never self-transitions and never faults): a unit reached from construction by
admissible calls that is Waiting has its countdown at or below the `UNLIMITED` sentinel, and for
every `dTime > 0` and every roll `updateVTOL` leaves it Waiting, adds exactly `dTime` to the wait
hours, leaves flight hours, charge hours and fault count unchanged, and returns `dTime`. -/
theorem waiting_never_self_transitions (make : VTOLMake) (ops : List VTOLOp)
    (dTime faultRoll : ℚ)
    (h : admissibleOps (VTOL.new make) ops = true)
    (hs : (runOps (VTOL.new make) ops).state = VTOLStatus.WAITING) (hd : 0 < dTime) :
    (runOps (VTOL.new make) ops).timeToStateChange ≤ (UNLIMITED : ℚ) ∧
    ((runOps (VTOL.new make) ops).updateVTOL dTime faultRoll).1.state = VTOLStatus.WAITING ∧
    ((runOps (VTOL.new make) ops).updateVTOL dTime faultRoll).1.timeWaiting =
      (runOps (VTOL.new make) ops).timeWaiting + dTime ∧
    ((runOps (VTOL.new make) ops).updateVTOL dTime faultRoll).1.timeFlying =
      (runOps (VTOL.new make) ops).timeFlying ∧
    ((runOps (VTOL.new make) ops).updateVTOL dTime faultRoll).1.timeCharging =
      (runOps (VTOL.new make) ops).timeCharging ∧
    ((runOps (VTOL.new make) ops).updateVTOL dTime faultRoll).1.numFaults =
      (runOps (VTOL.new make) ops).numFaults ∧
    ((runOps (VTOL.new make) ops).updateVTOL dTime faultRoll).2 = dTime := by
  have hinv := (runOps_invariant ops (VTOL.new make) (new_waitingSentinel make) h).1
  have hc := hinv hs
  rw [updateVTOL_waiting _ dTime faultRoll hs hc hd]
  exact ⟨hc, hs, rfl, rfl, rfl, rfl, rfl⟩

/-- Witness of C6: the ALPHA unit of `tests.cpp` after its two advances of 1.0 h is Waiting, and
the advance of 0.5 h with roll 0.0 adds 0.5 wait hours and no fault. -/
theorem waiting_never_self_transitions_witness :
    (runOps (VTOL.new VTOLMake.ALPHA) [VTOLOp.update 1 0, VTOLOp.update 1 10000]).state =
      VTOLStatus.WAITING ∧
    ((runOps (VTOL.new VTOLMake.ALPHA) [VTOLOp.update 1 0, VTOLOp.update 1 10000]).updateVTOL
      (1 / 2) 0).1.state = VTOLStatus.WAITING ∧
    ((runOps (VTOL.new VTOLMake.ALPHA) [VTOLOp.update 1 0, VTOLOp.update 1 10000]).updateVTOL
      (1 / 2) 0).1.numFaults =
      (runOps (VTOL.new VTOLMake.ALPHA) [VTOLOp.update 1 0, VTOLOp.update 1 10000]).numFaults ∧
    ((runOps (VTOL.new VTOLMake.ALPHA) [VTOLOp.update 1 0, VTOLOp.update 1 10000]).updateVTOL
      (1 / 2) 0).2 = 1 / 2 := by
  have h := waiting_never_self_transitions VTOLMake.ALPHA
    [VTOLOp.update 1 0, VTOLOp.update 1 10000] (1 / 2) 0 (by decide!) (by decide!) (by decide!)
  exact ⟨by decide!, h.2.1, h.2.2.2.2.2.1, h.2.2.2.2.2.2⟩

/-- C12, as stated, fails: the sentinel roll is 1.0, and for the ALPHA profile a duration of
five hours has `hadFault( 5, 1.0 )` true; an ALPHA unit that waited five hours in the tick and is
moved to a charger available for five hours records a fault inside `moveToCharger`. -/
theorem sentinel_fault_counterexample :
    ((VTOLQueue.new VTOLStatus.WAITING (fun _ => 0) UNLIMITED).getFaultRoll).1 = 1 ∧
    (VTOL.new VTOLMake.ALPHA).hadFault 5 1 = true ∧
    waitedFiveHours.state = VTOLStatus.WAITING ∧
    waitedFiveHours.timeInStateThisTick = 5 ∧
    (waitedFiveHours.moveToCharger 5).numFaults = waitedFiveHours.numFaults + 1 := by
  decide!

/-- C12, amended (no-fault sentinel): `getFaultRoll` on a queue constructed with a type other
than Flying returns 1.0 and leaves the queue as it was, so on every call; with that roll
`hadFault( d, 1.0 )` is false for each of the five profiles and every duration `d ≥ 0` with
`d * faultProbability ≤ 1`, which holds for every `d` up to one hour, and then neither
`updateVTOL( d, 1.0 )` nor a `moveToCharger` whose adjustment `min a w` is `d` adds a fault. -/
theorem no_fault_sentinel (type : VTOLStatus) (draws : Nat → ℚ) (c : Int)
    (ops : List QueueOp) (Q : VTOLQueue) (make : VTOLMake) (d : ℚ)
    (hrun : runQueueOps (VTOLQueue.new type draws c) ops = some Q)
    (htype : type ≠ VTOLStatus.FLYING) (hd0 : 0 ≤ d)
    (hd : d * (VTOL.new make).faultProbability ≤ 1) :
    Q.getFaultRoll = (1, Q) ∧
    (VTOL.new make).hadFault d 1 = false ∧
    (∀ v : VTOL, v.faultProbability = (VTOL.new make).faultProbability →
      (v.updateVTOL d 1).1.numFaults = v.numFaults) ∧
    (∀ (v : VTOL) (a : ℚ), v.faultProbability = (VTOL.new make).faultProbability →
      min a v.timeInStateThisTick = d → (v.moveToCharger a).numFaults = v.numFaults) ∧
    (∀ x : ℚ, x ≤ 1 → x * (VTOL.new make).faultProbability ≤ 1) := by
  have hp : 0 ≤ (VTOL.new make).faultProbability ∧ (VTOL.new make).faultProbability ≤ 1 := by
    cases make <;> norm_num [VTOL.new, VTOL.Init]
  refine ⟨?_, ?_, ?_, ?_, ?_⟩
  · have hg : Q.generator = none := by
      rw [runQueueOps_generator ops _ Q hrun]
      simp [VTOLQueue.new, htype]
    simp [VTOLQueue.getFaultRoll, hg]
  · simpa [VTOL.hadFault] using hd
  · intro v hv
    exact updateVTOL_numFaults_sentinel v d (hv ▸ hp.1) hd0 (hv ▸ hd)
  · intro v a hv hmin
    unfold VTOL.moveToCharger
    simp only [hmin]
    rw [updateVTOL_numFaults_sentinel _ d (by simpa [VTOL.setState] using hv ▸ hp.1) hd0
      (by simpa [VTOL.setState] using hv ▸ hd)]
    simp [VTOL.setState]
  · intro x hx
    have h1 : x * (VTOL.new make).faultProbability ≤ 1 * (VTOL.new make).faultProbability :=
      mul_le_mul_of_nonneg_right hx hp.1
    linarith [hp.2]

/-- Witness of C12 amended: the Waiting queue as the engine constructs it, and the ALPHA unit of
`tests.cpp` moved to a charger after half an hour of waiting. -/
theorem no_fault_sentinel_witness :
    (VTOLQueue.new VTOLStatus.WAITING (fun _ => 0) UNLIMITED).getFaultRoll =
      (1, VTOLQueue.new VTOLStatus.WAITING (fun _ => 0) UNLIMITED) ∧
    (VTOL.new VTOLMake.ALPHA).hadFault (1 / 2) 1 = false ∧
    ((runOps (VTOL.new VTOLMake.ALPHA) testAdvances).moveToCharger 1).numFaults =
      (runOps (VTOL.new VTOLMake.ALPHA) testAdvances).numFaults := by
  have h := no_fault_sentinel VTOLStatus.WAITING (fun _ => 0) UNLIMITED [] _ VTOLMake.ALPHA
    (1 / 2) rfl (by decide) (by decide!) (by decide!)
  exact ⟨h.1, h.2.1, h.2.2.2.1 _ 1 (by decide!) (by decide!)⟩

/-- C13, as stated, fails: the ALPHA unit of `tests.cpp`, Waiting after its third advance of
0.5 h, has the countdown -3/2, neither positive nor the sentinel; and after an advance longer
than the charge left and the drain time together a unit is Flying with the countdown -1/2. -/
theorem countdown_counterexample :
    admissibleOps (VTOL.new VTOLMake.ALPHA) testAdvances = true ∧
    (runOps (VTOL.new VTOLMake.ALPHA) testAdvances).state = VTOLStatus.WAITING ∧
    (runOps (VTOL.new VTOLMake.ALPHA) testAdvances).timeToStateChange = -3 / 2 ∧
    admissibleOps (VTOL.new VTOLMake.ALPHA) longAdvance = true ∧
    (runOps (VTOL.new VTOLMake.ALPHA) longAdvance).state = VTOLStatus.FLYING ∧
    (runOps (VTOL.new VTOLMake.ALPHA) longAdvance).timeToStateChange = -1 / 2 := by
  decide!

/-- C13, amended (countdown invariant): in every state reached from construction, with any make,
by `updateVTOL` calls with `0 < dTime ≤ drainTime` and `moveToCharger` calls with a non-negative
argument on Waiting units, the countdown is strictly positive or at most the `UNLIMITED`
sentinel: at most the sentinel when the unit is Waiting, strictly positive when it is Flying or
Charging. -/
theorem countdown_invariant (make : VTOLMake) (ops : List VTOLOp)
    (h : admissibleOps (VTOL.new make) ops = true)
    (hb : dtBounded (VTOL.new make).drainTime ops = true) :
    (0 < (runOps (VTOL.new make) ops).timeToStateChange ∨
      (runOps (VTOL.new make) ops).timeToStateChange ≤ (UNLIMITED : ℚ)) ∧
    ((runOps (VTOL.new make) ops).state = VTOLStatus.WAITING →
      (runOps (VTOL.new make) ops).timeToStateChange ≤ (UNLIMITED : ℚ)) ∧
    ((runOps (VTOL.new make) ops).state ≠ VTOLStatus.WAITING →
      0 < (runOps (VTOL.new make) ops).timeToStateChange) := by
  obtain ⟨-, -, -, -, -, h6, h7⟩ :=
    runOps_countdownOK _ ops (VTOL.new make) (new_countdownOK make) h hb
  refine ⟨?_, h6, h7⟩
  by_cases hs : (runOps (VTOL.new make) ops).state = VTOLStatus.WAITING
  · exact Or.inr (h6 hs)
  · exact Or.inl (h7 hs)

/-- Witness of C13 amended: the scenario of `tests.cpp` on an ALPHA unit has every advance
within the drain time of 5/3 h and ends Flying with a positive countdown. -/
theorem countdown_invariant_witness :
    admissibleOps (VTOL.new VTOLMake.ALPHA) testScenario = true ∧
    dtBounded (VTOL.new VTOLMake.ALPHA).drainTime testScenario = true ∧
    (runOps (VTOL.new VTOLMake.ALPHA) testScenario).state = VTOLStatus.FLYING ∧
    0 < (runOps (VTOL.new VTOLMake.ALPHA) testScenario).timeToStateChange := by
  have h1 : admissibleOps (VTOL.new VTOLMake.ALPHA) testScenario = true := by decide!
  have h2 : dtBounded (VTOL.new VTOLMake.ALPHA).drainTime testScenario = true := by decide!
  have h3 : (runOps (VTOL.new VTOLMake.ALPHA) testScenario).state = VTOLStatus.FLYING := by
    decide!
  exact ⟨h1, h2, h3,
    (countdown_invariant VTOLMake.ALPHA testScenario h1 h2).2.2 (by rw [h3]; decide)⟩

/-- C14, as stated, fails: `moveToCharger( 1.0 )` on a fresh ALPHA unit, which is Flying, is
not rejected and leaves it Charging; on the same unit after an advance of 1.0 h, still Flying,
it leaves the wait hours at -1, the charge hours at 0.6 and the flight hours at 1.4. -/
theorem moveToCharger_unchecked_counterexample :
    (VTOL.new VTOLMake.ALPHA).state = VTOLStatus.FLYING ∧
    ((VTOL.new VTOLMake.ALPHA).moveToCharger 1).state = VTOLStatus.CHARGING ∧
    ((VTOL.new VTOLMake.ALPHA).updateVTOL 1 0).1.state = VTOLStatus.FLYING ∧
    ((VTOL.new VTOLMake.ALPHA).updateVTOL 1 0).1.timeWaiting = 0 ∧
    ((VTOL.new VTOLMake.ALPHA).updateVTOL 1 0).1.timeFlying = 1 ∧
    ((((VTOL.new VTOLMake.ALPHA).updateVTOL 1 0).1).moveToCharger 1).timeWaiting = -1 ∧
    ((((VTOL.new VTOLMake.ALPHA).updateVTOL 1 0).1).moveToCharger 1).timeCharging = 3 / 5 ∧
    ((((VTOL.new VTOLMake.ALPHA).updateVTOL 1 0).1).moveToCharger 1).timeFlying = 7 / 5 := by
  decide!

/-- C14, amended (no precondition check): `moveToCharger` does not look at the state of the
unit; on a unit in any state it does what it does on a Waiting unit with the same other
members: it takes `min a w` off the wait hours and leaves the unit Charging or Flying, never
Waiting. -/
theorem moveToCharger_ignores_state (v : VTOL) (s : VTOLStatus) (a : ℚ) :
    ({ v with state := s } : VTOL).moveToCharger a = v.moveToCharger a ∧
    (v.moveToCharger a).timeWaiting = v.timeWaiting - min a v.timeInStateThisTick ∧
    (v.moveToCharger a).state ≠ VTOLStatus.WAITING := by
  refine ⟨rfl, ?_, moveToCharger_state_ne_waiting v a⟩
  obtain ⟨state, make, speed, chargeTime, drainTime, pc, fp, ttsc, tf, tw, tc, nf, tist⟩ := v
  simp only [VTOL.moveToCharger, VTOL.updateVTOL, VTOL.setState, VTOL.hadFault]
  split_ifs <;> rfl

/-- C17 (charge overshoot inside `moveToCharger`): for a Waiting unit with positive charge time
and `d = min a w`, when `d` exceeds the charge time `moveToCharger( a )` takes `d` off the wait
hours, adds exactly the charge time to the charge hours and `d - chargeTime` to the flight
hours, and leaves the unit Flying with countdown `drainTime - (d - chargeTime)`; when `d` is
below the charge time by more than the tolerance the unit ends Charging with countdown
`chargeTime - d`. -/
theorem charge_overshoot (v : VTOL) (a : ℚ)
    (hs : v.state = VTOLStatus.WAITING) (hc : 0 < v.chargeTime) :
    (v.chargeTime < min a v.timeInStateThisTick →
      (v.moveToCharger a).timeWaiting = v.timeWaiting - min a v.timeInStateThisTick ∧
      (v.moveToCharger a).timeCharging = v.timeCharging + v.chargeTime ∧
      (v.moveToCharger a).timeFlying =
        v.timeFlying + (min a v.timeInStateThisTick - v.chargeTime) ∧
      (v.moveToCharger a).state = VTOLStatus.FLYING ∧
      (v.moveToCharger a).timeToStateChange =
        v.drainTime - (min a v.timeInStateThisTick - v.chargeTime)) ∧
    (min a v.timeInStateThisTick < v.chargeTime - TOLERANCE →
      (v.moveToCharger a).state = VTOLStatus.CHARGING ∧
      (v.moveToCharger a).timeToStateChange = v.chargeTime - min a v.timeInStateThisTick) := by
  obtain ⟨state, make, speed, chargeTime, drainTime, pc, fp, ttsc, tf, tw, tc, nf, tist⟩ := v
  simp only at hs hc
  subst hs
  have _ := hc
  constructor
  · intro hd
    simp only at hd
    have hmin : min (min a tist) chargeTime = chargeTime := min_eq_right hd.le
    simp only [VTOL.moveToCharger, VTOL.updateVTOL, VTOL.setState, VTOL.hadFault, hc, hmin,
      if_true]
    split_ifs <;> simp_all
  · intro hd
    simp only [TOLERANCE] at hd
    have hle : min a tist ≤ chargeTime := by linarith
    have hmin : min (min a tist) chargeTime = min a tist := min_eq_left hle
    have hae : almostEqual (chargeTime - min a tist) 0 = false := by
      have habs : |chargeTime - min a tist - 0| = chargeTime - min a tist := by
        rw [sub_zero]; exact abs_of_nonneg (by linarith)
      simp only [almostEqual, TOLERANCE, habs, decide_eq_false_iff_not, not_lt]
      linarith
    simp [VTOL.moveToCharger, VTOL.updateVTOL, VTOL.setState, hc, hmin, hae]

/-- Witness of C17: the BETA unit of `tests.cpp` (charge time 0.2 h, 0.5 h waited in the tick)
offered a charger available for 1.0 h gets 0.2 charge hours and 0.3 more flight hours and ends
Flying. -/
theorem charge_overshoot_witness :
    (runOps (VTOL.new VTOLMake.BETA) testAdvances).timeInStateThisTick = 1 / 2 ∧
    (runOps (VTOL.new VTOLMake.BETA) testAdvances).chargeTime = 1 / 5 ∧
    ((runOps (VTOL.new VTOLMake.BETA) testAdvances).moveToCharger 1).timeCharging =
      (runOps (VTOL.new VTOLMake.BETA) testAdvances).timeCharging +
        (runOps (VTOL.new VTOLMake.BETA) testAdvances).chargeTime ∧
    ((runOps (VTOL.new VTOLMake.BETA) testAdvances).moveToCharger 1).timeCharging = 1 / 5 ∧
    ((runOps (VTOL.new VTOLMake.BETA) testAdvances).moveToCharger 1).timeFlying = 2 / 3 + 3 / 10 ∧
    ((runOps (VTOL.new VTOLMake.BETA) testAdvances).moveToCharger 1).state =
      VTOLStatus.FLYING := by
  have h := (charge_overshoot (runOps (VTOL.new VTOLMake.BETA) testAdvances) 1
    (by decide!) (by decide!)).1 (by decide!)
  exact ⟨by decide!, by decide!, h.2.1, by decide!, by decide!, h.2.2.2.1⟩

/-! ## The state queue -/

/-- C7 (capacity rejection): on a queue of capacity `c ≥ 0` that holds `c` units, `push` returns
false and leaves the queue as it was; on a queue that is not full, `push` returns true, appends
the unit at the back and increases the size by exactly one; an unbounded queue is not full. -/
theorem push_capacity_rejection (Q : VTOLQueue) (p : VTOLPtr) :
    (0 ≤ Q.capacity → (Q.size : Int) = Q.capacity → Q.push p = (Q, false)) ∧
    (Q.full = false →
      Q.push p = ({ Q with q := Q.q ++ [p] }, true) ∧ (Q.push p).1.size = Q.size + 1) ∧
    (Q.capacity = UNLIMITED → Q.full = false) := by
  refine ⟨?_, ?_, ?_⟩
  · intro h0 hsz
    refine push_of_full Q p ((full_iff Q).mpr ⟨?_, hsz⟩)
    intro hc
    rw [hc] at h0
    simp [UNLIMITED] at h0
  · intro hf
    rw [push_of_not_full Q p hf]
    exact ⟨rfl, by simp [VTOLQueue.size]⟩
  · intro hc
    simp [VTOLQueue.full, hc]

/-- Witness of C7: a Charging queue of three chargers holding three units rejects a fourth and
keeps its contents; the empty queue of three chargers accepts a first unit. -/
theorem push_capacity_rejection_witness :
    (fullChargingQueue.push 3).2 = false ∧ (fullChargingQueue.push 3).1.q = [0, 1, 2] ∧
    ((VTOLQueue.new VTOLStatus.CHARGING (fun _ => 0) 3).push 7).2 = true ∧
    ((VTOLQueue.new VTOLStatus.CHARGING (fun _ => 0) 3).push 7).1.q = [7] := by
  have h1 := (push_capacity_rejection fullChargingQueue 3).1 (by decide!) (by decide!)
  have h2 := ((push_capacity_rejection (VTOLQueue.new VTOLStatus.CHARGING (fun _ => 0) 3) 7).2.1
    (by decide!)).1
  rw [h1, h2]
  exact ⟨rfl, by decide!, rfl, by decide!⟩

/-- C8 (capacity invariant): a queue constructed empty with capacity `c` and taken through any
sequence of `push` calls and of `pop` calls on a non-empty queue has, when `c ≥ 0`, a size of at
most `c` and is full exactly when its size is `c`; when `c` is `UNLIMITED` it is never full. -/
theorem capacity_invariant (type : VTOLStatus) (draws : Nat → ℚ) (c : Int)
    (ops : List QueueOp) (Q : VTOLQueue)
    (hrun : runQueueOps (VTOLQueue.new type draws c) ops = some Q) :
    (0 ≤ c → (Q.size : Int) ≤ c ∧ (Q.full = true ↔ (Q.size : Int) = c)) ∧
    (c = UNLIMITED → Q.full = false) := by
  obtain ⟨hcap, hle⟩ := runQueueOps_invariant ops _ Q hrun
  have hc : Q.capacity = c := by rw [hcap]; rfl
  refine ⟨?_, ?_⟩
  · intro h0
    refine ⟨hle h0 (by simpa [VTOLQueue.new, VTOLQueue.size] using h0), ?_⟩
    rw [full_iff, hc]
    constructor
    · exact fun h => h.2
    · intro h
      refine ⟨?_, h⟩
      intro hu
      rw [hu] at h0
      simp [UNLIMITED] at h0
  · intro hu
    simp [VTOLQueue.full, hc, hu]

/-- Witness of C8: five pushes and one pop on a queue of three chargers leave two units, at
most three, and the queue not full. -/
theorem capacity_invariant_witness :
    ∃ Q : VTOLQueue,
      runQueueOps (VTOLQueue.new VTOLStatus.CHARGING (fun _ => 0) 3)
        [QueueOp.push 0, QueueOp.push 1, QueueOp.push 2, QueueOp.push 3, QueueOp.pop] = some Q ∧
      Q.q = [1, 2] ∧ (Q.size : Int) ≤ 3 ∧ (Q.full = true ↔ (Q.size : Int) = 3) :=
  ⟨_, rfl, by decide!,
    ((capacity_invariant VTOLStatus.CHARGING (fun _ => 0) 3
      [QueueOp.push 0, QueueOp.push 1, QueueOp.push 2, QueueOp.push 3, QueueOp.pop] _ rfl).1
      (by decide)).1,
    ((capacity_invariant VTOLStatus.CHARGING (fun _ => 0) 3
      [QueueOp.push 0, QueueOp.push 1, QueueOp.push 2, QueueOp.push 3, QueueOp.pop] _ rfl).1
      (by decide)).2⟩

/-- C9 (FIFO order): `pop` on a queue whose contents are `p :: rest` returns `p` and leaves
`rest` in its order; hence after the accepted pushes of `ps` onto a queue constructed empty,
as many pops as there are handles in `ps` return `ps` in order and leave the queue empty. -/
theorem fifo_order (type : VTOLStatus) (draws : Nat → ℚ) (c : Int) (ps : List VTOLPtr)
    (hacc : (pushAll (VTOLQueue.new type draws c) ps).2 = List.replicate ps.length true) :
    (∀ (Q : VTOLQueue) (p : VTOLPtr) (rest : List VTOLPtr), Q.q = p :: rest →
      Q.pop = some (p, { Q with q := rest })) ∧
    popN ps.length (pushAll (VTOLQueue.new type draws c) ps).1 =
      some (ps, VTOLQueue.new type draws c) := by
  refine ⟨?_, ?_⟩
  · intro Q p rest h
    simp [VTOLQueue.pop, h]
  · rw [pushAll_accepted ps _ hacc]
    rw [popN_append ps _ [] (by simp [VTOLQueue.new])]
    rfl

/-- Witness of C9: the units 5, 3, 8 pushed onto an empty queue of three chargers are all
accepted and popped in that order. -/
theorem fifo_order_witness :
    (pushAll (VTOLQueue.new VTOLStatus.CHARGING (fun _ => 0) 3) [5, 3, 8]).2 =
      [true, true, true] ∧
    (popN 3 (pushAll (VTOLQueue.new VTOLStatus.CHARGING (fun _ => 0) 3) [5, 3, 8]).1).map
      (fun r => (r.1, r.2.q)) = some ([5, 3, 8], []) := by
  have h := (fifo_order VTOLStatus.CHARGING (fun _ => 0) 3 [5, 3, 8] (by decide!)).2
  refine ⟨by decide!, ?_⟩
  simp only [List.length_cons, List.length_nil] at h
  rw [h]
  rfl

/-! ## Phase C: charger allocation -/

/-- C10, evaluated on the code: with the availability list `[3/10000, 1/10000]`, two units
waiting and two free chargers, Phase C moves both units; the first one (i = 0) is passed entry
0, and the second one (i = 1) is passed entry 0 again, not entry 1: its charge hours become
3/10000 where the claim gives 1/10000. -/
theorem phaseC_reuses_first_availability :
    allocationExample.chargerAvailabilityTimes = [3 / 10000, 1 / 10000] ∧
    allocationExample.waitingQueue.q = [0, 1] ∧
    allocationExample.chargingQueue.q = [4] ∧
    allocationExample.chargingQueue.capacity = 3 ∧
    allocationExample.hoursPerTick = defaultHoursPerTick ∧
    allocationExample.heap[1]? = some waitedOneTick ∧
    waitedOneTick.state = VTOLStatus.WAITING ∧
    (allocationExample.moveVTOLs VTOLStatus.WAITING none).map
      (fun e => (e.waitingQueue.q, e.chargingQueue.q)) = some ([], [4, 0, 1]) ∧
    (allocationExample.moveVTOLs VTOLStatus.WAITING none).map (fun e => e.heap[0]?) =
      some (some (waitedOneTick.moveToCharger (3 / 10000))) ∧
    (allocationExample.moveVTOLs VTOLStatus.WAITING none).map (fun e => e.heap[1]?) =
      some (some (waitedOneTick.moveToCharger (3 / 10000))) ∧
    (waitedOneTick.moveToCharger (3 / 10000)).timeCharging = 3 / 10000 ∧
    (waitedOneTick.moveToCharger (1 / 10000)).timeCharging = 1 / 10000 := by
  decide!

/-! ## Phase A: advancing the queues -/

/-- C11, evaluated on the code: the units 0 and 1 both leave the Flying queue in Phase A, the
unit 0 with 1/10000 h and the unit 1 with 3/10000 h since its state change; the changed list
comes out as `[0, 1]`, in the order of the pointers, so that its first entry has the smaller
time since its state change. -/
theorem flying_changed_list_sorted_by_pointer :
    rankingExample.flyingQueue.q = [0, 1] ∧
    (rankingExample.updateVTOLs VTOLStatus.FLYING (some [])).map (fun r => r.2) =
      some (some [0, 1]) ∧
    (rankingExample.updateVTOLs VTOLStatus.FLYING (some [])).map
      (fun r => (r.1.stateOf 0, r.1.stateOf 1)) =
      some (some VTOLStatus.WAITING, some VTOLStatus.WAITING) ∧
    (rankingExample.updateVTOLs VTOLStatus.FLYING (some [])).map
      (fun r => (r.1.residualOf 0, r.1.residualOf 1)) = some (1 / 10000, 3 / 10000) ∧
    ¬ ((1 / 10000 : ℚ) ≥ 3 / 10000) := by
  decide!

/-- C18 (charger availability list): if the availability list is empty when Phase A starts on
a Charging queue that holds each of its units once and within its capacity, then after
`updateVTOLs( CHARGING )` the changed list holds the units of the queue that are no longer
Charging, the availability list holds one entry per unit of the changed list, the value that
`updateVTOL` returned for it, and the availability list is in non-increasing order. -/
theorem charger_availability_list (e : SimulationEngine)
    (hempty : e.chargerAvailabilityTimes = [])
    (hnd : e.chargingQueue.q.Nodup)
    (hvalid : ∀ p ∈ e.chargingQueue.q, p < e.heap.length)
    (hcap : e.chargingQueue.holds e.chargingQueue.size) :
    ∃ (e1 : SimulationEngine) (changed : List VTOLPtr),
      e.updateVTOLs VTOLStatus.CHARGING (some []) = some (e1, some changed) ∧
      changed = e.chargingQueue.q.filter
        (fun p => decide (e1.stateOf p ≠ some VTOLStatus.CHARGING)) ∧
      (∀ p ∈ changed, ∃ v roll, e.heap[p]? = some v ∧
        e1.heap[p]? = some (v.updateVTOL e.hoursPerTick roll).1 ∧
        e1.residualOf p = (v.updateVTOL e.hoursPerTick roll).2) ∧
      e1.chargerAvailabilityTimes.Perm (changed.map e1.residualOf) ∧
      e1.chargerAvailabilityTimes.length = changed.length ∧
      e1.chargerAvailabilityTimes.Sorted (fun a b => a ≥ b) := by
  obtain ⟨e1, R, -, hrun⟩ :=
    updateVTOLs_spec VTOLStatus.CHARGING e (some []) hnd hvalid hcap
  have havail : e1.chargerAvailabilityTimes =
      (e.chargingQueue.q.filter (e1.leaves VTOLStatus.CHARGING true)).map e1.residualOf := by
    have h := R.availability
    simpa [hempty, SimulationEngine.getQueue] using h
  have hperm := List.perm_insertionSort (fun a b : ℚ => a ≥ b) e1.chargerAvailabilityTimes
  refine ⟨{ e1 with chargerAvailabilityTimes := sortDescending e1.chargerAvailabilityTimes },
    e.chargingQueue.q.filter (e1.leaves VTOLStatus.CHARGING true), ?_, ?_, ?_, ?_, ?_, ?_⟩
  · simpa [SimulationEngine.getQueue] using hrun
  · refine List.filter_congr ?_
    intro p _
    simp [SimulationEngine.leaves, SimulationEngine.stateOf]
  · intro p hp
    obtain ⟨v, roll, h1, h2⟩ := R.heap_updated p (List.mem_of_mem_filter hp)
    refine ⟨v, roll, h1, h2, ?_⟩
    simp only [SimulationEngine.residualOf, h2, Option.map_some', Option.getD_some]
    rfl
  · simp only [sortDescending]
    refine hperm.trans ?_
    rw [havail]
    exact List.Perm.refl _
  · simp only [sortDescending]
    rw [hperm.length_eq, havail, List.length_map]
  · exact List.sorted_insertionSort (fun a b : ℚ => a ≥ b) _

/-- Witness of C18: of three charging units, the two that finish during the tick go to the
changed list and their residual times, 1/10000 h and 3/10000 h, make up the availability list,
longest first. -/
theorem charger_availability_list_witness :
    ∃ (e1 : SimulationEngine) (changed : List VTOLPtr),
      chargingExample.updateVTOLs VTOLStatus.CHARGING (some []) = some (e1, some changed) ∧
      changed = [0, 1] ∧
      e1.chargerAvailabilityTimes = [3 / 10000, 1 / 10000] ∧
      e1.chargerAvailabilityTimes.Perm (changed.map e1.residualOf) ∧
      e1.chargerAvailabilityTimes.Sorted (fun a b => a ≥ b) := by
  obtain ⟨e1, changed, h1, -, -, h4, -, h6⟩ := charger_availability_list chargingExample
    (by decide!) (by decide!) (by decide!) (Or.inr (by decide!))
  have h7 : (chargingExample.updateVTOLs VTOLStatus.CHARGING (some [])).map
      (fun r => (r.2, r.1.chargerAvailabilityTimes)) =
      some (some [0, 1], [3 / 10000, 1 / 10000]) := by decide!
  rw [h1] at h7
  simp only [Option.map_some', Option.some.injEq, Prod.mk.injEq] at h7
  exact ⟨e1, changed, h1, h7.1, h7.2, h4, h6⟩

/-- C20 (Phase A processes each unit exactly once): for every queue type, on a queue that holds
each of its units once and within its capacity, `updateVTOLs` with the changed list of that
worker advances every unit of the queue by one call of `updateVTOL` with `hoursPerTick` and
leaves every other unit as it was; afterwards the queue holds, in their original order, the
units that do not go to the changed list (all of them for the Waiting worker, those whose state
is still the queue type otherwise), and the changed list holds the others, each unit in exactly
one of the two. -/
theorem phaseA_each_unit_once (e : SimulationEngine) (queueType : VTOLStatus)
    (hnd : (e.getQueue queueType).q.Nodup)
    (hvalid : ∀ p ∈ (e.getQueue queueType).q, p < e.heap.length)
    (hcap : (e.getQueue queueType).holds (e.getQueue queueType).size) :
    ∃ (e1 : SimulationEngine) (changed : Option (List VTOLPtr)),
      e.updateVTOLs queueType (workerChangedList queueType) = some (e1, changed) ∧
      (∀ p ∈ (e.getQueue queueType).q, ∃ v roll, e.heap[p]? = some v ∧
        e1.heap[p]? = some (v.updateVTOL e.hoursPerTick roll).1) ∧
      (∀ i, i ∉ (e.getQueue queueType).q → e1.heap[i]? = e.heap[i]?) ∧
      (e1.getQueue queueType).q = (e.getQueue queueType).q.filter
        (fun p => decide (queueType = VTOLStatus.WAITING ∨ e1.stateOf p = some queueType)) ∧
      (changed.getD []).Perm ((e.getQueue queueType).q.filter
        (fun p => decide (queueType ≠ VTOLStatus.WAITING ∧ e1.stateOf p ≠ some queueType))) ∧
      (changed = none ↔ queueType = VTOLStatus.WAITING) ∧
      (∀ p ∈ (e.getQueue queueType).q,
        (p ∈ (e1.getQueue queueType).q ∧ p ∉ changed.getD []) ∨
        (p ∉ (e1.getQueue queueType).q ∧ p ∈ changed.getD [])) ∧
      (e1.getQueue queueType).q.Sublist (e.getQueue queueType).q := by
  obtain ⟨e1, R, hqueue, hrun⟩ :=
    updateVTOLs_spec queueType e (workerChangedList queueType) hnd hvalid hcap
  have hleaves : ∀ p, e1.leaves queueType (workerChangedList queueType).isSome p =
      decide (queueType ≠ VTOLStatus.WAITING ∧ e1.stateOf p ≠ some queueType) := by
    intro p
    cases queueType <;> simp [SimulationEngine.leaves, workerChangedList]
  have hstays : ∀ p, (!e1.leaves queueType (workerChangedList queueType).isSome p) =
      decide (queueType = VTOLStatus.WAITING ∨ e1.stateOf p = some queueType) := by
    intro p
    rw [hleaves]
    by_cases h1 : queueType = VTOLStatus.WAITING <;>
      by_cases h2 : e1.stateOf p = some queueType <;> simp [h1, h2]
  have hfilterL : (e.getQueue queueType).q.filter
      (e1.leaves queueType (workerChangedList queueType).isSome) =
      (e.getQueue queueType).q.filter
        (fun p => decide (queueType ≠ VTOLStatus.WAITING ∧ e1.stateOf p ≠ some queueType)) :=
    List.filter_congr (fun p _ => hleaves p)
  have hfilterS : (e.getQueue queueType).q.filter
      (fun p => !e1.leaves queueType (workerChangedList queueType).isSome p) =
      (e.getQueue queueType).q.filter
        (fun p => decide (queueType = VTOLStatus.WAITING ∨ e1.stateOf p = some queueType)) :=
    List.filter_congr (fun p _ => hstays p)
  rw [hfilterS] at hqueue
  rw [hfilterL] at hrun
  -- the engine and the changed list that `updateVTOLs` returns
  obtain ⟨e2, changed, hres, hheap, hq2, hperm, hnone⟩ :
      ∃ (e2 : SimulationEngine) (changed : Option (List VTOLPtr)),
        e.updateVTOLs queueType (workerChangedList queueType) = some (e2, changed) ∧
        e2.heap = e1.heap ∧ e2.getQueue queueType = e1.getQueue queueType ∧
        (changed.getD []).Perm ((e.getQueue queueType).q.filter
          (fun p => decide (queueType ≠ VTOLStatus.WAITING ∧
            e1.stateOf p ≠ some queueType))) ∧
        (changed = none ↔ queueType = VTOLStatus.WAITING) := by
    refine ⟨_, _, hrun, ?_, ?_, ?_, ?_⟩
    · split_ifs <;> rfl
    · split_ifs with h
      · subst h; rfl
      · rfl
    · cases queueType
      · simpa [workerChangedList, sortPointers] using List.perm_insertionSort _ _
      · simp [workerChangedList]
      · simp [workerChangedList]
    · cases queueType <;> simp [workerChangedList]
  have hstate : ∀ p, e2.stateOf p = e1.stateOf p := by
    intro p
    simp [SimulationEngine.stateOf, hheap]
  simp only [← hstate] at hqueue hperm
  rw [← hq2] at hqueue
  refine ⟨e2, changed, hres, ?_, ?_, hqueue, hperm, hnone, ?_, ?_⟩
  · intro p hp
    rw [hheap]
    exact R.heap_updated p hp
  · intro i hi
    rw [hheap]
    exact R.heap_other i hi
  · intro p hp
    rw [hqueue]
    simp only [List.mem_filter, hperm.mem_iff, hp, true_and, decide_eq_true_eq]
    by_cases h1 : queueType = VTOLStatus.WAITING <;>
      by_cases h2 : e2.stateOf p = some queueType <;> simp [h1, h2]
  · rw [hqueue]
    exact List.filter_sublist _

/-- Witness of C20: Phase A on the Charging queue of three units, two of which finish charging
during the tick: the third stays in the queue and the two others go to the changed list. -/
theorem phaseA_each_unit_once_witness :
    ∃ (e1 : SimulationEngine) (changed : Option (List VTOLPtr)),
      chargingExample.updateVTOLs VTOLStatus.CHARGING (workerChangedList VTOLStatus.CHARGING) =
        some (e1, changed) ∧
      e1.chargingQueue.q = [2] ∧ changed = some [0, 1] ∧
      (e1.getQueue VTOLStatus.CHARGING).q.Sublist
        (chargingExample.getQueue VTOLStatus.CHARGING).q := by
  obtain ⟨e1, changed, h1, -, -, -, -, -, -, h8⟩ :=
    phaseA_each_unit_once chargingExample VTOLStatus.CHARGING
      (by decide!) (by decide!) (Or.inr (by decide!))
  have h9 : (chargingExample.updateVTOLs VTOLStatus.CHARGING
      (workerChangedList VTOLStatus.CHARGING)).map (fun r => (r.1.chargingQueue.q, r.2)) =
      some ([2], some [0, 1]) := by decide!
  rw [h1] at h9
  simp only [Option.map_some', Option.some.injEq, Prod.mk.injEq] at h9
  exact ⟨e1, changed, h1, h9.1, h9.2, h8⟩

/-- C19 (Phase C allocation): from a Charging queue of size `s` within its capacity and a
Waiting queue of `n` valid handles, `moveVTOLs( WAITING )` returns having moved exactly
`min (capacity - s) n` units: the first ones of the Waiting queue, appended in their order to
the Charging queue, the rest of the Waiting queue keeping its order; afterwards the Charging
queue is full or the Waiting queue is empty, and the availability list is empty. -/
theorem phaseC_allocation (e : SimulationEngine)
    (hvalid : ∀ p ∈ e.waitingQueue.q, p < e.heap.length)
    (hcap : (e.chargingQueue.size : Int) ≤ e.chargingQueue.capacity) :
    ∃ (e1 : SimulationEngine) (k : Nat),
      e.moveVTOLs VTOLStatus.WAITING none = some e1 ∧
      (k : Int) = min (e.chargingQueue.capacity - e.chargingQueue.size) e.waitingQueue.size ∧
      (e.waitingQueue.q.take k).length = k ∧
      e1.waitingQueue.q = e.waitingQueue.q.drop k ∧
      e1.chargingQueue.q = e.chargingQueue.q ++ e.waitingQueue.q.take k ∧
      (e1.chargingQueue.full = true ∨ e1.waitingQueue.empty = true) ∧
      e1.chargerAvailabilityTimes = [] := by
  obtain ⟨e1, hrun, hw, hc, -⟩ := allocateLoop_spec 0 e.waitingQueue.q e rfl hvalid hcap
  have hexit := allocateLoop_exit 0 e.waitingQueue.q.length e e1
    (by simp [VTOLQueue.size]) hrun
  refine ⟨{ e1 with chargerAvailabilityTimes := [] },
    min (e.chargingQueue.capacity - e.chargingQueue.size).toNat e.waitingQueue.q.length,
    ?_, ?_, ?_, hw, hc, ?_, rfl⟩
  · simp [SimulationEngine.moveVTOLs, VTOLQueue.size, hrun]
  · simp only [VTOLQueue.size] at hcap ⊢
    omega
  · simp
  · simp only [Bool.and_eq_false_imp, Bool.not_eq_true', Bool.not_eq_false'] at hexit
    by_cases hf : e1.chargingQueue.full = true
    · exact Or.inl hf
    · exact Or.inr (hexit (by simpa using hf))

/-- Witness of C19: with one of three chargers taken and two units waiting, Phase C moves both
units, in their order, and empties the availability list. -/
theorem phaseC_allocation_witness :
    ∃ (e1 : SimulationEngine) (k : Nat),
      allocationExample.moveVTOLs VTOLStatus.WAITING none = some e1 ∧ k = 2 ∧
      e1.waitingQueue.q = [] ∧ e1.chargingQueue.q = [4, 0, 1] ∧
      e1.chargerAvailabilityTimes = [] := by
  obtain ⟨e1, k, h1, h2, -, h4, h5, -, h7⟩ := phaseC_allocation allocationExample
    (by decide!) (by decide!)
  have hk : k = 2 := by
    have h : min (allocationExample.chargingQueue.capacity -
        (allocationExample.chargingQueue.size : Int))
        (allocationExample.waitingQueue.size : Int) = 2 := by decide!
    rw [h] at h2
    exact_mod_cast h2
  subst hk
  have h8 : (List.drop 2 allocationExample.waitingQueue.q,
      allocationExample.chargingQueue.q ++ List.take 2 allocationExample.waitingQueue.q) =
      (([] : List VTOLPtr), [4, 0, 1]) := by decide!
  simp only [Prod.mk.injEq] at h8
  exact ⟨e1, 2, h1, rfl, h4.trans h8.1, h5.trans h8.2, h7⟩

/-! ## The whole run -/

/-- C15 (end-to-end scenario): whatever the rolls, the tick protocol run for 30 * 180 = 5400
ticks of (1/30)/60 h with three chargers on a fleet of six ALPHA aircraft ends with a summary
for ALPHA of 2.1 average flight hours, 0.3 average wait hours, 0.6 average charge hours and
6048 passenger-miles in total. -/
theorem six_alpha_scenario (draws : Nat → ℚ) :
    ∃ (e1 : SimulationEngine) (s : MakeSummary),
      (sixAlpha draws).hoursPerTick = 1 / 30 / 60 ∧
      (sixAlpha draws).runTicks (30 * 180) = some e1 ∧
      e1.displayMakeSummary VTOLMake.ALPHA = some s ∧
      s.flightTime = 21 / 10 ∧ s.waitTime = 3 / 10 ∧ s.chargeTime = 6 / 10 ∧
      s.totalPassengerMiles = 6048 := by
  have hplan : ((runPlan sixAlphaPlan (sixAlpha (fun _ => 1)).view).bind
      (fun o => o.engine.displayMakeSummary VTOLMake.ALPHA)).map MakeSummary.times =
      some (21 / 10, 3 / 10, 6 / 10, 6048) := by
    decide!
  cases hp : runPlan sixAlphaPlan (sixAlpha (fun _ => 1)).view with
  | none =>
    rw [hp] at hplan
    simp at hplan
  | some o1 =>
    rw [hp] at hplan
    simp only [Option.some_bind] at hplan
    have hrun := runPlan_sound sixAlphaPlan _ o1 (isView_view _) hp
    have hticks : planTicks sixAlphaPlan = 30 * 180 := by decide
    rw [hticks, ← sixAlpha_view draws, ← runTicks_view] at hrun
    cases he : (sixAlpha draws).runTicks (30 * 180) with
    | none =>
      rw [he] at hrun
      simp at hrun
    | some e1 =>
      rw [he] at hrun
      simp only [Option.map_some', Option.some.injEq] at hrun
      have hcongr := displayMakeSummary_congr e1 o1.engine
        (by rw [engine_view o1 (hrun ▸ isView_view e1)]; exact hrun) VTOLMake.ALPHA
      rw [hplan] at hcongr
      cases hs : e1.displayMakeSummary VTOLMake.ALPHA with
      | none =>
        rw [hs] at hcongr
        simp at hcongr
      | some s =>
        rw [hs] at hcongr
        simp only [Option.map_some', Option.some.injEq, MakeSummary.times,
          Prod.mk.injEq] at hcongr
        refine ⟨e1, s, ?_, rfl, hs, hcongr.1, hcongr.2.1, hcongr.2.2.1, hcongr.2.2.2⟩
        have h1 : (sixAlpha draws).view.hoursPerTick = 1 / 30 / 60 := by
          rw [sixAlpha_view draws]
          decide!
        exact h1

/-! ## The comparison operators -/

/-- C21, evaluated on the code: `a < b` compares the time in state this tick of `a` with the
countdown of `b`. For the units `a` and `b` that became Waiting 1/10000 h and 3/10000 h before
the end of the tick (countdown -1 each), `a < b` holds although the time of `a` is not greater
than the time of `b`; `a < a` holds, so the relation is not irreflexive; `a < b` and `b < a`
both hold, so it is not asymmetric; and `a > b` is false although `b < a` holds, so
`operator>` is not its mirror. -/
theorem operator_lt_compares_countdown :
    (justWaiting (1 / 10000)).state = VTOLStatus.WAITING ∧
    (justWaiting (3 / 10000)).state = VTOLStatus.WAITING ∧
    (justWaiting (1 / 10000)).timeInStateThisTick = 1 / 10000 ∧
    (justWaiting (3 / 10000)).timeInStateThisTick = 3 / 10000 ∧
    (justWaiting (1 / 10000)).timeToStateChange = -1 ∧
    (justWaiting (3 / 10000)).timeToStateChange = -1 ∧
    (justWaiting (1 / 10000)).operator_lt (justWaiting (3 / 10000)) = true ∧
    ¬ ((justWaiting (1 / 10000)).timeInStateThisTick >
        (justWaiting (3 / 10000)).timeInStateThisTick) ∧
    (justWaiting (1 / 10000)).operator_lt (justWaiting (1 / 10000)) = true ∧
    (justWaiting (3 / 10000)).operator_lt (justWaiting (1 / 10000)) = true ∧
    (justWaiting (1 / 10000)).operator_gt (justWaiting (3 / 10000)) = false := by
  decide!

/-! ## The first flight leg -/

/-- C23 (flight leg bounded by drainTime): after any sequence of `updateVTOL` calls with
`dt > 0` on a freshly constructed unit of any make, the drain time is the one of the profile
and, if the unit is still Flying, its flight hours and its countdown add up to the drain time
and its flight hours are strictly below the drain time; and if a further call makes it
Waiting, its flight hours after that call are at most the drain time and greater than the
drain time less the tolerance of `almostEqual`. -/
theorem flight_leg_bounded (make : VTOLMake) (calls : List (ℚ × ℚ)) (dTime faultRoll : ℚ)
    (hcalls : ∀ c ∈ calls, 0 < c.1)
    (hfly : (runOps (VTOL.new make) (advances calls)).state = VTOLStatus.FLYING) :
    (runOps (VTOL.new make) (advances calls)).drainTime = (VTOL.new make).drainTime ∧
    (runOps (VTOL.new make) (advances calls)).getTimeInFlight +
      (runOps (VTOL.new make) (advances calls)).timeToStateChange =
      (VTOL.new make).drainTime ∧
    (runOps (VTOL.new make) (advances calls)).getTimeInFlight < (VTOL.new make).drainTime ∧
    (((runOps (VTOL.new make) (advances calls)).updateVTOL dTime faultRoll).1.state =
        VTOLStatus.WAITING →
      ((runOps (VTOL.new make) (advances calls)).updateVTOL dTime faultRoll).1.getTimeInFlight ≤
        (VTOL.new make).drainTime ∧
      (VTOL.new make).drainTime - TOLERANCE <
        ((runOps (VTOL.new make) (advances calls)).updateVTOL dTime
          faultRoll).1.getTimeInFlight) := by
  obtain ⟨h1, -, h3, -⟩ := runOps_firstLeg _ calls _ (new_firstLeg make) hcalls
  obtain ⟨hsum, hpos⟩ := h3 hfly
  refine ⟨h1, hsum, ?_, ?_⟩
  · simp only [VTOL.getTimeInFlight]; linarith
  · intro hw
    rcases updateVTOL_flying_cases _ dTime faultRoll hfly hpos with
      ⟨a1, -, -, -⟩ | ⟨-, -, a3, a4⟩
    · rw [a1] at hw; cases hw
    · simp only [VTOL.getTimeInFlight, a3]
      constructor
      · have := min_le_right dTime (runOps (VTOL.new make) (advances calls)).timeToStateChange
        linarith
      · linarith

/-- Witness of C23: the ALPHA unit of `tests.cpp` is Flying after its first advance of 1.0 h,
with 1 h flown and 2/3 h left of its 5/3 h; the second advance of 1.0 h makes it Waiting with
5/3 flight hours. -/
theorem flight_leg_bounded_witness :
    (∀ c ∈ [((1 : ℚ), (0 : ℚ))], 0 < c.1) ∧
    (runOps (VTOL.new VTOLMake.ALPHA) (advances [(1, 0)])).state = VTOLStatus.FLYING ∧
    (VTOL.new VTOLMake.ALPHA).drainTime = 5 / 3 ∧
    (runOps (VTOL.new VTOLMake.ALPHA) (advances [(1, 0)])).getTimeInFlight = 1 ∧
    (runOps (VTOL.new VTOLMake.ALPHA) (advances [(1, 0)])).getTimeInFlight +
      (runOps (VTOL.new VTOLMake.ALPHA) (advances [(1, 0)])).timeToStateChange =
      (VTOL.new VTOLMake.ALPHA).drainTime ∧
    (runOps (VTOL.new VTOLMake.ALPHA) (advances [(1, 0)])).getTimeInFlight <
      (VTOL.new VTOLMake.ALPHA).drainTime ∧
    ((runOps (VTOL.new VTOLMake.ALPHA) (advances [(1, 0)])).updateVTOL 1 10000).1.state =
      VTOLStatus.WAITING ∧
    ((runOps (VTOL.new VTOLMake.ALPHA) (advances [(1, 0)])).updateVTOL 1
      10000).1.getTimeInFlight ≤ (VTOL.new VTOLMake.ALPHA).drainTime ∧
    (VTOL.new VTOLMake.ALPHA).drainTime - TOLERANCE <
      ((runOps (VTOL.new VTOLMake.ALPHA) (advances [(1, 0)])).updateVTOL 1
        10000).1.getTimeInFlight := by
  have hcalls : ∀ c ∈ [((1 : ℚ), (0 : ℚ))], 0 < c.1 := by decide!
  have hfly : (runOps (VTOL.new VTOLMake.ALPHA) (advances [(1, 0)])).state =
      VTOLStatus.FLYING := by decide!
  have hwait : ((runOps (VTOL.new VTOLMake.ALPHA) (advances [(1, 0)])).updateVTOL 1
      10000).1.state = VTOLStatus.WAITING := by decide!
  obtain ⟨-, h2, h3, h4⟩ :=
    flight_leg_bounded VTOLMake.ALPHA [(1, 0)] 1 10000 hcalls hfly
  exact ⟨hcalls, hfly, by decide!, by decide!, h2, h3, hwait, (h4 hwait).1, (h4 hwait).2⟩

/-! ## The fleet and its queues over a run -/

/-- C22 (queues partition the fleet by state): from an engine whose units are freshly
constructed (hence Flying) and all sit in the Flying queue, the other two queues being empty,
with a tick `hoursPerTick` smaller than `chargeTime - 1e-5` and smaller than `drainTime` for the
profile of every unit, any number of complete ticks (Phase A, Phase B, Phase C in sequence)
returns, and afterwards the three queues together hold exactly the units of the fleet, each
once, so that the number of queued units is the fleet size, and a unit of the fleet is in a
queue exactly when its state is the type of that queue. -/
theorem queues_partition_fleet (e : SimulationEngine) (makes : List VTOLMake) (n : Nat)
    (hheap : e.heap = makes.map VTOL.new)
    (hfleet : e.VTOLs = List.range makes.length)
    (hflying : e.flyingQueue.q = e.VTOLs)
    (hwaiting : e.waitingQueue.q = []) (hcharging : e.chargingQueue.q = [])
    (hunbounded : e.flyingQueue.capacity = UNLIMITED ∧ e.waitingQueue.capacity = UNLIMITED)
    (hchargers : 0 ≤ e.chargingQueue.capacity)
    (hcharge : ∀ make ∈ makes, e.hoursPerTick < (VTOL.new make).chargeTime - TOLERANCE)
    (hdrain : ∀ make ∈ makes, e.hoursPerTick < (VTOL.new make).drainTime) :
    ∃ e1 : SimulationEngine, e.runTicks n = some e1 ∧
      e1.VTOLs = List.range makes.length ∧
      (e1.flyingQueue.q ++ e1.waitingQueue.q ++ e1.chargingQueue.q).Perm e1.VTOLs ∧
      (e1.flyingQueue.q ++ e1.waitingQueue.q ++ e1.chargingQueue.q).Nodup ∧
      e1.flyingQueue.size + e1.waitingQueue.size + e1.chargingQueue.size = makes.length ∧
      (∀ p ∈ e1.VTOLs, ∀ t : VTOLStatus, p ∈ (e1.getQueue t).q ↔ e1.stateOf p = some t) := by
  obtain ⟨e1, hrun, M, hV⟩ := runTicks_partition n e
    (initial_partition e makes hheap hfleet hflying hwaiting hcharging hunbounded hchargers
      hcharge hdrain)
  have hperm : (e1.flyingQueue.q ++ e1.waitingQueue.q ++ e1.chargingQueue.q).Perm e1.VTOLs := by
    refine List.Perm.trans ?_ M.perm
    rw [List.perm_iff_count]
    intro a
    simp only [EngineView.queued, SimulationEngine.view, VTOLQueue.view, List.count_append,
      List.count_nil]
    omega
  have hstate : ∀ (p : VTOLPtr) (t : VTOLStatus), p ∈ (e1.getQueue t).q →
      e1.stateOf p = some t := by
    intro p t hp
    cases t
    · exact M.flying_state p (Or.inl hp)
    · exact M.waiting_state p (Or.inl hp)
    · exact M.charging_state p hp
  refine ⟨e1, hrun, hV.trans hfleet, hperm, hperm.nodup_iff.mpr M.fleet, ?_, ?_⟩
  · have h := hperm.length_eq
    rw [hV, hfleet, List.length_range] at h
    simpa [VTOLQueue.size, Nat.add_assoc] using h
  · intro p hp t
    refine ⟨hstate p t, ?_⟩
    intro hs
    have hq := hperm.mem_iff.mpr hp
    simp only [List.mem_append] at hq
    have key : ∀ u : VTOLStatus, p ∈ (e1.getQueue u).q → p ∈ (e1.getQueue t).q := by
      intro u hu
      have hsu := hstate p u hu
      rw [hs] at hsu
      cases hsu
      exact hu
    rcases hq with (hq | hq) | hq
    · exact key VTOLStatus.FLYING hq
    · exact key VTOLStatus.WAITING hq
    · exact key VTOLStatus.CHARGING hq

/-- Witness of C22: the engine of the default configuration loaded with six ALPHA aircraft by
`addNewVTOL` meets the conditions, and after its 5400 ticks the three queues hold the six
units. -/
theorem queues_partition_fleet_witness :
    (sixAlpha (fun _ => 0)).heap = (List.replicate 6 VTOLMake.ALPHA).map VTOL.new ∧
    (sixAlpha (fun _ => 0)).flyingQueue.q = [0, 1, 2, 3, 4, 5] ∧
    (sixAlpha (fun _ => 0)).hoursPerTick = 1 / 1800 ∧
    ∃ e1 : SimulationEngine, (sixAlpha (fun _ => 0)).runTicks 5400 = some e1 ∧
      e1.VTOLs = [0, 1, 2, 3, 4, 5] ∧
      (e1.flyingQueue.q ++ e1.waitingQueue.q ++ e1.chargingQueue.q).Perm e1.VTOLs ∧
      e1.flyingQueue.size + e1.waitingQueue.size + e1.chargingQueue.size = 6 ∧
      (∀ p ∈ e1.VTOLs, ∀ t : VTOLStatus, p ∈ (e1.getQueue t).q ↔ e1.stateOf p = some t) := by
  refine ⟨by decide!, by decide!, by decide!, ?_⟩
  obtain ⟨e1, h1, h2, h3, -, h5, h6⟩ := queues_partition_fleet (sixAlpha (fun _ => 0))
    (List.replicate 6 VTOLMake.ALPHA) 5400 (by decide!) (by decide!) (by decide!) (by decide!)
    (by decide!) (by decide!) (by decide!) (by decide!) (by decide!)
  exact ⟨e1, h1, h2, h3, h5, h6⟩

/-! ## The queue operations of a tick: no error branch -/

/-- C24 (queue operations never take their error branch): from an engine whose queues hold
each of their units once, hold only handles of the heap and respect their capacity (the Flying
and the Waiting queue unbounded, as the constructor makes them, the Charging queue unbounded or
within its capacity), one tick returns, and among the queue operations it makes, in order, every
`pop` of Phase A and Phase C is applied to a queue that is not empty, every `push` of Phase A,
Phase B and Phase C returns true, and every access to the availability list in Phase C is
within its bounds. -/
theorem queue_operations_never_fail (e : SimulationEngine)
    (hnd : ∀ t, (e.getQueue t).q.Nodup)
    (hvalid : ∀ t, ∀ p ∈ (e.getQueue t).q, p < e.heap.length)
    (hflying : e.flyingQueue.capacity = UNLIMITED)
    (hwaiting : e.waitingQueue.capacity = UNLIMITED)
    (hcharging : e.chargingQueue.holds e.chargingQueue.size) :
    ∃ (e1 : SimulationEngine) (log : List QueueEvent),
      e.tickLog = some (e1, log) ∧ e.tick = some e1 ∧ ∀ ev ∈ log, ev.ok = true := by
  have V : QueuesValid e :=
    { valid := hvalid
      holds := by
        intro t
        cases t
        · exact Or.inl hflying
        · exact Or.inl hwaiting
        · exact hcharging
      unbounded := by
        intro t ht
        cases t
        · exact hflying
        · exact hwaiting
        · exact absurd rfl ht }
  obtain ⟨e1, c1, l1, h1, ok1, V1, len1, fr1, some1, val1⟩ :=
    phaseA_log VTOLStatus.FLYING e (some []) V (hnd _) (by simp)
  obtain ⟨e2, c2, l2, h2, ok2, V2, len2, fr2, some2, val2⟩ :=
    phaseA_log VTOLStatus.CHARGING e1 (some []) V1
      (by rw [fr1 _ (by decide)]; exact hnd _) (by simp)
  obtain ⟨e3, c3, l3, h3, ok3, V3, len3, fr3, -, -⟩ :=
    phaseA_log VTOLStatus.WAITING e2 none V2
      (by rw [fr2 _ (by decide), fr1 _ (by decide)]; exact hnd _) (by simp)
  cases c1 with
  | none => simp at some1
  | some cW =>
    cases c2 with
    | none => simp at some2
    | some cF =>
      simp only [Option.getD_some] at val1 val2
      obtain ⟨ok4, V4, len4⟩ := phaseB_log e3 VTOLStatus.WAITING cW V3 (by decide)
        (by
          intro p hp
          rw [len3, len2, len1]
          exact val1 p hp)
      obtain ⟨ok5, V5, len5⟩ := phaseB_log (e3.pushChangedLog VTOLStatus.WAITING cW).1
        VTOLStatus.FLYING cF V4 (by decide)
        (by
          intro p hp
          rw [len4, len3, len2]
          exact val2 p hp)
      obtain ⟨e6, l6, h6, ok6⟩ := allocateLoopLog_total 0
        ((e3.pushChangedLog VTOLStatus.WAITING cW).1.pushChangedLog VTOLStatus.FLYING
          cF).1.waitingQueue.size _ (V5.valid VTOLStatus.WAITING)
      have hlog : e.tickLog = some ({ e6 with chargerAvailabilityTimes := [] },
          l1 ++ l2 ++ l3 ++ (e3.pushChangedLog VTOLStatus.WAITING cW).2 ++
            ((e3.pushChangedLog VTOLStatus.WAITING cW).1.pushChangedLog VTOLStatus.FLYING
              cF).2 ++ l6) := by
        simp only [SimulationEngine.tickLog, h1, h2, h3, SimulationEngine.moveVTOLsLog,
          nextQueueType, ne_eq, not_true_eq_false, not_false_eq_true, if_true, if_false, h6,
          reduceCtorEq]
      refine ⟨_, _, hlog, ?_, ?_⟩
      · have h := tickLog_fst e
        rw [hlog] at h
        exact h.symm
      · intro ev hev
        simp only [List.mem_append] at hev
        rcases hev with ((((hev | hev) | hev) | hev) | hev) | hev
        · exact ok1 ev hev
        · exact ok2 ev hev
        · exact ok3 ev hev
        · exact ok4 ev hev
        · exact ok5 ev hev
        · exact ok6 ev hev

/-- Witness of C24: a tick in which a unit runs out of battery, a unit finishes charging and
both waiting units are given a charger makes fourteen queue operations, none of which takes its
error branch. -/
theorem queue_operations_never_fail_witness :
    busyExample.flyingQueue.q = [0] ∧ busyExample.waitingQueue.q = [1] ∧
    busyExample.chargingQueue.q = [2, 3] ∧ busyExample.chargingQueue.capacity = 3 ∧
    ∃ (e1 : SimulationEngine) (log : List QueueEvent),
      busyExample.tickLog = some (e1, log) ∧ busyExample.tick = some e1 ∧
      log =
        [QueueEvent.pop VTOLStatus.FLYING 1,
         QueueEvent.pop VTOLStatus.CHARGING 2,
         QueueEvent.pop VTOLStatus.CHARGING 1, QueueEvent.push VTOLStatus.CHARGING true,
         QueueEvent.pop VTOLStatus.WAITING 1, QueueEvent.push VTOLStatus.WAITING true,
         QueueEvent.push VTOLStatus.WAITING true,
         QueueEvent.push VTOLStatus.FLYING true,
         QueueEvent.pop VTOLStatus.WAITING 2, QueueEvent.index 0 1,
         QueueEvent.push VTOLStatus.CHARGING true,
         QueueEvent.pop VTOLStatus.WAITING 1, QueueEvent.index 0 1,
         QueueEvent.push VTOLStatus.CHARGING true] ∧
      ∀ ev ∈ log, ev.ok = true := by
  refine ⟨by decide!, by decide!, by decide!, by decide!, ?_⟩
  obtain ⟨e1, log, h1, h2, h3⟩ := queue_operations_never_fail busyExample
    (by intro t; cases t <;> decide!) (by intro t; cases t <;> decide!)
    (by decide!) (by decide!) (Or.inr (by decide!))
  have h4 : busyExample.tickLog.map Prod.snd =
      some
        [QueueEvent.pop VTOLStatus.FLYING 1,
         QueueEvent.pop VTOLStatus.CHARGING 2,
         QueueEvent.pop VTOLStatus.CHARGING 1, QueueEvent.push VTOLStatus.CHARGING true,
         QueueEvent.pop VTOLStatus.WAITING 1, QueueEvent.push VTOLStatus.WAITING true,
         QueueEvent.push VTOLStatus.WAITING true,
         QueueEvent.push VTOLStatus.FLYING true,
         QueueEvent.pop VTOLStatus.WAITING 2, QueueEvent.index 0 1,
         QueueEvent.push VTOLStatus.CHARGING true,
         QueueEvent.pop VTOLStatus.WAITING 1, QueueEvent.index 0 1,
         QueueEvent.push VTOLStatus.CHARGING true] := by decide!
  rw [h1] at h4
  simp only [Option.map_some', Option.some.injEq] at h4
  exact ⟨e1, log, h1, h2, h4, h3⟩

end VTOLSim
